import Mathlib

/-!
# GoldScorpion: the semantic backend

A shallow embedding of the type resolver (`src/src/type_tools.cpp`) and of the
code generator (`src/src/generator.cpp`) of the GoldScorpion compiler, together
with the data model they work on (`src/include/memory_tracker.hpp`,
`src/include/ast.hpp`).

Conventions of the embedding:

* C++ `long` and `int` values are `Int`; none of the embedded functions does
  arithmetic that could overflow.
* `std::optional< T >` is `Option T`, `std::vector< T >` is `List T`,
  `std::variant` is an inductive type with one constructor per alternative.
* A C++ function that may throw (`Error{ ... }.throwException()`) returns
  `Except String _`: `Except.error msg` is the thrown, fatal, error and
  `Except.ok` a normal return.  A reportable error is the ordinary return
  value `TypeResult.err msg`.
-/

namespace GoldScorpion

/-! ## Tokens (token.hpp, as used by lexer.cpp, parser.cpp and type_tools.cpp) -/

/-- Modelled from the spec: the `kind` tag of a token.  The header token.hpp is
not part of the sources at hand; the alternatives are the `TokenType::` names
that the sources mention. -/
inductive TokenType
  | TOKEN_DEF | TOKEN_AS
  | TOKEN_U8 | TOKEN_U16 | TOKEN_U32 | TOKEN_S8 | TOKEN_S16 | TOKEN_S32 | TOKEN_STRING
  | TOKEN_PLUS | TOKEN_MINUS | TOKEN_ASTERISK | TOKEN_FORWARD_SLASH | TOKEN_DOT
  | TOKEN_LEFT_PAREN | TOKEN_RIGHT_PAREN
  | TOKEN_EQUALS | TOKEN_DOUBLE_EQUALS | TOKEN_NOT_EQUALS | TOKEN_NOT
  | TOKEN_THEN | TOKEN_FUNCTION | TOKEN_COMMA | TOKEN_END | TOKEN_TYPE | TOKEN_RETURN
  | TOKEN_IMPORT | TOKEN_LEFT_BRACKET | TOKEN_RIGHT_BRACKET | TOKEN_ASM | TOKEN_THIS
  | TOKEN_GREATER_THAN | TOKEN_LESS_THAN | TOKEN_GREATER_THAN_EQUAL | TOKEN_LESS_THAN_EQUAL
  | TOKEN_SHIFT_RIGHT | TOKEN_SHIFT_LEFT | TOKEN_BYREF | TOKEN_DOUBLE_QUOTE
  | TOKEN_IF | TOKEN_FOR | TOKEN_WHILE | TOKEN_TO | TOKEN_EVERY | TOKEN_ELSE
  | TOKEN_BREAK | TOKEN_CONTINUE | TOKEN_AND | TOKEN_OR | TOKEN_XOR | TOKEN_SUPER
  | TOKEN_LITERAL_INTEGER | TOKEN_LITERAL_STRING | TOKEN_IDENTIFIER | TOKEN_NEWLINE
  deriving DecidableEq, Repr

/-- Modelled from the spec: the payload of a token, a signed integer or a text
(`std::variant< long, std::string >`). -/
inductive TokenValue
  | long (n : Int)
  | string (s : String)
  deriving DecidableEq, Repr

/-- Modelled from the spec: a token is a kind tag and an optional payload
(`Token{ type, value }` in the sources). -/
structure Token where
  type : TokenType
  value : Option TokenValue
  deriving DecidableEq, Repr

/-! ## The expression tree (ast.hpp) -/

mutual
/-- The struct `Primary`: a token or a nested expression. -/
inductive Primary
  | token (t : Token)
  | expression (e : Expression)
/-- The struct `CallExpression`. -/
inductive CallExpression
  | mk (identifier : Expression) (arguments : ExpressionList)
/-- The struct `UnaryExpression`. -/
inductive UnaryExpression
  | mk (op : Primary) (value : Expression)
/-- The struct `BinaryExpression`. -/
inductive BinaryExpression
  | mk (lhsValue : Expression) (op : Primary) (rhsValue : Expression)
/-- The struct `AssignmentExpression`. -/
inductive AssignmentExpression
  | mk (identifier : Primary) (expression : Expression)
/-- The struct `Expression`: a variant over the five node kinds. -/
inductive Expression
  | assignment (e : AssignmentExpression)
  | binary (e : BinaryExpression)
  | unary (e : UnaryExpression)
  | call (e : CallExpression)
  | primary (e : Primary)
/-- The argument vector of a call, `std::vector< std::unique_ptr< Expression > >`. -/
inductive ExpressionList
  | nil
  | cons (head : Expression) (tail : ExpressionList)
end

/-! ## Semantic types and memory records (memory_tracker.hpp) -/

/-- The struct `FunctionTypeParameter`. -/
structure FunctionTypeParameter where
  id : String
  typeId : String
  deriving DecidableEq, Repr

/-- The struct `FunctionType`. -/
structure FunctionType where
  udtId : Option String
  arguments : List FunctionTypeParameter
  returnTypeId : Option String
  deriving DecidableEq, Repr

/-- The struct `ValueType`. -/
structure ValueType where
  id : String
  deriving DecidableEq, Repr

/-- The variant `MemoryDataType = std::variant< FunctionType, ValueType >`. -/
inductive MemoryDataType
  | function (f : FunctionType)
  | value (v : ValueType)
  deriving DecidableEq, Repr

/-- The struct `UdtField`. -/
structure UdtField where
  id : String
  type : MemoryDataType
  deriving DecidableEq, Repr

/-- The struct `UserDefinedType`. -/
structure UserDefinedType where
  id : String
  fields : List UdtField
  deriving DecidableEq, Repr

/-- The struct `MemoryElement`. -/
structure MemoryElement where
  id : Option String
  type : MemoryDataType
  size : Int
  value : Int
  deriving DecidableEq, Repr

/-- The variant `MemoryQuery` over `GlobalMemoryElement`, `ConstMemoryElement`
and `StackMemoryElement`; each alternative is a `MemoryElement` and an offset. -/
inductive MemoryQuery
  | global (value : MemoryElement) (offset : Int)
  | const (value : MemoryElement) (offset : Int)
  | stack (value : MemoryElement) (offset : Int)
  deriving DecidableEq, Repr

/-- The struct `Scope`. -/
structure Scope where
  stackItems : Int
  udtItems : Int
  deriving DecidableEq, Repr

/-- The private state of the class `MemoryTracker`.  The `std::stack< Scope >`
is a list whose head is the top of the stack; the vectors grow at the tail. -/
structure MemoryTracker where
  textSegment : List MemoryElement
  dataSegment : List MemoryElement
  stack : List MemoryElement
  udts : List UserDefinedType
  scopes : List Scope
  deriving DecidableEq, Repr

/-! ## Memory tracker queries

memory_tracker.hpp declares these member functions; their bodies
(memory_tracker.cpp) are not part of the sources at hand. -/

/-- Pairs every element of a segment with its byte offset, the sum of the sizes
of the elements before it; `base` is the offset of the first element. -/
def withOffsets : List MemoryElement → Int → List (MemoryElement × Int)
  | [], _ => []
  | e :: rest, base => (e, base) :: withOffsets rest (base + e.size)

/-- Modelled from the spec: `MemoryTracker::find`, whose body is not in the
sources.  Section 4.1: searches the stack tail-to-head (most recently pushed
first), then the global (data) segment, then the constant (text) segment, and
returns the first match tagged by storage class, absent if there is none.  With
`currentScope` the search is bounded to the entries pushed since the innermost
open scope. -/
def MemoryTracker.find (memory : MemoryTracker) (id : String) (currentScope : Bool) :
    Option MemoryQuery :=
  let hasId : MemoryElement × Int → Bool := fun entry => entry.1.id == some id
  match currentScope, memory.scopes with
  | true, scope :: _ =>
    (((withOffsets memory.stack 0).drop scope.stackItems.toNat).reverse.find? hasId).map
      (fun entry => MemoryQuery.stack entry.1 entry.2)
  | _, _ =>
    match (withOffsets memory.stack 0).reverse.find? hasId with
    | some entry => some (MemoryQuery.stack entry.1 entry.2)
    | none =>
      match (withOffsets memory.dataSegment 0).find? hasId with
      | some entry => some (MemoryQuery.global entry.1 entry.2)
      | none =>
        match (withOffsets memory.textSegment 0).find? hasId with
        | some entry => some (MemoryQuery.const entry.1 entry.2)
        | none => none

/-- Modelled from the spec: `MemoryTracker::findUdt`, whose body is not in the
sources.  Section 4.1: queries the registered UDTs by name; with `currentScope`
only the UDTs registered since the innermost open scope are searched. -/
def MemoryTracker.findUdt (memory : MemoryTracker) (id : String) (currentScope : Bool) :
    Option UserDefinedType :=
  match currentScope, memory.scopes with
  | true, scope :: _ => (memory.udts.drop scope.udtItems.toNat).find? (fun udt => udt.id == id)
  | _, _ => memory.udts.find? (fun udt => udt.id == id)

/-- Modelled from the spec: `MemoryTracker::findUdtField`, whose body is not in
the sources.  Section 4.1: looks up a field by name on a registered UDT; absent
if the UDT or the field is unknown. -/
def MemoryTracker.findUdtField (memory : MemoryTracker) (id : String) (fieldId : String)
    (currentScope : Bool) : Option UdtField :=
  match memory.findUdt id currentScope with
  | none => none
  | some udt => udt.fields.find? (fun field => field.id == fieldId)

/-- Modelled from the spec: the static `MemoryTracker::unwrapValue`, whose body
is not in the sources.  Section 4.1: the projection of the common
`MemoryElement` out of any of the three storage-class wrappers. -/
def MemoryTracker.unwrapValue : MemoryQuery → MemoryElement
  | .global value _ => value
  | .const value _ => value
  | .stack value _ => value

/-- Modelled from the spec: the static `MemoryTracker::unwrapOffset`, whose body
is not in the sources.  Section 4.1: the projection of the byte offset. -/
def MemoryTracker.unwrapOffset : MemoryQuery → Int
  | .global _ offset => offset
  | .const _ offset => offset
  | .stack _ offset => offset

/-- The struct `StackMemoryElement`: a memory element and its offset on the
stack. -/
structure StackMemoryElement where
  value : MemoryElement
  offset : Int
  deriving DecidableEq, Repr

/-- Modelled from the spec: `MemoryTracker::push`, whose body is not in the
sources.  Section 4.1: appends at the stack tail; the offset of the element is
the running total of the stack bytes consumed so far, which `withOffsets`
computes from the sizes of the elements before it. -/
def MemoryTracker.push (memory : MemoryTracker) (element : MemoryElement) : MemoryTracker :=
  { memory with stack := memory.stack ++ [element] }

/-- Modelled from the spec: `MemoryTracker::insert`, whose body is not in the
sources.  Section 4.1: appends to the data segment (`constant = false`) or to
the constant segment (`constant = true`) at the next available offset, and
fails if the id of the element already exists in that segment. -/
def MemoryTracker.insert (memory : MemoryTracker) (element : MemoryElement) (constant : Bool) :
    Except String MemoryTracker :=
  let segment := if constant then memory.textSegment else memory.dataSegment
  match element.id with
  | some id =>
    if segment.any (fun existing => existing.id == some id) then
      throw ("Identifier already exists in segment: " ++ id)
    else if constant then pure { memory with textSegment := memory.textSegment ++ [element] }
    else pure { memory with dataSegment := memory.dataSegment ++ [element] }
  | none =>
    if constant then pure { memory with textSegment := memory.textSegment ++ [element] }
    else pure { memory with dataSegment := memory.dataSegment ++ [element] }

/-- Modelled from the spec: `MemoryTracker::openScope`, whose body is not in the
sources.  Sections 3 and 4.1: pushes a `Scope` checkpoint of the sizes of the
stack and of the UDT registry at the time of the call. -/
def MemoryTracker.openScope (memory : MemoryTracker) : MemoryTracker :=
  { memory with scopes := ⟨memory.stack.length, memory.udts.length⟩ :: memory.scopes }

/-- Modelled from the spec: `MemoryTracker::closeScope`, whose body is not in
the sources.  Sections 3 and 4.1: pops the `Scope` checkpoint, returns every
stack element pushed since the matching `openScope` with its offset, and
unwinds the stack and the UDT registry to the sizes of the checkpoint; with no
open scope it is a fatal error. -/
def MemoryTracker.closeScope (memory : MemoryTracker) :
    Except String (List StackMemoryElement × MemoryTracker) :=
  match memory.scopes with
  | [] => throw "Internal compiler error (closeScope without open scope)"
  | scope :: enclosing =>
    pure (((withOffsets memory.stack 0).drop scope.stackItems.toNat).map
            (fun entry => StackMemoryElement.mk entry.1 entry.2),
          { memory with
            stack := memory.stack.take scope.stackItems.toNat
            udts := memory.udts.take scope.udtItems.toNat
            scopes := enclosing })

/-- A sequence of calls of `push`, one for each element in order. -/
def MemoryTracker.pushAll (memory : MemoryTracker) (elements : List MemoryElement) :
    MemoryTracker :=
  elements.foldl MemoryTracker.push memory

/-- The sum of the sizes of the elements of a segment. -/
def segmentSize (segment : List MemoryElement) : Int :=
  (segment.map (fun element => element.size)).sum

/-- Modelled from the spec: `getIdentifierName` of tree_tools.hpp, whose body is
not in the sources.  Section 4.2: the operand must itself be a bare identifier,
that is an `Expression` holding a `Primary` holding an identifier token with a
text payload; anything else gives the absent value. -/
def getIdentifierName : Expression → Option String
  | .primary (.token ⟨.TOKEN_IDENTIFIER, some (.string name)⟩) => some name
  | _ => none

/-! ## The type resolver (type_tools.cpp) -/

deriving instance DecidableEq for Except

/-- The class `TypeResult`: `TypeResult::good( type )` or `TypeResult::err( message )`. -/
inductive TypeResult
  | good (type : MemoryDataType)
  | err (message : String)
  deriving DecidableEq, Repr

/-- The static `getLiteralType` of type_tools.cpp. -/
def getLiteralType (literal : Int) : String :=
  if literal < 0 then
    if literal ≥ -127 then "s8"
    else if literal ≥ -32767 then "s16"
    else "s32"
  else
    if literal ≤ 255 then "u8"
    else if literal ≤ 65535 then "u16"
    else "u32"

/-- The static `expectLong` of type_tools.cpp: the integer payload of the
token, or a thrown internal error. -/
def expectLong (token : Token) : Except String Int :=
  match token.value with
  | some (.long longValue) => pure longValue
  | _ => throw "Internal compiler error"

/-- The static `expectString` of type_tools.cpp: the text payload of the token,
or a thrown internal error. -/
def expectString (token : Token) : Except String String :=
  match token.value with
  | some (.string stringValue) => pure stringValue
  | _ => throw "Internal compiler error"

/-- The static `getTypeComparison` of type_tools.cpp (a `char` used as a small
number). -/
def getTypeComparison (id : String) : Nat :=
  if id = "u8" ∨ id = "s8" then 0
  else if id = "u16" ∨ id = "s16" then 1
  else if id = "u32" ∨ id = "s32" ∨ id = "string" then 2
  else 3

/-- The static `isSigned` of type_tools.cpp. -/
def isSigned (id : String) : Bool :=
  id = "s8" ∨ id = "s16" ∨ id = "s32"

/-- The static `isOneSigned` of type_tools.cpp. -/
def isOneSigned (a b : String) : Bool :=
  (isSigned a && !isSigned b) || (!isSigned a && isSigned b)

/-- The static `scrubSigned` of type_tools.cpp. -/
def scrubSigned (id : String) : String :=
  if id = "s8" then "u8"
  else if id = "s16" then "u16"
  else if id = "s32" then "u32"
  else "<undefined>"

/-- The function `typeIdToTokenType`. -/
def typeIdToTokenType (id : String) : Option TokenType :=
  if id = "u8" then some .TOKEN_U8
  else if id = "u16" then some .TOKEN_U16
  else if id = "u32" then some .TOKEN_U32
  else if id = "s8" then some .TOKEN_S8
  else if id = "s16" then some .TOKEN_S16
  else if id = "s32" then some .TOKEN_S32
  else if id = "string" then some .TOKEN_STRING
  else none

/-- The function `tokenTypeToTypeId`. -/
def tokenTypeToTypeId : TokenType → Option String
  | .TOKEN_U8 => some "u8"
  | .TOKEN_U16 => some "u16"
  | .TOKEN_U32 => some "u32"
  | .TOKEN_S8 => some "s8"
  | .TOKEN_S16 => some "s16"
  | .TOKEN_S32 => some "s32"
  | .TOKEN_STRING => some "string"
  | _ => none

/-- The function `tokenToTypeId`. -/
def tokenToTypeId (token : Token) : Option String :=
  match tokenTypeToTypeId token.type with
  | some typeId => some typeId
  | none =>
    match token.type, token.value with
    | .TOKEN_IDENTIFIER, some (.string stringValue) => some stringValue
    | _, _ => none

/-- The function `unwrapTypeId`: the id of a `ValueType`; on a `FunctionType`
it throws. -/
def unwrapTypeId : MemoryDataType → Except String String
  | .function _ => throw "Internal compiler error (attempted simple unwrap of function type)"
  | .value element => pure element.id

/-- The function `typeIsValue`. -/
def typeIsValue : MemoryDataType → Bool
  | .value _ => true
  | .function _ => false

/-- The function `typeIsFunction`. -/
def typeIsFunction : MemoryDataType → Bool
  | .function _ => true
  | .value _ => false

/-- The argument loop of `typeToString`: the type ids separated by commas. -/
def typeToStringArguments : List FunctionTypeParameter → String
  | [] => ""
  | [argument] => argument.typeId
  | argument :: rest => argument.typeId ++ "," ++ typeToStringArguments rest

/-- The function `typeToString`.  The call of `unwrapTypeId` is in the branch
where the type is not a function, where it returns the id. -/
def typeToString : MemoryDataType → String
  | .function function =>
    "function."
      ++ (match function.udtId with
          | some udtId => udtId ++ "."
          | none => "")
      ++ "(" ++ typeToStringArguments function.arguments ++ ")."
      ++ (match function.returnTypeId with
          | some returnTypeId => returnTypeId
          | none => "")
  | .value element => element.id

/-- The function `typesComparable`. -/
def typesComparable (lhs rhs : MemoryDataType) : Bool :=
  (typeIsFunction lhs && typeIsFunction rhs) || (typeIsValue lhs && typeIsValue rhs)

/-- The function `typeIsUdt`.  `unwrapTypeId` is only reached on a `ValueType`,
where it returns the id. -/
def typeIsUdt : MemoryDataType → Bool
  | .function _ => false
  | .value element => (typeIdToTokenType element.id).isNone

/-- The function `typeIsInteger`.  `unwrapTypeId` is only reached on a
`ValueType`. -/
def typeIsInteger : MemoryDataType → Bool
  | .function _ => false
  | .value element =>
    let typeId := element.id
    typeId = "u8" ∨ typeId = "u16" ∨ typeId = "u32" ∨ typeId = "s8" ∨ typeId = "s16" ∨ typeId = "s32"

/-- The function `typeIsString`.  `unwrapTypeId` is only reached on a
`ValueType`. -/
def typeIsString : MemoryDataType → Bool
  | .function _ => false
  | .value element => element.id = "string"

/-- The argument loop of `typesMatch`, entered once the two vectors are known
to have the same size: false at the first position whose type ids differ. -/
def argumentTypesMatch : List FunctionTypeParameter → List FunctionTypeParameter → Bool
  | l :: ls, r :: rs => if l.typeId ≠ r.typeId then false else argumentTypesMatch ls rs
  | _, _ => true

/-- The function `typesMatch`.  After the `typesComparable` guard both types
are of the same alternative, so `std::get< FunctionType >( rhs )` and the two
calls of `unwrapTypeId` cannot throw. -/
def typesMatch (lhs rhs : MemoryDataType) : Bool :=
  if !typesComparable lhs rhs then false
  else
    match lhs, rhs with
    | .function lhsFunction, .function rhsFunction =>
      if lhsFunction.udtId ≠ rhsFunction.udtId then false
      else if lhsFunction.arguments.length ≠ rhsFunction.arguments.length then false
      else if !argumentTypesMatch lhsFunction.arguments rhsFunction.arguments then false
      else if lhsFunction.returnTypeId ≠ rhsFunction.returnTypeId then false
      else true
    | .value lhsValue, .value rhsValue => lhsValue.id = rhsValue.id
    | _, _ => false

/-- The function `integerTypesMatch`. -/
def integerTypesMatch (lhs rhs : MemoryDataType) : Bool :=
  typeIsInteger lhs && typeIsInteger rhs

/-- The function `promotePrimitiveTypes`: throws unless both types are integer
types. -/
def promotePrimitiveTypes (lhs rhs : MemoryDataType) : Except String MemoryDataType :=
  if !typeIsInteger lhs || !typeIsInteger rhs then
    throw "Internal compiler error (attempted to promote noninteger type)"
  else do
    let lhsTypeId ← unwrapTypeId lhs
    let rhsTypeId ← unwrapTypeId rhs
    if getTypeComparison rhsTypeId ≥ getTypeComparison lhsTypeId then
      pure (.value ⟨if isOneSigned lhsTypeId rhsTypeId then scrubSigned rhsTypeId else rhsTypeId⟩)
    else
      pure (.value ⟨if isOneSigned lhsTypeId rhsTypeId then scrubSigned lhsTypeId else lhsTypeId⟩)

mutual
/-- The overload `getType( const Primary&, MemoryTracker& )`. -/
def getTypePrimary (node : Primary) (memory : MemoryTracker) : Except String TypeResult :=
  match node with
  | .token token =>
    match token.type with
    | .TOKEN_LITERAL_INTEGER => do
      let literal ← expectLong token
      pure (.good (.value ⟨getLiteralType literal⟩))
    | .TOKEN_LITERAL_STRING => pure (.good (.value ⟨"string"⟩))
    | .TOKEN_THIS =>
      match memory.find "this" false with
      | none => throw "Internal compiler error (unable to determine type of \"this\" token)"
      | some thisQuery => pure (.good (MemoryTracker.unwrapValue thisQuery).type)
    | .TOKEN_IDENTIFIER => do
      let id ← expectString token
      match memory.find id false with
      | none => pure (.err ("Undefined variable: " ++ id))
      | some memoryQuery =>
        let type := (MemoryTracker.unwrapValue memoryQuery).type
        if typeIsUdt type then do
          let typeId ← unwrapTypeId type
          match memory.findUdt typeId false with
          | none => throw "Internal compiler error (UDT specified as ValueType but UDT not found)"
          | some _ => pure (.good type)
        else
          pure (.good type)
    | _ => throw "Internal compiler error"
  | .expression expression => getTypeExpression expression memory

/-- The overload `getType( const CallExpression&, MemoryTracker& )`. -/
def getTypeCallExpression (node : CallExpression) (memory : MemoryTracker) :
    Except String TypeResult :=
  match node with
  | .mk identifier _ => do
    let expressionType ← getTypeExpression identifier memory
    match expressionType with
    | .err error =>
      pure (.err ("Could not deduce type of identifier in CallExpression: " ++ error))
    | .good type =>
      match type with
      | .value _ => pure (.err ("Unable to call non-function type " ++ typeToString type))
      | .function function =>
        match function.returnTypeId with
        | none => pure (.err "Cannot call function with no return type")
        | some returnTypeId => pure (.good (.value ⟨returnTypeId⟩))

/-- The overload `getType( const BinaryExpression&, MemoryTracker& )`. -/
def getTypeBinaryExpression (node : BinaryExpression) (memory : MemoryTracker) :
    Except String TypeResult :=
  match node with
  | .mk lhsValue op rhsValue => do
    let lhs ← getTypeExpression lhsValue memory
    let rhs ← getTypeExpression rhsValue memory
    match op with
    | .expression _ =>
      throw "Internal compiler error (BinaryExpression op does not contain Token variant)"
    | .token token =>
      match token.type with
      | .TOKEN_DOT =>
        match getIdentifierName rhsValue with
        | none => pure (.err "Right-hand side of dot operator must contain single identifier")
        | some rhsIdentifier =>
          match lhs with
          | .err _ => pure lhs
          | .good lhsType => do
            let lhsTypeId ← unwrapTypeId lhsType
            match memory.findUdt lhsTypeId false with
            | none => pure (.err "Undeclared user-defined type")
            | some lhsUdt =>
              match memory.findUdtField lhsUdt.id rhsIdentifier false with
              | none =>
                pure (.err ("User-defined type " ++ lhsUdt.id ++ " does not have field "
                  ++ rhsIdentifier))
              | some rhsUdtField => pure (.good rhsUdtField.type)
      | _ =>
        match lhs, rhs with
        | .err _, _ => pure lhs
        | .good _, .err _ => pure rhs
        | .good lhsType, .good rhsType =>
          if typeIsUdt lhsType || typeIsFunction lhsType then
            if typesMatch lhsType rhsType then pure lhs
            else pure (.err "Type mismatch")
          else do
            let promoted ← promotePrimitiveTypes lhsType rhsType
            pure (.good promoted)

/-- The overload `getType( const Expression&, MemoryTracker& )`. -/
def getTypeExpression (node : Expression) (memory : MemoryTracker) : Except String TypeResult :=
  match node with
  | .binary binaryExpression => getTypeBinaryExpression binaryExpression memory
  | .primary primaryExpression => getTypePrimary primaryExpression memory
  | .call callExpression => getTypeCallExpression callExpression memory
  | _ => pure (.err "Expression subtype not implemented")
end

end GoldScorpion

/-! ## Sizes of types (type_tools.cpp) -/

namespace GoldScorpion

/-- The function `getPrimitiveTypeSize`.  `unwrapTypeId` is only reached on a
`ValueType`, after the guard on `typeIsFunction`. -/
def getPrimitiveTypeSize (type : MemoryDataType) : Option Int :=
  if typeIsUdt type || typeIsFunction type then none
  else
    match type with
    | .function _ => none
    | .value element =>
      let typeId := element.id
      if typeId = "u8" ∨ typeId = "s8" then some 1
      else if typeId = "u16" ∨ typeId = "s16" then some 2
      else if typeId = "u32" ∨ typeId = "s32" ∨ typeId = "string" then some 4
      else none

/-- The loop over the fields in `getUdtTypeSize`, started with the running
`totalSize`; `recurse` stands for the recursive call of `getUdtTypeSize` on the
type of a field.  The outer `Option` is absent when that call does not return
within its budget, the inner one is the `std::optional< long >` of the code. -/
def getUdtTypeSizeFields (recurse : MemoryDataType → Option (Option Int)) :
    List UdtField → Int → Option (Option Int)
  | [], totalSize => some (some totalSize)
  | field :: rest, totalSize =>
    if typeIsUdt field.type then
      match recurse field.type with
      | none => none
      | some none => some none
      | some (some size) => getUdtTypeSizeFields recurse rest (totalSize + size)
    else
      match getPrimitiveTypeSize field.type with
      | none => some none
      | some size => getUdtTypeSizeFields recurse rest (totalSize + size)

/-- The function `getUdtTypeSize`.  The recursion of the code goes through the
UDT registry and need not end (a UDT may name itself in a field), so the
embedding carries a budget of nested calls: the outer `Option` is absent when
the budget `fuel` is used up, and the inner one is the `std::optional< long >`
that the code returns.  `unwrapTypeId` is reached on a `ValueType` only. -/
def getUdtTypeSize : Nat → MemoryDataType → MemoryTracker → Option (Option Int)
  | 0, _, _ => none
  | fuel + 1, type, memory =>
    if !typeIsUdt type then some none
    else
      match type with
      | .function _ => some none
      | .value element =>
        match memory.findUdt element.id false with
        | none => some none
        | some query =>
          match getUdtTypeSizeFields (fun fieldType => getUdtTypeSize fuel fieldType memory)
              query.fields 0 with
          | none => none
          | some none => some none
          | some (some totalSize) => if totalSize = 0 then some none else some (some totalSize)

/-- The UDT named `outer` has, in the registry, a field whose type is the UDT
type named `inner`: the link that a recursive call of `getUdtTypeSize`
follows. -/
def fieldStep (memory : MemoryTracker) (outer inner : String) : Prop :=
  ∃ udt : UserDefinedType, memory.findUdt outer false = some udt ∧
    ∃ field ∈ udt.fields, field.type = .value ⟨inner⟩ ∧ typeIsUdt (.value ⟨inner⟩) = true

end GoldScorpion

/-! ## The target instructions (arch/m68k/instruction.hpp) -/

namespace GoldScorpion.m68k

/-- Modelled from the spec: the operand width of an instruction, 1, 2 or 4
bytes; the header is not in the sources, the names are those generator.cpp
uses. -/
inductive OperatorSize
  | BYTE | WORD | LONG
  deriving DecidableEq, Repr

/-- Modelled from the spec: the operator of an instruction; the names are those
generator.cpp uses. -/
inductive Operator
  | MOVE | ADD | SUBTRACT
  | MULTIPLY_SIGNED | MULTIPLY_UNSIGNED | DIVIDE_SIGNED | DIVIDE_UNSIGNED
  deriving DecidableEq, Repr

/-- Modelled from the spec: the addressing mode of an operand; the names are
those generator.cpp uses. -/
inductive OperandType
  | IMMEDIATE | REGISTER_d0 | REGISTER_sp_INDIRECT
  deriving DecidableEq, Repr

/-- Modelled from the spec: an operand, the four values
`{indexOrOffset, addressing-mode, secondaryIndex, immediateValue}` in the order
in which generator.cpp lists them.  On a stack-pointer-indirect operand the
index -1 is the pre-decrement and the secondary index 1 the post-increment. -/
structure Operand where
  indexOrOffset : Int
  type : OperandType
  secondaryIndex : Int
  immediateValue : Int
  deriving DecidableEq, Repr

/-- Modelled from the spec: an instruction, the four values
`{operator, operand-width, source-operand, destination-operand}` in the order
in which generator.cpp lists them. -/
structure Instruction where
  operator : Operator
  size : OperatorSize
  source : Operand
  destination : Operand
  deriving DecidableEq, Repr

end GoldScorpion.m68k

/-! ## The code generator (generator.cpp)

The file-local functions of generator.cpp carry the names of the file-local
functions of type_tools.cpp; they live in the namespace `Generator`.  The
functions throw `std::runtime_error`, and they write to the assembly they are
given by reference, so what they have appended before a throw stays appended:
`Generated.threw` carries the assembly as it is at the throw. -/

namespace GoldScorpion.Generator

/-- Modelled from the spec: the struct `Assembly` of generator.hpp, which is not
in the sources: the ordered instruction list, and the memory tracker that
generator.cpp reads as `assembly.memory`. -/
structure Assembly where
  instructions : List m68k.Instruction
  memory : MemoryTracker
  deriving DecidableEq, Repr

/-- The outcome of a `generate` function: a normal return with the assembly as
it is then, or a thrown error with the assembly as it is at the throw. -/
inductive Generated
  | done (assembly : Assembly)
  | threw (message : String) (assembly : Assembly)
  deriving DecidableEq, Repr

/-- The enum `ExpressionDataType`. -/
inductive ExpressionDataType
  | INVALID | U8 | U16 | U32 | S8 | S16 | S32 | STRING
  deriving DecidableEq, Repr

/-- The static `getTypeComparison` of generator.cpp. -/
def getTypeComparison : ExpressionDataType → Nat
  | .U8 | .S8 => 1
  | .U16 | .S16 => 2
  | .U32 | .S32 | .STRING => 3
  | .INVALID => 0

/-- The static `isSigned` of generator.cpp. -/
def isSigned : ExpressionDataType → Bool
  | .S8 | .S16 | .S32 => true
  | _ => false

/-- The static `isOneSigned` of generator.cpp. -/
def isOneSigned (a b : ExpressionDataType) : Bool :=
  (isSigned a && !isSigned b) || (!isSigned a && isSigned b)

/-- The static `scrubSigned` of generator.cpp. -/
def scrubSigned : ExpressionDataType → ExpressionDataType
  | .S8 => .U8
  | .S16 => .U16
  | .S32 => .U32
  | type => type

/-- The static `typeToWordSize`. -/
def typeToWordSize : ExpressionDataType → m68k.OperatorSize
  | .U8 | .S8 => .BYTE
  | .U16 | .S16 => .WORD
  | _ => .LONG

/-- The static `getLiteralType` of generator.cpp. -/
def getLiteralType (literal : Int) : ExpressionDataType :=
  if literal < 0 then
    if literal ≥ -127 then .S8
    else if literal ≥ -32767 then .S16
    else .S32
  else
    if literal ≤ 255 then .U8
    else if literal ≤ 65535 then .U16
    else .U32

/-- The static `getIdentifierType`: the lookup in the table `types`. -/
def getIdentifierType (typeId : String) : ExpressionDataType :=
  if typeId = "u8" then .U8
  else if typeId = "u16" then .U16
  else if typeId = "u32" then .U32
  else if typeId = "s8" then .S8
  else if typeId = "s16" then .S16
  else if typeId = "s32" then .S32
  else if typeId = "string" then .STRING
  else .INVALID

/-- The static `expectLong` of generator.cpp. -/
def expectLong (token : Token) (error : String) : Except String Int :=
  match token.value with
  | some (.long longValue) => pure longValue
  | _ => throw error

/-- The static `expectString` of generator.cpp. -/
def expectString (token : Token) (error : String) : Except String String :=
  match token.value with
  | some (.string stringValue) => pure stringValue
  | _ => throw error

/-- The static `expectToken`. -/
def expectToken (primary : Primary) (error : String) : Except String Token :=
  match primary with
  | .token token => pure token
  | .expression _ => throw error

/-- Modelled from the spec: generator.cpp reads the member `value.typeId` of the
memory element it has found, and memory_tracker.hpp as it is in the sources
has the member `type` in its place.  The element of a `ValueType` has the id
of that type as its type id; the element of a `FunctionType` has none, and its
lookup in the table `types` fails. -/
def elementTypeId (element : MemoryElement) : Option String :=
  match element.type with
  | .value valueType => some valueType.id
  | .function _ => none

/-- The part of `getType( const BinaryExpression&, Assembly& )` that follows the
derivation of the two operand types `lhs` and `rhs`. -/
def promote (lhs rhs : ExpressionDataType) : ExpressionDataType :=
  if lhs = .INVALID ∨ rhs = .INVALID then .INVALID
  else if getTypeComparison rhs ≥ getTypeComparison lhs then
    if isOneSigned lhs rhs then scrubSigned rhs else rhs
  else
    if isOneSigned lhs rhs then scrubSigned lhs else lhs

mutual
/-- The overload `getType( const Primary&, Assembly& )` of generator.cpp.  The
visitor on the memory query reads the element the same way from each
alternative it names. -/
def getTypePrimary (node : Primary) (assembly : Assembly) : Except String ExpressionDataType :=
  match node with
  | .token token =>
    match token.type with
    | .TOKEN_LITERAL_INTEGER => do
      let literal ← expectLong token "Expected: long type for literal integer token"
      pure (getLiteralType literal)
    | .TOKEN_LITERAL_STRING => pure .STRING
    | .TOKEN_IDENTIFIER => do
      let id ← expectString token "Expected: string type for identifier token"
      match assembly.memory.find id false with
      | none => throw ("Undefined identifier: " ++ id)
      | some memoryQuery =>
        match elementTypeId (MemoryTracker.unwrapValue memoryQuery) with
        | some typeId => pure (getIdentifierType typeId)
        | none => pure .INVALID
    | _ => throw "Expected: integer, string, or identifier as expression operand"
  | .expression expression => getTypeExpression expression assembly

/-- The overload `getType( const BinaryExpression&, Assembly& )` of generator.cpp. -/
def getTypeBinaryExpression (node : BinaryExpression) (assembly : Assembly) :
    Except String ExpressionDataType :=
  match node with
  | .mk lhsValue _ rhsValue => do
    let lhs ← getTypeExpression lhsValue assembly
    let rhs ← getTypeExpression rhsValue assembly
    pure (promote lhs rhs)

/-- The overload `getType( const Expression&, Assembly& )` of generator.cpp. -/
def getTypeExpression (node : Expression) (assembly : Assembly) :
    Except String ExpressionDataType :=
  match node with
  | .binary binaryExpression => getTypeBinaryExpression binaryExpression assembly
  | .primary primaryExpression => getTypePrimary primaryExpression assembly
  | _ => pure .INVALID
end

/-- The operand that reads the top of the runtime stack and pops it:
`m68k::Operand{ 0, REGISTER_sp_INDIRECT, 1, 0 }`. -/
def stackPop : m68k.Operand := ⟨0, .REGISTER_sp_INDIRECT, 1, 0⟩

/-- The operand for the accumulator: `m68k::Operand{ 0, REGISTER_d0, 0, 0 }`. -/
def accumulator : m68k.Operand := ⟨0, .REGISTER_d0, 0, 0⟩

/-- The `push_back` on `assembly.instructions`. -/
def Assembly.push (assembly : Assembly) (instruction : m68k.Instruction) : Assembly :=
  { assembly with instructions := assembly.instructions ++ [instruction] }

/-- The `switch` at the end of `generate( const BinaryExpression&, Assembly& )`:
the operator of the arithmetic instruction for the operator token, absent in
the `default` case, where the code throws. -/
def arithmeticOperator (tokenType : TokenType) (type : ExpressionDataType) :
    Option m68k.Operator :=
  match tokenType with
  | .TOKEN_PLUS => some .ADD
  | .TOKEN_MINUS => some .SUBTRACT
  | .TOKEN_ASTERISK => some (if isSigned type then .MULTIPLY_SIGNED else .MULTIPLY_UNSIGNED)
  | .TOKEN_FORWARD_SLASH => some (if isSigned type then .DIVIDE_SIGNED else .DIVIDE_UNSIGNED)
  | _ => none

mutual
/-- The overload `generate( const Primary&, Assembly& )`.  The members of the
instruction are evaluated in the order in which they are listed, the type of
the node before the payload of the token. -/
def generatePrimary (node : Primary) (assembly : Assembly) : Generated :=
  match node with
  | .token token =>
    if token.type = .TOKEN_LITERAL_INTEGER then
      match getTypePrimary (.token token) assembly with
      | .error message => .threw message assembly
      | .ok type =>
        match expectLong token "Internal compiler error" with
        | .error message => .threw message assembly
        | .ok literal =>
          .done (assembly.push
            ⟨.MOVE, typeToWordSize type, ⟨0, .IMMEDIATE, 0, literal⟩,
              ⟨-1, .REGISTER_sp_INDIRECT, 0, 0⟩⟩)
    else
      .threw "Expected: TOKEN_LITERAL_INTEGER to generate Primary code" assembly
  | .expression expression => generateExpression expression assembly

/-- The overload `generate( const BinaryExpression&, Assembly& )`. -/
def generateBinaryExpression (node : BinaryExpression) (assembly : Assembly) : Generated :=
  match node with
  | .mk lhsValue op rhsValue =>
    match getTypeBinaryExpression (.mk lhsValue op rhsValue) assembly with
    | .error message => .threw message assembly
    | .ok type =>
      let wordSize := typeToWordSize type
      match generateExpression rhsValue assembly with
      | .threw message afterRhs => .threw message afterRhs
      | .done afterRhs =>
        match generateExpression lhsValue afterRhs with
        | .threw message afterLhs => .threw message afterLhs
        | .done afterLhs =>
          let moved := afterLhs.push ⟨.MOVE, wordSize, stackPop, accumulator⟩
          match expectToken op "Expected: Token as BinaryExpression operator" with
          | .error message => .threw message moved
          | .ok token =>
            match arithmeticOperator token.type type with
            | some operator => .done (moved.push ⟨operator, wordSize, stackPop, accumulator⟩)
            | none => .threw "Expected: ., +, -, *, or / operator" moved

/-- The overload `generate( const Expression&, Assembly& )`: it has a branch for
a `BinaryExpression` and none for the other node kinds. -/
def generateExpression (node : Expression) (assembly : Assembly) : Generated :=
  match node with
  | .binary binaryExpression => generateBinaryExpression binaryExpression assembly
  | _ => .done assembly
end

/-- The six integer kinds among the values of `ExpressionDataType`. -/
def isIntegerKind : ExpressionDataType → Bool
  | .U8 | .U16 | .U32 | .S8 | .S16 | .S32 => true
  | _ => false

mutual
/-- The number of `BinaryExpression` nodes reached from an expression through
operand links that hold a `BinaryExpression` directly: none when the expression
holds a node of another kind. -/
def binaryNodes : Expression → Nat
  | .binary node => binaryNodesOf node
  | _ => 0
/-- The count of `binaryNodes` for a `BinaryExpression`: the node itself and the
nodes reached from its two operands. -/
def binaryNodesOf : BinaryExpression → Nat
  | .mk lhsValue _ rhsValue => 1 + binaryNodes lhsValue + binaryNodes rhsValue
end

/-- An instruction that reads the top of the runtime stack with post-increment
and writes the accumulator `d0`. -/
def popsIntoAccumulator (instruction : m68k.Instruction) : Prop :=
  instruction.source = ⟨0, .REGISTER_sp_INDIRECT, 1, 0⟩ ∧
  instruction.destination = ⟨0, .REGISTER_d0, 0, 0⟩

end GoldScorpion.Generator

/-! ## The lexer (lexer.cpp)

A `std::string` is a list of characters.  `getTokens` returns a
`Result< std::vector< Token > >`, the tokens or an error text, and the call of
`std::stol` in it may throw. -/

namespace GoldScorpion.Lexer

/-- The table `TOKEN_MAP` of keywords and symbols. -/
def TOKEN_MAP : List (String × TokenType) :=
  [("def", .TOKEN_DEF), ("as", .TOKEN_AS), ("u8", .TOKEN_U8), ("u16", .TOKEN_U16),
   ("u32", .TOKEN_U32), ("s8", .TOKEN_S8), ("s16", .TOKEN_S16), ("s32", .TOKEN_S32),
   ("string", .TOKEN_STRING), ("+", .TOKEN_PLUS), ("-", .TOKEN_MINUS),
   ("*", .TOKEN_ASTERISK), ("/", .TOKEN_FORWARD_SLASH), (".", .TOKEN_DOT),
   ("(", .TOKEN_LEFT_PAREN), (")", .TOKEN_RIGHT_PAREN), ("=", .TOKEN_EQUALS),
   ("==", .TOKEN_DOUBLE_EQUALS), ("!=", .TOKEN_NOT_EQUALS), ("not", .TOKEN_NOT),
   ("then", .TOKEN_THEN), ("function", .TOKEN_FUNCTION), (",", .TOKEN_COMMA),
   ("end", .TOKEN_END), ("type", .TOKEN_TYPE), ("return", .TOKEN_RETURN),
   ("import", .TOKEN_IMPORT), ("[", .TOKEN_LEFT_BRACKET), ("]", .TOKEN_RIGHT_BRACKET),
   ("asm", .TOKEN_ASM), ("this", .TOKEN_THIS), (">", .TOKEN_GREATER_THAN),
   ("<", .TOKEN_LESS_THAN), (">=", .TOKEN_GREATER_THAN_EQUAL), ("<=", .TOKEN_LESS_THAN_EQUAL),
   (">>", .TOKEN_SHIFT_RIGHT), ("<<", .TOKEN_SHIFT_LEFT), ("byref", .TOKEN_BYREF),
   ("\"", .TOKEN_DOUBLE_QUOTE), ("if", .TOKEN_IF), ("for", .TOKEN_FOR),
   ("while", .TOKEN_WHILE), ("to", .TOKEN_TO), ("every", .TOKEN_EVERY), ("else", .TOKEN_ELSE),
   ("break", .TOKEN_BREAK), ("continue", .TOKEN_CONTINUE), ("and", .TOKEN_AND),
   ("or", .TOKEN_OR), ("xor", .TOKEN_XOR), ("super", .TOKEN_SUPER)]

/-- The static `interpretToken`: the kind that `TOKEN_MAP` gives to the segment,
without payload, or an identifier token with the segment as its payload. -/
def interpretToken (segment : List Char) : Token :=
  match TOKEN_MAP.lookup (String.mk segment) with
  | some type => ⟨type, none⟩
  | none => ⟨.TOKEN_IDENTIFIER, some (.string (String.mk segment))⟩

/-- The static `isNumeric`. -/
def isNumeric (c : Char) : Bool := c ≥ '0' && c ≤ '9'

/-- The static `isAlpha`. -/
def isAlpha (c : Char) : Bool := (c ≥ 'a' && c ≤ 'z') || (c ≥ 'A' && c ≤ 'Z')

/-- The static `isValidSymbol`. -/
def isValidSymbol (c : Char) : Bool :=
  c = '+' ∨ c = '-' ∨ c = '*' ∨ c = '/' ∨ c = '.' ∨ c = '(' ∨ c = ')' ∨ c = '[' ∨ c = ']' ∨
    c = '=' ∨ c = '>' ∨ c = '<' ∨ c = ','

/-- The value that `std::stol` reads from a run of decimal digits, before the
range check. -/
def decimalValue (component : List Char) : Nat :=
  component.foldl (fun value c => value * 10 + (c.toNat - 48)) 0

/-- The library function `std::stol` on a run of decimal digits, the only
argument it gets in `getTokens`: the value in base ten, and a thrown
`std::out_of_range` when the value does not fit into a 64-bit `long`. -/
def stol (component : List Char) : Except String Int :=
  if component = [] then throw "stol: invalid argument"
  else if decimalValue component ≤ 9223372036854775807 then pure (decimalValue component)
  else throw "stol: out of range"

/-- The local variables of `getTokens` that live across the characters. -/
structure State where
  tokens : List Token
  component : List Char
  lineContinuation : Bool
  numericState : Bool
  symbolicState : Bool
  alphanumericState : Bool
  stringState : Bool
  commentState : Bool
  deriving DecidableEq, Repr

/-- What the body of the loop of `getTokens` does with one character: it goes
on to the next character (`continue`, or the end of the body), it falls
through from the chain of state tests to the `switch`, or it leaves the
function with an error text or with a thrown exception. -/
inductive Flow
  | next (state : State)
  | fall (state : State)
  | error (message : String)
  | threw (message : String)
  deriving DecidableEq, Repr

/-- The outcome of `getTokens`: the tokens, an error text, or a thrown
exception. -/
inductive Lexed
  | tokens (tokens : List Token)
  | error (message : String)
  | threw (message : String)
  deriving DecidableEq, Repr

/-- The chain of state tests at the head of the loop body of `getTokens`. -/
def leaveState (state : State) (character : Char) : Flow :=
  if state.stringState then
    if character = Char.ofNat 10 then .error "Unexpected newline encountered"
    else if character = Char.ofNat 34 then
      .next { state with
        tokens := state.tokens ++ [⟨.TOKEN_LITERAL_STRING, some (.string (String.mk state.component))⟩]
        component := []
        stringState := false }
    else .next { state with component := state.component ++ [character] }
  else if state.commentState then
    if character = Char.ofNat 10 then .next { state with commentState := false }
    else .next state
  else if state.numericState then
    if isNumeric character then .next { state with component := state.component ++ [character] }
    else
      match stol state.component with
      | .error message => .threw message
      | .ok value =>
        .fall { state with
          tokens := state.tokens ++ [⟨.TOKEN_LITERAL_INTEGER, some (.long value)⟩]
          numericState := false
          component := [] }
  else if state.symbolicState then
    if isValidSymbol character then
      .next { state with component := state.component ++ [character] }
    else
      .fall { state with
        tokens := state.tokens ++ [interpretToken state.component]
        symbolicState := false
        component := [] }
  else if state.alphanumericState then
    if isAlpha character || isNumeric character then
      .next { state with component := state.component ++ [character] }
    else
      .fall { state with
        tokens := state.tokens ++ [interpretToken state.component]
        alphanumericState := false
        component := [] }
  else .fall state

/-- The `switch` of the loop body of `getTokens`, which enters a new state. -/
def enterState (state : State) (character : Char) : Flow :=
  if character = '#' then .next { state with commentState := true }
  else if character = Char.ofNat 10 then
    if state.lineContinuation then .next { state with lineContinuation := false }
    else .next { state with tokens := state.tokens ++ [⟨.TOKEN_NEWLINE, none⟩] }
  else if character = ' ' ∨ character = Char.ofNat 9 ∨ character = Char.ofNat 13 ∨
      character = Char.ofNat 11 ∨ character = Char.ofNat 12 then .next state
  else if character = Char.ofNat 92 then .next { state with lineContinuation := true }
  else if character = Char.ofNat 34 then .next { state with stringState := true }
  else if isNumeric character then
    .next { state with numericState := true, component := state.component ++ [character] }
  else if isAlpha character then
    .next { state with alphanumericState := true, component := state.component ++ [character] }
  else if isValidSymbol character then
    .next { state with symbolicState := true, component := state.component ++ [character] }
  else .error ("Unexpected character: " ++ String.mk [character])

/-- The body of the loop of `getTokens` for one character. -/
def step (state : State) (character : Char) : Flow :=
  match leaveState state character with
  | .fall fallen => enterState fallen character
  | other => other

/-- The loop of `getTokens` over the characters that are left. -/
def run : State → List Char → Lexed
  | state, [] => .tokens state.tokens
  | state, character :: rest =>
    match step state character with
    | .next following => run following rest
    | .fall following => run following rest
    | .error message => .error message
    | .threw message => .threw message

/-- The local variables of `getTokens` before the loop. -/
def initial : State := ⟨[], [], false, false, false, false, false, false⟩

/-- The function `getTokens`: a tab is appended to the body to flush the last
component. -/
def getTokens (body : List Char) : Lexed :=
  run initial (body ++ [Char.ofNat 9])

/-- The decimal digits. -/
def digits : List Char := ['0', '1', '2', '3', '4', '5', '6', '7', '8', '9']

/-- The characters that the `switch` of `getTokens` passes over without a
token: space, tab, carriage return, vertical tab and form feed. -/
def blanks : List Char := [' ', Char.ofNat 9, Char.ofNat 13, Char.ofNat 11, Char.ofNat 12]

end GoldScorpion.Lexer

/-! ## The parser (parser.cpp)

A `std::vector< Token >::iterator` is the list of the tokens from its position
on: `*current` is the head of the list, `++current` its tail, and reading at
the end of the vector, which the code does not guard against, is the outcome
`invalidRead`.  The functions throw, and `getUnary` calls itself, so every
function that calls or loops carries a budget of calls and iterations, and the
outcome `timeout` stands for a budget that is used up. -/

deriving instance DecidableEq for GoldScorpion.Primary, GoldScorpion.CallExpression,
  GoldScorpion.UnaryExpression, GoldScorpion.BinaryExpression,
  GoldScorpion.AssignmentExpression, GoldScorpion.Expression, GoldScorpion.ExpressionList

namespace GoldScorpion.Parser

/-- The struct `GeneratedAstNode< Expression >`. -/
structure GeneratedAstNode where
  nextIterator : List Token
  node : Expression
  deriving DecidableEq

/-- The outcome of a parser function: a value, a thrown error, a read at the
end of the token vector, or a budget that is used up. -/
inductive Outcome (α : Type)
  | value (result : α)
  | threw (message : String)
  | invalidRead
  | timeout
  deriving DecidableEq

/-- The type `AstResult< Expression >`, an optional `GeneratedAstNode`. -/
abbrev AstResult := Option GeneratedAstNode

/-- An entry of the queue of `getCall`: a call expression that waits for its
callee (the `nullptr` identifier of the code) with its arguments, or the
expression that `getPrimary` has returned for the right side of a dot. -/
inductive QueueItem
  | call (arguments : List Expression)
  | expression (node : Expression)
  deriving DecidableEq

/-- The argument vector of a call as an `ExpressionList`. -/
def toExpressionList : List Expression → ExpressionList
  | [] => .nil
  | head :: tail => .cons head (toExpressionList tail)

/-- The static `getExpression`, which returns the empty optional. -/
def getExpression (_current : List Token) : AstResult := none

/-- The static `getPrimary`. -/
def getPrimary (current : List Token) : Outcome AstResult :=
  match current with
  | [] => .invalidRead
  | currentToken :: rest =>
    if currentToken.type = .TOKEN_THIS ∨ currentToken.type = .TOKEN_LITERAL_INTEGER ∨
        currentToken.type = .TOKEN_LITERAL_STRING ∨ currentToken.type = .TOKEN_IDENTIFIER then
      .value (some ⟨rest, .primary (.token currentToken)⟩)
    else if currentToken.type = .TOKEN_LEFT_PAREN then
      match getExpression rest with
      | some expression =>
        match expression.nextIterator with
        | [] => .invalidRead
        | closing :: afterClosing =>
          if closing.type = .TOKEN_RIGHT_PAREN then
            .value (some ⟨afterClosing, .primary (.expression expression.node)⟩)
          else .value none
      | none => .value none
    else if currentToken.type = .TOKEN_SUPER then
      match rest with
      | [] => .invalidRead
      | dot :: afterDot =>
        if dot.type = .TOKEN_DOT then
          match afterDot with
          | [] => .invalidRead
          | name :: afterName =>
            if name.type = .TOKEN_IDENTIFIER then
              .value (some ⟨afterName,
                .binary (.mk (.primary (.token ⟨.TOKEN_SUPER, none⟩))
                  (.token ⟨.TOKEN_DOT, none⟩) (.primary (.token name)))⟩)
            else .value none
        else .value none
    else .value none

/-- The inner loop of the argument list in `getCall`,
`while( current->type != TOKEN_COMMA )`, with the first expression of the
list, whose `nextIterator` the code assigns after every further expression. -/
def getArgumentsInner : Nat → GeneratedAstNode → List Token → List Expression →
    Outcome (List Expression × List Token)
  | 0, _, _, _ => .timeout
  | fuel + 1, firstExpression, current, arguments =>
    match current with
    | [] => .invalidRead
    | token :: rest =>
      if token.type ≠ .TOKEN_COMMA then
        match getExpression rest with
        | some expression =>
          getArgumentsInner fuel firstExpression firstExpression.nextIterator
            (arguments ++ [expression.node])
        | none => .threw "Expected: Expression following a \",\""
      else .value (arguments, current)

/-- The outer loop of the argument list in `getCall`,
`while( AstResult< Expression > firstExpression = getExpression( current ) )`. -/
def getArguments : Nat → List Token → List Expression →
    Outcome (List Expression × List Token)
  | 0, _, _ => .timeout
  | fuel + 1, current, arguments =>
    match getExpression current with
    | some firstExpression =>
      match getArgumentsInner fuel firstExpression firstExpression.nextIterator
          (arguments ++ [firstExpression.node]) with
      | .value (extended, following) => getArguments fuel following extended
      | .threw message => .threw message
      | .invalidRead => .invalidRead
      | .timeout => .timeout
    | none => .value (arguments, current)

/-- The loop `while( true )` of `getCall`, which fills the queue. -/
def getCallLoop : Nat → List Token → List QueueItem → Outcome (List QueueItem × List Token)
  | 0, _, _ => .timeout
  | fuel + 1, current, queue =>
    match current with
    | [] => .invalidRead
    | token :: rest =>
      if token.type = .TOKEN_LEFT_PAREN then
        match getArguments fuel rest [] with
        | .value (arguments, following) =>
          match following with
          | [] => .invalidRead
          | closing :: afterClosing =>
            if closing.type = .TOKEN_RIGHT_BRACKET then
              getCallLoop fuel afterClosing (queue ++ [.call arguments])
            else .threw "Expected: closing \")\""
        | .threw message => .threw message
        | .invalidRead => .invalidRead
        | .timeout => .timeout
      else if token.type = .TOKEN_DOT then
        match getPrimary current with
        | .value (some nextExpression) =>
          match nextExpression.node with
          | .primary (.token tokenResult) =>
            if tokenResult.type = .TOKEN_IDENTIFIER then
              getCallLoop fuel nextExpression.nextIterator
                (queue ++ [.expression nextExpression.node])
            else .threw "Expected: Token of IDENTIFIER type"
          | .primary (.expression _) => .threw "Expected: Primary of Token type"
          | _ => .threw "Expected: Expression of Primary type"
        | .value none => .threw "Expected: Primary following \".\""
        | .threw message => .threw message
        | .invalidRead => .invalidRead
        | .timeout => .timeout
      else .value (queue, current)

/-- The loop `while( !queue.empty() )` of `getCall`, which builds the tree from
the queue. -/
def buildCallTree (primary : Expression) : List QueueItem → Outcome Expression
  | [] => .value primary
  | .call arguments :: queue =>
    buildCallTree (.call (.mk primary (toExpressionList arguments))) queue
  | .expression (.primary result) :: queue =>
    buildCallTree (.binary (.mk primary (.token ⟨.TOKEN_DOT, none⟩) (.primary result))) queue
  | .expression _ :: _ =>
    .threw "Internal compiler error (unexpected item in call-expression queue)"

/-- The static `getCall`. -/
def getCall (fuel : Nat) (current : List Token) : Outcome AstResult :=
  match getPrimary current with
  | .value (some primary) =>
    match getCallLoop fuel primary.nextIterator [] with
    | .value (queue, following) =>
      match buildCallTree primary.node queue with
      | .value node => .value (some ⟨following, node⟩)
      | .threw message => .threw message
      | .invalidRead => .invalidRead
      | .timeout => .timeout
    | .threw message => .threw message
    | .invalidRead => .invalidRead
    | .timeout => .timeout
  | .value none => .value none
  | .threw message => .threw message
  | .invalidRead => .invalidRead
  | .timeout => .timeout

/-- The static `getUnary`.  After a unary operator token it calls itself with
the iterator it was given. -/
def getUnary : Nat → List Token → Outcome AstResult
  | 0, _ => .timeout
  | fuel + 1, current =>
    match current with
    | [] => .invalidRead
    | operatorToken :: _ =>
      if operatorToken.type = .TOKEN_NOT ∨ operatorToken.type = .TOKEN_MINUS then
        match getUnary fuel current with
        | .value (some unary) =>
          .value (some ⟨unary.nextIterator,
            .unary (.mk (.token operatorToken) unary.node)⟩)
        | .value none => .threw "Expected: terminal Expression following unary operator"
        | .threw message => .threw message
        | .invalidRead => .invalidRead
        | .timeout => .timeout
      else getCall fuel current

/-- The loop of `getFactor` over the operators `*` and `/`; the node that it
returns carries the iterator at which the loop ends. -/
def getFactorLoop : Nat → List Token → Expression → Outcome AstResult
  | 0, _, _ => .timeout
  | fuel + 1, current, node =>
    match current with
    | [] => .invalidRead
    | op :: rest =>
      if op.type = .TOKEN_ASTERISK ∨ op.type = .TOKEN_FORWARD_SLASH then
        match getUnary fuel rest with
        | .value (some next) =>
          getFactorLoop fuel next.nextIterator (.binary (.mk node (.token op) next.node))
        | .value none =>
          .threw "Expected: terminal Unary following operator \"*\" or \"/\""
        | .threw message => .threw message
        | .invalidRead => .invalidRead
        | .timeout => .timeout
      else .value (some ⟨current, node⟩)

/-- The static `getFactor`. -/
def getFactor (fuel : Nat) (current : List Token) : Outcome AstResult :=
  match getUnary fuel current with
  | .value (some result) => getFactorLoop fuel result.nextIterator result.node
  | other => other

/-- The loop of `getTerm` over the operators `-` and `+`; it returns the node
only, the code does not assign the iterator at which the loop ends to the
result. -/
def getTermLoop : Nat → List Token → Expression → Outcome Expression
  | 0, _, _ => .timeout
  | fuel + 1, current, node =>
    match current with
    | [] => .invalidRead
    | op :: rest =>
      if op.type = .TOKEN_MINUS ∨ op.type = .TOKEN_PLUS then
        match getFactor fuel rest with
        | .value (some next) =>
          getTermLoop fuel next.nextIterator (.binary (.mk node (.token op) next.node))
        | .value none =>
          .threw "Expected: terminal Factor following operator \"-\" or \"+\""
        | .threw message => .threw message
        | .invalidRead => .invalidRead
        | .timeout => .timeout
      else .value node

/-- The static `getTerm`: the `nextIterator` of its result is the one that the
first call of `getFactor` has returned. -/
def getTerm (fuel : Nat) (current : List Token) : Outcome AstResult :=
  match getFactor fuel current with
  | .value (some result) =>
    match getTermLoop fuel result.nextIterator result.node with
    | .value node => .value (some ⟨result.nextIterator, node⟩)
    | .threw message => .threw message
    | .invalidRead => .invalidRead
    | .timeout => .timeout
  | other => other

end GoldScorpion.Parser

/-! ## Sample programs and memory states -/

namespace GoldScorpion

/-- The six integer kinds of the promotion lattice. -/
def integerKinds : List String := ["u8", "u16", "u32", "s8", "s16", "s32"]

/-- The expression made of one integer literal token. -/
def integerLiteral (v : Int) : Expression :=
  .primary (.token ⟨.TOKEN_LITERAL_INTEGER, some (.long v)⟩)

/-- The expression made of one string literal token. -/
def stringLiteral (text : String) : Expression :=
  .primary (.token ⟨.TOKEN_LITERAL_STRING, some (.string text)⟩)

/-- The expression made of one identifier token: a bare identifier. -/
def identifier (name : String) : Expression :=
  .primary (.token ⟨.TOKEN_IDENTIFIER, some (.string name)⟩)

/-- The binary expression with the payload-free operator token of kind `op`. -/
def binaryOf (lhs : Expression) (op : TokenType) (rhs : Expression) : BinaryExpression :=
  .mk lhs (.token ⟨op, none⟩) rhs

/-- A memory tracker with nothing in it. -/
def emptyMemory : MemoryTracker := ⟨[], [], [], [], []⟩

/-- The UDT `Point` with the two `u8` fields `x` and `y`. -/
def pointUdt : UserDefinedType :=
  ⟨"Point", [⟨"x", .value ⟨"u8"⟩⟩, ⟨"y", .value ⟨"u8"⟩⟩]⟩

/-- A memory tracker where `Point` is registered and the stack holds one
variable `p` of type `Point`. -/
def pointMemory : MemoryTracker :=
  ⟨[], [], [⟨some "p", .value ⟨"Point"⟩, 2, 0⟩], [pointUdt], []⟩

/-- As `pointMemory`, with a second stack variable `x` whose type names the
UDT `Ghost`, which is not registered. -/
def ghostMemory : MemoryTracker :=
  ⟨[], [], [⟨some "p", .value ⟨"Point"⟩, 2, 0⟩, ⟨some "x", .value ⟨"Ghost"⟩, 4, 0⟩],
    [pointUdt], []⟩

/-- A function type without arguments, returning `u8`. -/
def returningU8 : FunctionType := ⟨none, [], some "u8"⟩

/-- A function type without arguments and without return type. -/
def returningNothing : FunctionType := ⟨none, [], none⟩

/-- A memory tracker whose stack holds the function variable `f`, returning
`u8`, and the function variable `g`, which has no return type. -/
def functionMemory : MemoryTracker :=
  ⟨[], [], [⟨some "f", .function returningU8, 4, 0⟩, ⟨some "g", .function returningNothing, 4, 0⟩],
    [], []⟩

/-- The expression that holds the unary expression `-1`. -/
def negatedOne : Expression :=
  .unary (.mk (.token ⟨.TOKEN_MINUS, none⟩) (integerLiteral 1))

/-- The expression that holds the call `f()`. -/
def callOfF : Expression := .call (.mk (identifier "f") .nil)

/-- The expression that holds the assignment `x = 1`. -/
def assignOne : Expression :=
  .assignment (.mk (.token ⟨.TOKEN_IDENTIFIER, some (.string "x")⟩) (integerLiteral 1))

/-- A memory tracker whose stack holds the variable `x` of type `u8`. -/
def byteMemory : MemoryTracker := ⟨[], [], [⟨some "x", .value ⟨"u8"⟩, 1, 0⟩], [], []⟩

/-- The assembly without instructions over the empty memory tracker. -/
def emptyAssembly : Generator.Assembly := ⟨[], emptyMemory⟩

/-- The assembly without instructions over `byteMemory`. -/
def byteAssembly : Generator.Assembly := ⟨[], byteMemory⟩

/-- The assembly without instructions over `pointMemory`. -/
def pointAssembly : Generator.Assembly := ⟨[], pointMemory⟩

/-- The expression that holds the binary expression `1 . 2`, whose operator
token is the dot. -/
def dotOfLiterals : Expression :=
  .binary (binaryOf (integerLiteral 1) .TOKEN_DOT (integerLiteral 2))

/-- The UDT `Empty`, which has no fields. -/
def emptyUdt : UserDefinedType := ⟨"Empty", []⟩

/-- The UDT `Line` with the two `Point` fields `a` and `b`. -/
def lineUdt : UserDefinedType :=
  ⟨"Line", [⟨"a", .value ⟨"Point"⟩⟩, ⟨"b", .value ⟨"Point"⟩⟩]⟩

/-- A memory tracker where `Point`, `Line` and `Empty` are registered. -/
def udtMemory : MemoryTracker := ⟨[], [], [], [pointUdt, lineUdt, emptyUdt], []⟩

/-- A memory element named `x` of type `u8` and size 1. -/
def byteX : MemoryElement := ⟨some "x", .value ⟨"u8"⟩, 1, 0⟩

/-- A memory element named `x` of type `u16` and size 2. -/
def wordX : MemoryElement := ⟨some "x", .value ⟨"u16"⟩, 2, 0⟩

/-- A memory element named `y` of type `u32` and size 4. -/
def longY : MemoryElement := ⟨some "y", .value ⟨"u32"⟩, 4, 0⟩

/-- The identifier token with the text payload `name`. -/
def identifierToken (name : String) : Token := ⟨.TOKEN_IDENTIFIER, some (.string name)⟩

/-- The integer literal token with the payload `v`. -/
def integerToken (v : Int) : Token := ⟨.TOKEN_LITERAL_INTEGER, some (.long v)⟩

/-- The token of kind `type` without payload. -/
def symbolToken (type : TokenType) : Token := ⟨type, none⟩

/-- The expression that holds the `Primary` that holds `token`. -/
def leaf (token : Token) : Expression := .primary (.token token)

/-- The expression that holds the binary expression of two expressions and an
operator token. -/
def binaryNode (lhs : Expression) (op : Token) (rhs : Expression) : Expression :=
  .binary (.mk lhs (.token op) rhs)

end GoldScorpion

/-! ## Token sequences of operands and operators, and the trees expected for them -/

namespace GoldScorpion.Parser

/-- An integer-literal or identifier token. -/
def isOperand (token : Token) : Prop :=
  token.type = .TOKEN_LITERAL_INTEGER ∨ token.type = .TOKEN_IDENTIFIER

/-- One of the operator tokens `*` and `/`. -/
def isMultiplicative (token : Token) : Prop :=
  token.type = .TOKEN_ASTERISK ∨ token.type = .TOKEN_FORWARD_SLASH

/-- One of the operator tokens `+` and `-`. -/
def isAdditive (token : Token) : Prop :=
  token.type = .TOKEN_PLUS ∨ token.type = .TOKEN_MINUS

/-- A token that is none of `*`, `/`, a left parenthesis and a dot. -/
def endsFactor (token : Token) : Prop :=
  token.type ≠ .TOKEN_ASTERISK ∧ token.type ≠ .TOKEN_FORWARD_SLASH ∧
  token.type ≠ .TOKEN_LEFT_PAREN ∧ token.type ≠ .TOKEN_DOT

/-- A token that is none of the four operators, a left parenthesis and a dot. -/
def endsTerm (token : Token) : Prop :=
  token.type ≠ .TOKEN_PLUS ∧ token.type ≠ .TOKEN_MINUS ∧ endsFactor token

/-- The tokens of a list of operator and operand pairs, in order. -/
def pairTokens : List (Token × Token) → List Token
  | [] => []
  | pair :: more => pair.1 :: pair.2 :: pairTokens more

/-- A run of operands joined by `*` and `/`: the first operand and the pairs of
an operator and an operand that follow it. -/
structure Factor where
  first : Token
  rest : List (Token × Token)

/-- The tokens of a factor, in order. -/
def Factor.tokens (factor : Factor) : List Token :=
  factor.first :: pairTokens factor.rest

/-- The tree of a factor: its operators associate to the left. -/
def Factor.tree (factor : Factor) : Expression :=
  factor.rest.foldl (fun tree pair => binaryNode tree pair.1 (leaf pair.2)) (leaf factor.first)

/-- The operands of a factor are operands and its operators are `*` or `/`. -/
def Factor.wellFormed (factor : Factor) : Prop :=
  isOperand factor.first ∧
  ∀ pair ∈ factor.rest, isMultiplicative pair.1 ∧ isOperand pair.2

/-- The tokens of a list of pairs of an operator and a factor, in order. -/
def termRestTokens : List (Token × Factor) → List Token
  | [] => []
  | pair :: more => pair.1 :: (pair.2.tokens ++ termRestTokens more)

/-- The tree of a first factor and the pairs of an operator `+` or `-` and a
factor that follow it: each factor is an operand of the operator before it,
and the operators between the factors associate to the left. -/
def termTree (first : Factor) (rest : List (Token × Factor)) : Expression :=
  rest.foldl (fun tree pair => binaryNode tree pair.1 pair.2.tree) first.tree

end GoldScorpion.Parser

/-! ## Properties of the type resolver -/

namespace GoldScorpion

/-- C1: for every integer literal value `v`, `getType` on a `Primary` wrapping a
`TOKEN_LITERAL_INTEGER` token with payload `v` succeeds, with `u8` for
`0 ≤ v ≤ 255`, `u16` for `256 ≤ v ≤ 65535`, `u32` for `v > 65535`, `s8` for
`-127 ≤ v ≤ -1`, `s16` for `-32767 ≤ v ≤ -128` and `s32` for `v < -32767`. -/
theorem getType_literal_integer (v : Int) (memory : MemoryTracker) :
    (0 ≤ v ∧ v ≤ 255 →
      getTypePrimary (.token ⟨.TOKEN_LITERAL_INTEGER, some (.long v)⟩) memory
        = .ok (.good (.value ⟨"u8"⟩))) ∧
    (256 ≤ v ∧ v ≤ 65535 →
      getTypePrimary (.token ⟨.TOKEN_LITERAL_INTEGER, some (.long v)⟩) memory
        = .ok (.good (.value ⟨"u16"⟩))) ∧
    (65535 < v →
      getTypePrimary (.token ⟨.TOKEN_LITERAL_INTEGER, some (.long v)⟩) memory
        = .ok (.good (.value ⟨"u32"⟩))) ∧
    (-127 ≤ v ∧ v ≤ -1 →
      getTypePrimary (.token ⟨.TOKEN_LITERAL_INTEGER, some (.long v)⟩) memory
        = .ok (.good (.value ⟨"s8"⟩))) ∧
    (-32767 ≤ v ∧ v ≤ -128 →
      getTypePrimary (.token ⟨.TOKEN_LITERAL_INTEGER, some (.long v)⟩) memory
        = .ok (.good (.value ⟨"s16"⟩))) ∧
    (v < -32767 →
      getTypePrimary (.token ⟨.TOKEN_LITERAL_INTEGER, some (.long v)⟩) memory
        = .ok (.good (.value ⟨"s32"⟩))) := by
  have key : getTypePrimary (.token ⟨.TOKEN_LITERAL_INTEGER, some (.long v)⟩) memory
      = .ok (.good (.value ⟨getLiteralType v⟩)) := by
    simp [getTypePrimary, expectLong]
    rfl
  rw [key]
  unfold getLiteralType
  refine ⟨?_, ?_, ?_, ?_, ?_, ?_⟩ <;> intro h <;> split_ifs <;> first | rfl | omega

/-- C1, at the boundary values named by the claim: 255 gives `u8`, 256 gives
`u16`, -127 gives `s8` and -128 gives `s16`. -/
theorem getType_literal_integer_witness :
    getTypePrimary (.token ⟨.TOKEN_LITERAL_INTEGER, some (.long 255)⟩) emptyMemory
        = .ok (.good (.value ⟨"u8"⟩)) ∧
    getTypePrimary (.token ⟨.TOKEN_LITERAL_INTEGER, some (.long 256)⟩) emptyMemory
        = .ok (.good (.value ⟨"u16"⟩)) ∧
    getTypePrimary (.token ⟨.TOKEN_LITERAL_INTEGER, some (.long (-127))⟩) emptyMemory
        = .ok (.good (.value ⟨"s8"⟩)) ∧
    getTypePrimary (.token ⟨.TOKEN_LITERAL_INTEGER, some (.long (-128))⟩) emptyMemory
        = .ok (.good (.value ⟨"s16"⟩)) :=
  ⟨(getType_literal_integer 255 emptyMemory).1 (by decide),
   (getType_literal_integer 256 emptyMemory).2.1 (by decide),
   (getType_literal_integer (-127) emptyMemory).2.2.2.1 (by decide),
   (getType_literal_integer (-128) emptyMemory).2.2.2.2.1 (by decide)⟩

/-- C2, evaluated on the code: promoting `s8` with `u8`, and `s32` with `u32`,
gives a `ValueType` whose id is the text `<undefined>`, which is none of the
integer kinds, while `s16` with `u8` gives `u16`.  `scrubSigned` is applied to
the operand of greater or equal rank even when that operand is the unsigned
one, and it maps every id that is not signed to `<undefined>`. -/
theorem promotePrimitiveTypes_mixed_sign_undefined :
    promotePrimitiveTypes (.value ⟨"s8"⟩) (.value ⟨"u8"⟩) = .ok (.value ⟨"<undefined>"⟩) ∧
    promotePrimitiveTypes (.value ⟨"s32"⟩) (.value ⟨"u32"⟩) = .ok (.value ⟨"<undefined>"⟩) ∧
    promotePrimitiveTypes (.value ⟨"s16"⟩) (.value ⟨"u8"⟩) = .ok (.value ⟨"u16"⟩) ∧
    "<undefined>" ∉ integerKinds := by
  decide

/-- C3, evaluated on the code: `promotePrimitiveTypes` is not symmetric on the
integer kinds; with `s8` on the left and `u8` on the right it gives the id
`<undefined>`, with the operands exchanged it gives `u8`. -/
theorem promotePrimitiveTypes_not_symmetric :
    promotePrimitiveTypes (.value ⟨"s8"⟩) (.value ⟨"u8"⟩) = .ok (.value ⟨"<undefined>"⟩) ∧
    promotePrimitiveTypes (.value ⟨"u8"⟩) (.value ⟨"s8"⟩) = .ok (.value ⟨"u8"⟩) ∧
    promotePrimitiveTypes (.value ⟨"s8"⟩) (.value ⟨"u8"⟩)
      ≠ promotePrimitiveTypes (.value ⟨"u8"⟩) (.value ⟨"s8"⟩) := by
  decide

/-- The argument loop of `typesMatch` on two lists of the same length: it
answers true exactly when the type ids agree position by position. -/
theorem argumentTypesMatch_iff (ls : List FunctionTypeParameter) :
    ∀ rs : List FunctionTypeParameter, ls.length = rs.length →
      (argumentTypesMatch ls rs = true ↔
        ∀ (i : Nat) (hl : i < ls.length) (hr : i < rs.length),
          (ls.get ⟨i, hl⟩).typeId = (rs.get ⟨i, hr⟩).typeId) := by
  induction ls with
  | nil =>
    intro rs hlen
    cases rs with
    | nil => simp [argumentTypesMatch]
    | cons r rs => simp at hlen
  | cons l ls ih =>
    intro rs hlen
    cases rs with
    | nil => simp at hlen
    | cons r rs =>
      have hlen2 : ls.length = rs.length := by simpa using hlen
      simp only [argumentTypesMatch]
      by_cases hhead : l.typeId = r.typeId
      · simp only [ne_eq, hhead, not_true_eq_false, if_false]
        rw [ih rs hlen2]
        constructor
        · intro h i hl hr
          cases i with
          | zero => simpa using hhead
          | succ j =>
            simpa using h j (by simpa using hl) (by simpa using hr)
        · intro h i hl hr
          simpa using h (i + 1) (by simpa using hl) (by simpa using hr)
      · simp only [ne_eq, hhead, not_false_eq_true, if_true]
        constructor
        · intro h
          cases h
        · intro h
          exact absurd (by simpa using h 0 (by simp) (by simp)) hhead

/-- C4: `typesMatch l r` is true exactly when both are `ValueType`s with equal id,
or both are `FunctionType`s with equal `udtId`, argument lists of the same
length whose `typeId`s are equal position by position (the argument names are
not looked at), and equal `returnTypeId`. -/
theorem typesMatch_iff (l r : MemoryDataType) :
    typesMatch l r = true ↔
      (∃ a b : ValueType, l = .value a ∧ r = .value b ∧ a.id = b.id) ∨
      (∃ f g : FunctionType, l = .function f ∧ r = .function g ∧
        f.udtId = g.udtId ∧
        f.arguments.length = g.arguments.length ∧
        (∀ (i : Nat) (hf : i < f.arguments.length) (hg : i < g.arguments.length),
          (f.arguments.get ⟨i, hf⟩).typeId = (g.arguments.get ⟨i, hg⟩).typeId) ∧
        f.returnTypeId = g.returnTypeId) := by
  cases l with
  | value a =>
    cases r with
    | value b => simp [typesMatch, typesComparable, typeIsFunction, typeIsValue]
    | function g => simp [typesMatch, typesComparable, typeIsFunction, typeIsValue]
  | function f =>
    cases r with
    | value b => simp [typesMatch, typesComparable, typeIsFunction, typeIsValue]
    | function g =>
      have hfun : typesMatch (.function f) (.function g) = true ↔
          f.udtId = g.udtId ∧ f.arguments.length = g.arguments.length ∧
          argumentTypesMatch f.arguments g.arguments = true ∧
          f.returnTypeId = g.returnTypeId := by
        simp only [typesMatch, typesComparable, typeIsFunction, typeIsValue]
        by_cases hudt : f.udtId = g.udtId
        · by_cases hlen : f.arguments.length = g.arguments.length
          · by_cases hret : f.returnTypeId = g.returnTypeId
            · by_cases hmatch : argumentTypesMatch f.arguments g.arguments = true
              · simp [hudt, hlen, hret, hmatch]
              · simp [hudt, hlen, hret, hmatch]
            · simp [hudt, hlen, hret]
          · simp [hudt, hlen]
        · simp [hudt]
      rw [hfun]
      constructor
      · rintro ⟨h1, h2, h3, h4⟩
        exact Or.inr ⟨f, g, rfl, rfl, h1, h2, (argumentTypesMatch_iff _ _ h2).mp h3, h4⟩
      · rintro (⟨a, b, h, _⟩ | ⟨f2, g2, hf, hg, h1, h2, h3, h4⟩)
        · cases h
        · cases hf
          cases hg
          exact ⟨h1, h2, (argumentTypesMatch_iff _ _ h2).mpr h3, h4⟩

/-- C5: whatever their contents, a `ValueType` and a `FunctionType` never match,
in either order. -/
theorem typesMatch_value_function (v : ValueType) (f : FunctionType) :
    typesMatch (.value v) (.function f) = false ∧
    typesMatch (.function f) (.value v) = false := by
  constructor <;> simp [typesMatch, typesComparable, typeIsFunction, typeIsValue]

/-- C6, evaluated on the code: both operands of `"a" + 1` resolve to primitive
types (`string` and `u8`), and so do those of `"a" + "b"`, yet `getType` on
the binary expression does not return: `promotePrimitiveTypes` throws on an
operand that is not an integer type. -/
theorem getType_binary_string_operand_throws :
    getTypeExpression (stringLiteral "a") emptyMemory = .ok (.good (.value ⟨"string"⟩)) ∧
    getTypeExpression (integerLiteral 1) emptyMemory = .ok (.good (.value ⟨"u8"⟩)) ∧
    getTypeBinaryExpression (binaryOf (stringLiteral "a") .TOKEN_PLUS (integerLiteral 1))
        emptyMemory
      = .error "Internal compiler error (attempted to promote noninteger type)" ∧
    getTypeBinaryExpression (binaryOf (stringLiteral "a") .TOKEN_PLUS (stringLiteral "b"))
        emptyMemory
      = .error "Internal compiler error (attempted to promote noninteger type)" := by
  decide

/-- C7, evaluated on the code: with the UDT variable `p` on the right of `+`
and the literal `1` on the left, both operands resolve (to `u8` and to
`Point`) and `getType` throws; with the operands exchanged it returns the
reportable error `Type mismatch`.  Only the left operand is tested for being
a UDT or a function type. -/
theorem getType_binary_udt_on_the_right_throws :
    getTypeExpression (integerLiteral 1) pointMemory = .ok (.good (.value ⟨"u8"⟩)) ∧
    getTypeExpression (identifier "p") pointMemory = .ok (.good (.value ⟨"Point"⟩)) ∧
    typeIsUdt (.value ⟨"Point"⟩) = true ∧
    getTypeBinaryExpression (binaryOf (integerLiteral 1) .TOKEN_PLUS (identifier "p"))
        pointMemory
      = .error "Internal compiler error (attempted to promote noninteger type)" ∧
    getTypeBinaryExpression (binaryOf (identifier "p") .TOKEN_PLUS (integerLiteral 1))
        pointMemory
      = .ok (.err "Type mismatch") := by
  decide

/-- A UDT returned by `findUdt` carries the id that was asked for. -/
theorem findUdt_id (memory : MemoryTracker) (id : String) (udt : UserDefinedType)
    (h : memory.findUdt id false = some udt) : udt.id = id := by
  simp only [MemoryTracker.findUdt] at h
  have hp := List.find?_some h
  simpa using hp

/-- C8, as stated, fails on the code: in `ghostMemory` the left operand `p` of
`p.x` resolves to the registered UDT `Point`, which has the field `x` of type
`u8`, but `getType` on `p.x` throws, because the right operand `x` is resolved
as an expression of its own before the operator is looked at, and `x` is a
variable of an unregistered UDT type. -/
theorem getType_dot_field_counterexample :
    getTypeExpression (identifier "p") ghostMemory = .ok (.good (.value ⟨"Point"⟩)) ∧
    ghostMemory.findUdt "Point" false = some pointUdt ∧
    ghostMemory.findUdtField "Point" "x" false = some ⟨"x", .value ⟨"u8"⟩⟩ ∧
    getTypeBinaryExpression (binaryOf (identifier "p") .TOKEN_DOT (identifier "x")) ghostMemory
      = .error "Internal compiler error (UDT specified as ValueType but UDT not found)" ∧
    getTypeBinaryExpression (binaryOf (identifier "p") .TOKEN_DOT (identifier "x")) ghostMemory
      ≠ .ok (.good (.value ⟨"u8"⟩)) := by
  decide

/-- C8, amended: for a dot `BinaryExpression` whose right operand is the bare
identifier `f`, whose left operand resolves to the `ValueType` naming the
registered UDT `U`, and whose right operand, resolved as an expression of its
own, does not throw, `getType` returns the declared type of the field `f` of
`U` when `U` has a field named `f`, and otherwise the reportable error
`User-defined type U does not have field f`. -/
theorem getType_dot_field (lhsValue : Expression) (op : Token) (f U : String)
    (memory : MemoryTracker) (udt : UserDefinedType) (rhs : TypeResult)
    (hop : op.type = .TOKEN_DOT)
    (hlhs : getTypeExpression lhsValue memory = .ok (.good (.value ⟨U⟩)))
    (hudt : memory.findUdt U false = some udt)
    (hrhs : getTypeExpression (identifier f) memory = .ok rhs) :
    getTypeBinaryExpression (.mk lhsValue (.token op) (identifier f)) memory
      = .ok (match udt.fields.find? (fun field => field.id == f) with
          | some field => .good field.type
          | none => .err ("User-defined type " ++ U ++ " does not have field " ++ f)) := by
  have hid : udt.id = U := findUdt_id memory U udt hudt
  have hfield : memory.findUdtField udt.id f false
      = udt.fields.find? (fun field => field.id == f) := by
    simp [MemoryTracker.findUdtField, hid, hudt]
  have hname : getIdentifierName (identifier f) = some f := rfl
  obtain ⟨type, value⟩ := op
  simp only at hop
  subst hop
  simp only [getTypeBinaryExpression, hlhs, hrhs, bind, Except.bind, hname, unwrapTypeId,
    pure, Except.pure, hudt, hfield]
  cases hfind : udt.fields.find? (fun field => field.id == f) with
  | none => simp [hid]
  | some field => simp

/-- C8 on the example of the claim: with `Point{x:u8,y:u8}` registered and the
stack variable `p` of type `Point`, `p.x` resolves to `u8` and `p.z` to the
reportable error that names the UDT and the field. -/
theorem getType_dot_field_witness :
    getTypeBinaryExpression (binaryOf (identifier "p") .TOKEN_DOT (identifier "x")) pointMemory
      = .ok (.good (.value ⟨"u8"⟩)) ∧
    getTypeBinaryExpression (binaryOf (identifier "p") .TOKEN_DOT (identifier "z")) pointMemory
      = .ok (.err "User-defined type Point does not have field z") :=
  ⟨getType_dot_field (identifier "p") ⟨.TOKEN_DOT, none⟩ "x" "Point" pointMemory pointUdt
      (.err "Undefined variable: x") rfl (by decide) (by decide) (by decide),
   getType_dot_field (identifier "p") ⟨.TOKEN_DOT, none⟩ "z" "Point" pointMemory pointUdt
      (.err "Undefined variable: z") rfl (by decide) (by decide) (by decide)⟩

/-- C9, evaluated on the code: in `functionMemory` the left operand `f` of `f.x`
resolves successfully to a `FunctionType`, the right operand is a bare
identifier, and `getType` throws: `unwrapTypeId` is applied to the function
type.  With a primitive type on the left the result is a reportable error. -/
theorem getType_dot_on_function_throws :
    getTypeExpression (identifier "f") functionMemory = .ok (.good (.function returningU8)) ∧
    getIdentifierName (identifier "x") = some "x" ∧
    getTypeBinaryExpression (binaryOf (identifier "f") .TOKEN_DOT (identifier "x")) functionMemory
      = .error "Internal compiler error (attempted simple unwrap of function type)" ∧
    getTypeBinaryExpression (binaryOf (integerLiteral 1) .TOKEN_DOT (identifier "x"))
        functionMemory
      = .ok (.err "Undeclared user-defined type") := by
  decide

/-- C10: when the callee of a `CallExpression` resolves without throwing, to
the result `r`, then `getType` on the call does not throw either; it succeeds
exactly when `r` is a `FunctionType` whose `returnTypeId` is present, and then
with the `ValueType` of that id; and when `r` is a `FunctionType` without
`returnTypeId` it returns the reportable error
`Cannot call function with no return type`. -/
theorem getType_call (callee : Expression) (arguments : ExpressionList)
    (memory : MemoryTracker) (r : TypeResult)
    (h : getTypeExpression callee memory = .ok r) :
    (∃ result, getTypeCallExpression (.mk callee arguments) memory = .ok result) ∧
    (∀ t : MemoryDataType,
      getTypeCallExpression (.mk callee arguments) memory = .ok (.good t) ↔
        ∃ (function : FunctionType) (returnTypeId : String),
          r = .good (.function function) ∧ function.returnTypeId = some returnTypeId ∧
          t = .value ⟨returnTypeId⟩) ∧
    (∀ function : FunctionType, r = .good (.function function) →
      function.returnTypeId = none →
      getTypeCallExpression (.mk callee arguments) memory
        = .ok (.err "Cannot call function with no return type")) := by
  cases r with
  | err message => simp [getTypeCallExpression, h, bind, Except.bind, pure, Except.pure]
  | good type =>
    cases type with
    | value element => simp [getTypeCallExpression, h, bind, Except.bind, pure, Except.pure]
    | function function =>
      obtain ⟨udtId, parameters, returnType⟩ := function
      cases returnType with
      | none => simp [getTypeCallExpression, h, bind, Except.bind, pure, Except.pure]
      | some returnTypeId =>
        simp only [getTypeCallExpression, h, bind, Except.bind, pure, Except.pure]
        refine ⟨⟨_, rfl⟩, ?_, ?_⟩
        · intro t
          constructor
          · intro ht
            simp only [Except.ok.injEq, TypeResult.good.injEq] at ht
            exact ⟨⟨udtId, parameters, some returnTypeId⟩, returnTypeId, rfl, rfl, ht.symm⟩
          · rintro ⟨g, rt, hg, hrt, ht⟩
            simp only [TypeResult.good.injEq, MemoryDataType.function.injEq] at hg
            subst hg
            simp only [Option.some.injEq] at hrt
            subst hrt
            rw [ht]
        · intro g hg hnone
          simp only [TypeResult.good.injEq, MemoryDataType.function.injEq] at hg
          subst hg
          cases hnone

/-- C10 on two calls in `functionMemory`: calling `f`, which returns `u8`, has
type `u8`; calling `g`, which has no return type, is the reportable error. -/
theorem getType_call_witness :
    getTypeCallExpression (.mk (identifier "f") .nil) functionMemory
      = .ok (.good (.value ⟨"u8"⟩)) ∧
    getTypeCallExpression (.mk (identifier "g") .nil) functionMemory
      = .ok (.err "Cannot call function with no return type") :=
  ⟨((getType_call (identifier "f") .nil functionMemory (.good (.function returningU8))
      (by decide)).2.1 (.value ⟨"u8"⟩)).mpr ⟨returningU8, "u8", rfl, rfl, rfl⟩,
   (getType_call (identifier "g") .nil functionMemory (.good (.function returningNothing))
      (by decide)).2.2 returningNothing rfl rfl⟩

end GoldScorpion

namespace GoldScorpion

/-- C11: for a `Primary` wrapping a `TOKEN_IDENTIFIER` token with the text payload
`id`, when `find( id )` of the memory tracker is absent, `getType` returns the
reportable error `Undefined variable: id`; it does not throw. -/
theorem getType_undefined_variable (id : String) (memory : MemoryTracker)
    (h : memory.find id false = none) :
    getTypePrimary (.token ⟨.TOKEN_IDENTIFIER, some (.string id)⟩) memory
      = .ok (.err ("Undefined variable: " ++ id)) := by
  simp [getTypePrimary, expectString, h, bind, Except.bind, pure, Except.pure]

/-- C11 on an example: `q` is not bound in `pointMemory`. -/
theorem getType_undefined_variable_witness :
    getTypePrimary (.token ⟨.TOKEN_IDENTIFIER, some (.string "q")⟩) pointMemory
      = .ok (.err "Undefined variable: q") :=
  getType_undefined_variable "q" pointMemory (by decide)

end GoldScorpion

/-! ## Properties of the code generator -/

namespace GoldScorpion.Generator

/-- C12, evaluated on the code: generating code for the binary expression
`3 + 4` into the empty assembly returns normally with two instructions, the
move from the stack into `d0` and the `ADD`, both of width `BYTE`.  No move of
an immediate value is appended: `generate( const Expression& )` has no branch
for an expression that holds a `Primary`, so `generate( const Primary& )`,
which appends that move, is not reached from the operands. -/
theorem generate_three_plus_four :
    generateBinaryExpression (binaryOf (integerLiteral 3) .TOKEN_PLUS (integerLiteral 4))
        emptyAssembly
      = .done ⟨[⟨.MOVE, .BYTE, ⟨0, .REGISTER_sp_INDIRECT, 1, 0⟩, ⟨0, .REGISTER_d0, 0, 0⟩⟩,
                ⟨.ADD, .BYTE, ⟨0, .REGISTER_sp_INDIRECT, 1, 0⟩, ⟨0, .REGISTER_d0, 0, 0⟩⟩],
               emptyMemory⟩ ∧
    generateExpression (integerLiteral 4) emptyAssembly = .done emptyAssembly ∧
    generatePrimary (.token ⟨.TOKEN_LITERAL_INTEGER, some (.long 4)⟩) emptyAssembly
      = .done ⟨[⟨.MOVE, .BYTE, ⟨0, .IMMEDIATE, 0, 4⟩, ⟨-1, .REGISTER_sp_INDIRECT, 0, 0⟩⟩],
               emptyMemory⟩ := by
  decide

/-- C16, evaluated on the code: with a string literal as an operand, and with
an identifier bound in memory as an operand, `generate` on the binary
expression returns normally and appends the move into `d0` and the `ADD`.
`generate( const Primary& )`, which throws on such a token, is not reached
from the operands. -/
theorem generate_non_literal_operand_succeeds :
    generateBinaryExpression (binaryOf (stringLiteral "a") .TOKEN_PLUS (integerLiteral 4))
        emptyAssembly
      = .done ⟨[⟨.MOVE, .LONG, stackPop, accumulator⟩, ⟨.ADD, .LONG, stackPop, accumulator⟩],
               emptyMemory⟩ ∧
    generateBinaryExpression (binaryOf (identifier "x") .TOKEN_PLUS (integerLiteral 4))
        byteAssembly
      = .done ⟨[⟨.MOVE, .BYTE, stackPop, accumulator⟩, ⟨.ADD, .BYTE, stackPop, accumulator⟩],
               byteMemory⟩ ∧
    generatePrimary (.token ⟨.TOKEN_LITERAL_STRING, some (.string "a")⟩) emptyAssembly
      = .threw "Expected: TOKEN_LITERAL_INTEGER to generate Primary code" emptyAssembly := by
  decide

/-- C17, evaluated on the code: on the expressions that hold the unary
expression `-1`, the call `f()` and the assignment `x = 1`, and on every other
expression that holds a `UnaryExpression`, a `CallExpression` or an
`AssignmentExpression`, `generate( const Expression& )` returns normally and
leaves the assembly, instruction list included, as it was; no error is
raised.  The function has a branch for `BinaryExpression` only and falls off
its end on the other node kinds, which `getType( const Expression& )` next to
it marks as `INVALID` under the comment "Many node types not yet
implemented". -/
theorem generate_unimplemented_returns :
    generateExpression negatedOne emptyAssembly = .done emptyAssembly ∧
    generateExpression callOfF emptyAssembly = .done emptyAssembly ∧
    generateExpression assignOne emptyAssembly = .done emptyAssembly ∧
    getTypeExpression negatedOne emptyAssembly = .ok .INVALID ∧
    getTypeExpression callOfF emptyAssembly = .ok .INVALID ∧
    getTypeExpression assignOne emptyAssembly = .ok .INVALID ∧
    (∀ (unary : UnaryExpression) (call : CallExpression) (assignment : AssignmentExpression)
        (assembly : Assembly),
      generateExpression (.unary unary) assembly = .done assembly ∧
      generateExpression (.call call) assembly = .done assembly ∧
      generateExpression (.assignment assignment) assembly = .done assembly) := by
  refine ⟨by decide, by decide, by decide, by decide, by decide, by decide, ?_⟩
  intro unary call assignment assembly
  refine ⟨?_, ?_, ?_⟩ <;> simp [generateExpression]

/-- C19, evaluated on the code: the literal kinds agree, for every `v` the table
`types` of the generator maps the id that the resolver gives to `v` to the kind
that the generator gives to `v`; the promotions do not, for `s8` with `u8` the
generator gives `U8` and the resolver the id `<undefined>`, which the table
maps to `INVALID`. -/
theorem promote_differs_from_resolver :
    (∀ v : Int, getIdentifierType (GoldScorpion.getLiteralType v) = getLiteralType v) ∧
    getIdentifierType "s8" = .S8 ∧ getIdentifierType "u8" = .U8 ∧
    promote .S8 .U8 = .U8 ∧
    promotePrimitiveTypes (.value ⟨"s8"⟩) (.value ⟨"u8"⟩) = .ok (.value ⟨"<undefined>"⟩) ∧
    getIdentifierType "<undefined>" = .INVALID := by
  refine ⟨?_, by decide, by decide, by decide, by decide, by decide⟩
  intro v
  unfold GoldScorpion.getLiteralType getLiteralType
  split_ifs <;> decide

/-- The steps of `generate( const BinaryExpression&, Assembly& )` when none of
them throws: with the type of the node derived, both operands generated and
an operator token that the `switch` knows, the move into `d0` and the
arithmetic instruction are appended to what the operands have left. -/
theorem generateBinaryExpression_steps (lhsValue rhsValue : Expression) (token : Token)
    (assembly afterRhs afterLhs : Assembly) (type : ExpressionDataType)
    (operator : m68k.Operator)
    (htype : getTypeBinaryExpression (.mk lhsValue (.token token) rhsValue) assembly = .ok type)
    (hrhs : generateExpression rhsValue assembly = .done afterRhs)
    (hlhs : generateExpression lhsValue afterRhs = .done afterLhs)
    (hop : arithmeticOperator token.type type = some operator) :
    generateBinaryExpression (.mk lhsValue (.token token) rhsValue) assembly
      = .done ((afterLhs.push ⟨.MOVE, typeToWordSize type, stackPop, accumulator⟩).push
          ⟨operator, typeToWordSize type, stackPop, accumulator⟩) := by
  simp only [generateBinaryExpression, htype, hrhs, hlhs, expectToken, pure, Except.pure, hop]

/-- A normal return of `generate( const BinaryExpression&, Assembly& )` read
backwards: every step has returned normally. -/
theorem generateBinaryExpression_done (lhsValue rhsValue : Expression) (op : Primary)
    (assembly result : Assembly)
    (h : generateBinaryExpression (.mk lhsValue op rhsValue) assembly = .done result) :
    ∃ (type : ExpressionDataType) (afterRhs afterLhs : Assembly) (token : Token)
      (operator : m68k.Operator),
      op = .token token ∧
      getTypeBinaryExpression (.mk lhsValue op rhsValue) assembly = .ok type ∧
      generateExpression rhsValue assembly = .done afterRhs ∧
      generateExpression lhsValue afterRhs = .done afterLhs ∧
      arithmeticOperator token.type type = some operator ∧
      result = (afterLhs.push ⟨.MOVE, typeToWordSize type, stackPop, accumulator⟩).push
          ⟨operator, typeToWordSize type, stackPop, accumulator⟩ := by
  simp only [generateBinaryExpression] at h
  cases htype : getTypeBinaryExpression (.mk lhsValue op rhsValue) assembly with
  | error message => simp [htype] at h
  | ok type =>
    cases hrhs : generateExpression rhsValue assembly with
    | threw message afterRhs => simp [htype, hrhs] at h
    | done afterRhs =>
      cases hlhs : generateExpression lhsValue afterRhs with
      | threw message afterLhs => simp [htype, hrhs, hlhs] at h
      | done afterLhs =>
        cases op with
        | expression nested => simp [htype, hrhs, hlhs, expectToken, throw, throwThe,
            MonadExceptOf.throw] at h
        | token token =>
          cases hop : arithmeticOperator token.type type with
          | none => simp [htype, hrhs, hlhs, expectToken, pure, Except.pure, hop] at h
          | some operator =>
            simp only [htype, hrhs, hlhs, expectToken, pure, Except.pure, hop,
              Generated.done.injEq] at h
            exact ⟨type, afterRhs, afterLhs, token, operator, rfl, rfl, rfl, hlhs, hop, h.symm⟩

mutual
/-- A normal return of `generate( const Expression&, Assembly& )` has appended
to the instruction list and has left the memory tracker as it was. -/
theorem generateExpression_extends : ∀ (node : Expression) (assembly result : Assembly),
    generateExpression node assembly = .done result →
    ∃ added : List m68k.Instruction,
      result.instructions = assembly.instructions ++ added ∧ result.memory = assembly.memory
  | .binary node, assembly, result, h =>
    generateBinaryExpression_extends node assembly result (by simpa [generateExpression] using h)
  | .primary _, assembly, result, h => by
    simp only [generateExpression, Generated.done.injEq] at h
    subst h
    exact ⟨[], by simp, rfl⟩
  | .unary _, assembly, result, h => by
    simp only [generateExpression, Generated.done.injEq] at h
    subst h
    exact ⟨[], by simp, rfl⟩
  | .call _, assembly, result, h => by
    simp only [generateExpression, Generated.done.injEq] at h
    subst h
    exact ⟨[], by simp, rfl⟩
  | .assignment _, assembly, result, h => by
    simp only [generateExpression, Generated.done.injEq] at h
    subst h
    exact ⟨[], by simp, rfl⟩
/-- A normal return of `generate( const BinaryExpression&, Assembly& )` has
appended to the instruction list and has left the memory tracker as it was. -/
theorem generateBinaryExpression_extends : ∀ (node : BinaryExpression)
    (assembly result : Assembly),
    generateBinaryExpression node assembly = .done result →
    ∃ added : List m68k.Instruction,
      result.instructions = assembly.instructions ++ added ∧ result.memory = assembly.memory
  | .mk lhsValue op rhsValue, assembly, result, h => by
    obtain ⟨type, afterRhs, afterLhs, token, operator, _, _, hrhs, hlhs, _, hresult⟩ :=
      generateBinaryExpression_done lhsValue rhsValue op assembly result h
    obtain ⟨fromRhs, hr, hrm⟩ := generateExpression_extends rhsValue assembly afterRhs hrhs
    obtain ⟨fromLhs, hl, hlm⟩ := generateExpression_extends lhsValue afterRhs afterLhs hlhs
    subst hresult
    refine ⟨fromRhs ++ fromLhs ++ [⟨.MOVE, typeToWordSize type, stackPop, accumulator⟩,
      ⟨operator, typeToWordSize type, stackPop, accumulator⟩], ?_, ?_⟩
    · simp [Assembly.push, hl, hr]
    · simp [Assembly.push, hlm, hrm]
end

/-- The `switch` on the operator token knows the four arithmetic operators. -/
theorem arithmeticOperator_known (tokenType : TokenType) (type : ExpressionDataType)
    (hop : tokenType = .TOKEN_PLUS ∨ tokenType = .TOKEN_MINUS ∨ tokenType = .TOKEN_ASTERISK ∨
      tokenType = .TOKEN_FORWARD_SLASH) :
    ∃ operator, arithmeticOperator tokenType type = some operator ∧ operator ≠ .MOVE := by
  rcases hop with h | h | h | h <;> subst h <;> simp only [arithmeticOperator]
  · exact ⟨_, rfl, by decide⟩
  · exact ⟨_, rfl, by decide⟩
  · cases isSigned type
    · exact ⟨_, rfl, by decide⟩
    · exact ⟨_, rfl, by decide⟩
  · cases isSigned type
    · exact ⟨_, rfl, by decide⟩
    · exact ⟨_, rfl, by decide⟩

/-- C13, as stated, fails on the code: the operator of `(1 . 2) + 3` is `+` and
the type of the node is derived as `U8`, but generating the left operand
throws at its dot, and `generate` on the node ends in that throw with one
instruction in the list, not with the two instructions of the node appended. -/
theorem generate_binary_appends_counterexample :
    getTypeBinaryExpression (binaryOf dotOfLiterals .TOKEN_PLUS (integerLiteral 3))
        emptyAssembly = .ok .U8 ∧
    generateBinaryExpression (binaryOf dotOfLiterals .TOKEN_PLUS (integerLiteral 3))
        emptyAssembly
      = .threw "Expected: ., +, -, *, or / operator"
          ⟨[⟨.MOVE, .BYTE, stackPop, accumulator⟩], emptyMemory⟩ ∧
    ¬ ∃ result, generateBinaryExpression
        (binaryOf dotOfLiterals .TOKEN_PLUS (integerLiteral 3)) emptyAssembly = .done result := by
  refine ⟨by decide, by decide, ?_⟩
  rintro ⟨result, h⟩
  have hthrew : generateBinaryExpression
      (binaryOf dotOfLiterals .TOKEN_PLUS (integerLiteral 3)) emptyAssembly
      = .threw "Expected: ., +, -, *, or / operator"
          ⟨[⟨.MOVE, .BYTE, stackPop, accumulator⟩], emptyMemory⟩ := by decide
  rw [hthrew] at h
  cases h

/-- C13, amended: for a `BinaryExpression` whose operator token is one of `+`,
`-`, `*`, `/`, whose type derivation returns the type `type`, and whose two
operands are generated without a throw, `generate` returns normally, and the
instruction list is then the list as it was before, followed by the
instructions generated for the right operand, then those generated for the
left operand, then a `MOVE` from the stack with post-increment into `d0` and
one arithmetic instruction with the same two operands; both carry the word
size of `type`, which is `BYTE` for u8/s8, `WORD` for u16/s16 and `LONG` for
u32/s32. -/
theorem generate_binary_appends (lhsValue rhsValue : Expression) (token : Token)
    (assembly afterRhs afterLhs : Assembly) (type : ExpressionDataType)
    (hop : token.type = .TOKEN_PLUS ∨ token.type = .TOKEN_MINUS ∨
      token.type = .TOKEN_ASTERISK ∨ token.type = .TOKEN_FORWARD_SLASH)
    (htype : getTypeBinaryExpression (.mk lhsValue (.token token) rhsValue) assembly = .ok type)
    (hrhs : generateExpression rhsValue assembly = .done afterRhs)
    (hlhs : generateExpression lhsValue afterRhs = .done afterLhs) :
    ∃ (fromRhs fromLhs : List m68k.Instruction) (operator : m68k.Operator),
      afterRhs.instructions = assembly.instructions ++ fromRhs ∧
      afterLhs.instructions = afterRhs.instructions ++ fromLhs ∧
      operator ≠ .MOVE ∧
      generateBinaryExpression (.mk lhsValue (.token token) rhsValue) assembly
        = .done ⟨assembly.instructions ++ fromRhs ++ fromLhs ++
            [⟨.MOVE, typeToWordSize type, ⟨0, .REGISTER_sp_INDIRECT, 1, 0⟩,
                ⟨0, .REGISTER_d0, 0, 0⟩⟩,
             ⟨operator, typeToWordSize type, ⟨0, .REGISTER_sp_INDIRECT, 1, 0⟩,
                ⟨0, .REGISTER_d0, 0, 0⟩⟩],
            assembly.memory⟩ ∧
      (type = .U8 ∨ type = .S8 → typeToWordSize type = .BYTE) ∧
      (type = .U16 ∨ type = .S16 → typeToWordSize type = .WORD) ∧
      (type = .U32 ∨ type = .S32 → typeToWordSize type = .LONG) := by
  obtain ⟨operator, hoperator, hmove⟩ := arithmeticOperator_known token.type type hop
  obtain ⟨fromRhs, hr, hrm⟩ := generateExpression_extends rhsValue assembly afterRhs hrhs
  obtain ⟨fromLhs, hl, hlm⟩ := generateExpression_extends lhsValue afterRhs afterLhs hlhs
  refine ⟨fromRhs, fromLhs, operator, hr, hl, hmove, ?_, ?_, ?_, ?_⟩
  · rw [generateBinaryExpression_steps lhsValue rhsValue token assembly afterRhs afterLhs type
      operator htype hrhs hlhs hoperator]
    simp [Assembly.push, hl, hr, hlm, hrm, stackPop, accumulator]
  · rintro (h | h) <;> subst h <;> rfl
  · rintro (h | h) <;> subst h <;> rfl
  · rintro (h | h) <;> subst h <;> rfl

/-- C13 on `3 - 4` generated after one instruction that is already in the list:
that instruction stays, and the `MOVE` and the `SUBTRACT` of width `BYTE`
follow it. -/
theorem generate_binary_appends_witness :
    ∃ (fromRhs fromLhs : List m68k.Instruction) (operator : m68k.Operator),
      ([⟨.ADD, .WORD, stackPop, accumulator⟩] : List m68k.Instruction)
        = [⟨.ADD, .WORD, stackPop, accumulator⟩] ++ fromRhs ∧
      ([⟨.ADD, .WORD, stackPop, accumulator⟩] : List m68k.Instruction)
        = [⟨.ADD, .WORD, stackPop, accumulator⟩] ++ fromLhs ∧
      operator ≠ .MOVE ∧
      generateBinaryExpression
          (.mk (integerLiteral 3) (.token ⟨.TOKEN_MINUS, none⟩) (integerLiteral 4))
          ⟨[⟨.ADD, .WORD, stackPop, accumulator⟩], emptyMemory⟩
        = .done ⟨[⟨.ADD, .WORD, stackPop, accumulator⟩] ++ fromRhs ++ fromLhs ++
            [⟨.MOVE, typeToWordSize .U8, ⟨0, .REGISTER_sp_INDIRECT, 1, 0⟩,
                ⟨0, .REGISTER_d0, 0, 0⟩⟩,
             ⟨operator, typeToWordSize .U8, ⟨0, .REGISTER_sp_INDIRECT, 1, 0⟩,
                ⟨0, .REGISTER_d0, 0, 0⟩⟩],
            emptyMemory⟩ ∧
      ((ExpressionDataType.U8 = .U8 ∨ ExpressionDataType.U8 = .S8) →
        typeToWordSize .U8 = .BYTE) ∧
      ((ExpressionDataType.U8 = .U16 ∨ ExpressionDataType.U8 = .S16) →
        typeToWordSize .U8 = .WORD) ∧
      ((ExpressionDataType.U8 = .U32 ∨ ExpressionDataType.U8 = .S32) →
        typeToWordSize .U8 = .LONG) :=
  generate_binary_appends (integerLiteral 3) (integerLiteral 4) ⟨.TOKEN_MINUS, none⟩
    ⟨[⟨.ADD, .WORD, stackPop, accumulator⟩], emptyMemory⟩
    ⟨[⟨.ADD, .WORD, stackPop, accumulator⟩], emptyMemory⟩
    ⟨[⟨.ADD, .WORD, stackPop, accumulator⟩], emptyMemory⟩ .U8
    (Or.inr (Or.inl rfl)) (by decide) (by decide) (by decide)

/-- The signed kinds are `S8`, `S16` and `S32`. -/
theorem isSigned_iff (type : ExpressionDataType) :
    isSigned type = true ↔ type = .S8 ∨ type = .S16 ∨ type = .S32 := by
  cases type <;> simp [isSigned]

/-- C14: when `generate` on a `BinaryExpression` returns normally, the operator
of the node is a token, the type of the node has been derived, and the last
instruction, appended after what the operands have left and the move into
`d0`, has the operator `ADD` for `TOKEN_PLUS`, `SUBTRACT` for `TOKEN_MINUS`,
`MULTIPLY_SIGNED` or `MULTIPLY_UNSIGNED` for `TOKEN_ASTERISK` and
`DIVIDE_SIGNED` or `DIVIDE_UNSIGNED` for `TOKEN_FORWARD_SLASH`, signed exactly
when the type of the node is one of s8, s16, s32. -/
theorem generate_binary_last_instruction (lhsValue rhsValue : Expression) (op : Primary)
    (assembly result : Assembly)
    (h : generateBinaryExpression (.mk lhsValue op rhsValue) assembly = .done result) :
    ∃ (type : ExpressionDataType) (token : Token) (afterRhs afterLhs : Assembly)
      (move last : m68k.Instruction),
      op = .token token ∧
      getTypeBinaryExpression (.mk lhsValue op rhsValue) assembly = .ok type ∧
      generateExpression rhsValue assembly = .done afterRhs ∧
      generateExpression lhsValue afterRhs = .done afterLhs ∧
      result.instructions = afterLhs.instructions ++ [move, last] ∧
      result.instructions.getLast? = some last ∧
      (token.type = .TOKEN_PLUS ∨ token.type = .TOKEN_MINUS ∨
        token.type = .TOKEN_ASTERISK ∨ token.type = .TOKEN_FORWARD_SLASH) ∧
      (token.type = .TOKEN_PLUS → last.operator = .ADD) ∧
      (token.type = .TOKEN_MINUS → last.operator = .SUBTRACT) ∧
      (token.type = .TOKEN_ASTERISK →
        last.operator = if type = .S8 ∨ type = .S16 ∨ type = .S32
          then .MULTIPLY_SIGNED else .MULTIPLY_UNSIGNED) ∧
      (token.type = .TOKEN_FORWARD_SLASH →
        last.operator = if type = .S8 ∨ type = .S16 ∨ type = .S32
          then .DIVIDE_SIGNED else .DIVIDE_UNSIGNED) := by
  obtain ⟨type, afterRhs, afterLhs, token, operator, hop, htype, hrhs, hlhs, hoperator, hresult⟩ :=
    generateBinaryExpression_done lhsValue rhsValue op assembly result h
  refine ⟨type, token, afterRhs, afterLhs, ⟨.MOVE, typeToWordSize type, stackPop, accumulator⟩,
    ⟨operator, typeToWordSize type, stackPop, accumulator⟩, hop, htype, hrhs, hlhs, ?_, ?_, ?_⟩
  · subst hresult
    simp [Assembly.push]
  · subst hresult
    simp [Assembly.push]
  · have hsigned := isSigned_iff type
    obtain ⟨tokenType, payload⟩ := token
    simp only at hoperator ⊢
    cases tokenType <;> simp [arithmeticOperator] at hoperator <;> subst hoperator
    · simp
    · simp
    · by_cases hs : isSigned type = true
      · simp [hs, hsigned.mp hs]
      · have hn : ¬ (type = .S8 ∨ type = .S16 ∨ type = .S32) := fun hk => hs (hsigned.mpr hk)
        simp [hs, hn]
    · by_cases hs : isSigned type = true
      · simp [hs, hsigned.mp hs]
      · have hn : ¬ (type = .S8 ∨ type = .S16 ∨ type = .S32) := fun hk => hs (hsigned.mpr hk)
        simp [hs, hn]

/-- C14 on `(-1) * (-2)`: the literals are signed, the type of the node is `S8`,
and the last instruction is the signed multiplication. -/
theorem generate_binary_last_instruction_witness :
    ∃ (type : ExpressionDataType) (token : Token) (afterRhs afterLhs : Assembly)
      (move last : m68k.Instruction),
      (Primary.token ⟨.TOKEN_ASTERISK, none⟩) = .token token ∧
      getTypeBinaryExpression
        (.mk (integerLiteral (-1)) (.token ⟨.TOKEN_ASTERISK, none⟩) (integerLiteral (-2)))
        emptyAssembly = .ok type ∧
      generateExpression (integerLiteral (-2)) emptyAssembly = .done afterRhs ∧
      generateExpression (integerLiteral (-1)) afterRhs = .done afterLhs ∧
      ([⟨.MOVE, .BYTE, stackPop, accumulator⟩, ⟨.MULTIPLY_SIGNED, .BYTE, stackPop, accumulator⟩]
        : List m68k.Instruction) = afterLhs.instructions ++ [move, last] ∧
      ([⟨.MOVE, .BYTE, stackPop, accumulator⟩, ⟨.MULTIPLY_SIGNED, .BYTE, stackPop, accumulator⟩]
        : List m68k.Instruction).getLast? = some last ∧
      (token.type = .TOKEN_PLUS ∨ token.type = .TOKEN_MINUS ∨
        token.type = .TOKEN_ASTERISK ∨ token.type = .TOKEN_FORWARD_SLASH) ∧
      (token.type = .TOKEN_PLUS → last.operator = .ADD) ∧
      (token.type = .TOKEN_MINUS → last.operator = .SUBTRACT) ∧
      (token.type = .TOKEN_ASTERISK →
        last.operator = if type = .S8 ∨ type = .S16 ∨ type = .S32
          then .MULTIPLY_SIGNED else .MULTIPLY_UNSIGNED) ∧
      (token.type = .TOKEN_FORWARD_SLASH →
        last.operator = if type = .S8 ∨ type = .S16 ∨ type = .S32
          then .DIVIDE_SIGNED else .DIVIDE_UNSIGNED) :=
  generate_binary_last_instruction (integerLiteral (-1)) (integerLiteral (-2))
    (.token ⟨.TOKEN_ASTERISK, none⟩) emptyAssembly
    ⟨[⟨.MOVE, .BYTE, stackPop, accumulator⟩, ⟨.MULTIPLY_SIGNED, .BYTE, stackPop, accumulator⟩],
      emptyMemory⟩
    (by decide)

/-- The `switch` on the operator token throws on every token kind other than
the four arithmetic operators. -/
theorem arithmeticOperator_unknown (tokenType : TokenType) (type : ExpressionDataType)
    (hop : tokenType ≠ .TOKEN_PLUS ∧ tokenType ≠ .TOKEN_MINUS ∧ tokenType ≠ .TOKEN_ASTERISK ∧
      tokenType ≠ .TOKEN_FORWARD_SLASH) :
    arithmeticOperator tokenType type = none := by
  obtain ⟨h1, h2, h3, h4⟩ := hop
  cases tokenType <;> simp_all [arithmeticOperator]

/-- C15: `generate` on a `BinaryExpression` whose operator `Primary` holds a
nested expression, or a token other than `TOKEN_PLUS`, `TOKEN_MINUS`,
`TOKEN_ASTERISK` and `TOKEN_FORWARD_SLASH` (the dot included), ends in a throw;
when the steps before the operator have returned normally, the throw is the
one on the operator, `Expected: Token as BinaryExpression operator` for a
nested expression and `Expected: ., +, -, *, or / operator` for a token; and
with one of the four operator tokens the operator is no reason of failure,
`generate` returns normally once the type is derived and the operands are
generated. -/
theorem generate_binary_operator_throw (lhsValue rhsValue : Expression) (op : Primary)
    (assembly : Assembly) :
    ((∀ token : Token, op = .token token →
        token.type ≠ .TOKEN_PLUS ∧ token.type ≠ .TOKEN_MINUS ∧
        token.type ≠ .TOKEN_ASTERISK ∧ token.type ≠ .TOKEN_FORWARD_SLASH) →
      ∃ (message : String) (state : Assembly),
        generateBinaryExpression (.mk lhsValue op rhsValue) assembly = .threw message state) ∧
    (∀ (type : ExpressionDataType) (afterRhs afterLhs : Assembly),
      getTypeBinaryExpression (.mk lhsValue op rhsValue) assembly = .ok type →
      generateExpression rhsValue assembly = .done afterRhs →
      generateExpression lhsValue afterRhs = .done afterLhs →
      ((∀ nested : Expression, op = .expression nested →
          generateBinaryExpression (.mk lhsValue op rhsValue) assembly
            = .threw "Expected: Token as BinaryExpression operator"
                (afterLhs.push ⟨.MOVE, typeToWordSize type, stackPop, accumulator⟩)) ∧
       (∀ token : Token, op = .token token →
          token.type ≠ .TOKEN_PLUS ∧ token.type ≠ .TOKEN_MINUS ∧
          token.type ≠ .TOKEN_ASTERISK ∧ token.type ≠ .TOKEN_FORWARD_SLASH →
          generateBinaryExpression (.mk lhsValue op rhsValue) assembly
            = .threw "Expected: ., +, -, *, or / operator"
                (afterLhs.push ⟨.MOVE, typeToWordSize type, stackPop, accumulator⟩)) ∧
       (∀ token : Token, op = .token token →
          token.type = .TOKEN_PLUS ∨ token.type = .TOKEN_MINUS ∨
          token.type = .TOKEN_ASTERISK ∨ token.type = .TOKEN_FORWARD_SLASH →
          ∃ result : Assembly,
            generateBinaryExpression (.mk lhsValue op rhsValue) assembly = .done result))) := by
  constructor
  · intro hbad
    cases hresult : generateBinaryExpression (.mk lhsValue op rhsValue) assembly with
    | threw message state => exact ⟨message, state, rfl⟩
    | done result =>
      obtain ⟨type, _, _, token, operator, hop, _, _, _, hoperator, _⟩ :=
        generateBinaryExpression_done lhsValue rhsValue op assembly result hresult
      rw [arithmeticOperator_unknown token.type type (hbad token hop)] at hoperator
      cases hoperator
  · intro type afterRhs afterLhs htype hrhs hlhs
    refine ⟨?_, ?_, ?_⟩
    · intro nested hop
      subst hop
      simp only [generateBinaryExpression, htype, hrhs, hlhs, expectToken, throw, throwThe,
        MonadExceptOf.throw]
    · intro token hop hbad
      subst hop
      simp only [generateBinaryExpression, htype, hrhs, hlhs, expectToken, pure, Except.pure,
        arithmeticOperator_unknown token.type type hbad]
    · intro token hop hgood
      subst hop
      obtain ⟨operator, hoperator, _⟩ := arithmeticOperator_known token.type type hgood
      exact ⟨_, generateBinaryExpression_steps lhsValue rhsValue token assembly afterRhs afterLhs
        type operator htype hrhs hlhs hoperator⟩

/-- C15 on `1 . 2`, whose operator is the dot, and on `3 + 4`: the first ends in
a throw, the second returns normally. -/
theorem generate_binary_operator_throw_witness :
    (∃ (message : String) (state : Assembly),
      generateBinaryExpression
        (.mk (integerLiteral 1) (.token ⟨.TOKEN_DOT, none⟩) (integerLiteral 2)) emptyAssembly
        = .threw message state) ∧
    (∃ result : Assembly,
      generateBinaryExpression
        (.mk (integerLiteral 3) (.token ⟨.TOKEN_PLUS, none⟩) (integerLiteral 4)) emptyAssembly
        = .done result) :=
  ⟨(generate_binary_operator_throw (integerLiteral 1) (integerLiteral 2)
      (.token ⟨.TOKEN_DOT, none⟩) emptyAssembly).1
      (fun token h => by
        cases h
        exact ⟨by decide, by decide, by decide, by decide⟩),
   ((generate_binary_operator_throw (integerLiteral 3) (integerLiteral 4)
      (.token ⟨.TOKEN_PLUS, none⟩) emptyAssembly).2 .U8 emptyAssembly emptyAssembly
      (by decide) (by decide) (by decide)).2.2 ⟨.TOKEN_PLUS, none⟩ rfl (Or.inl rfl)⟩

/-- When the type of a `BinaryExpression` is derived as `INVALID`, the operator
is one of the four operator tokens and the operands are generated without a
throw, `generate` returns normally, and the two instructions of the node have
the width `LONG`. -/
theorem invalid_type_generates_long (lhsValue rhsValue : Expression) (token : Token)
    (assembly afterRhs afterLhs : Assembly)
    (hop : token.type = .TOKEN_PLUS ∨ token.type = .TOKEN_MINUS ∨
      token.type = .TOKEN_ASTERISK ∨ token.type = .TOKEN_FORWARD_SLASH)
    (htype : getTypeBinaryExpression (.mk lhsValue (.token token) rhsValue) assembly
      = .ok .INVALID)
    (hrhs : generateExpression rhsValue assembly = .done afterRhs)
    (hlhs : generateExpression lhsValue afterRhs = .done afterLhs) :
    ∃ operator : m68k.Operator,
      operator ≠ .MOVE ∧
      generateBinaryExpression (.mk lhsValue (.token token) rhsValue) assembly
        = .done ⟨afterLhs.instructions ++
            [⟨.MOVE, .LONG, ⟨0, .REGISTER_sp_INDIRECT, 1, 0⟩, ⟨0, .REGISTER_d0, 0, 0⟩⟩,
             ⟨operator, .LONG, ⟨0, .REGISTER_sp_INDIRECT, 1, 0⟩, ⟨0, .REGISTER_d0, 0, 0⟩⟩],
            afterLhs.memory⟩ := by
  obtain ⟨operator, hoperator, hmove⟩ := arithmeticOperator_known token.type .INVALID hop
  refine ⟨operator, hmove, ?_⟩
  rw [generateBinaryExpression_steps lhsValue rhsValue token assembly afterRhs afterLhs .INVALID
    operator htype hrhs hlhs hoperator]
  simp [Assembly.push, typeToWordSize, stackPop, accumulator]

/-- C18, evaluated on the code: the type of `(-1) + 4`, whose left operand holds
a unary expression, and the type of `p + 4`, whose left operand is an
identifier of the UDT type `Point`, are derived as `INVALID`, and `generate`
returns normally on both and appends the two instructions of the node in the
width `LONG`; no error is raised before them.  `generate` never compares the
derived type with `INVALID`, and `typeToWordSize` sends `INVALID` to `LONG`. -/
theorem generate_invalid_type_long :
    getTypeBinaryExpression (binaryOf negatedOne .TOKEN_PLUS (integerLiteral 4)) emptyAssembly
      = .ok .INVALID ∧
    generateBinaryExpression (binaryOf negatedOne .TOKEN_PLUS (integerLiteral 4)) emptyAssembly
      = .done ⟨[⟨.MOVE, .LONG, stackPop, accumulator⟩, ⟨.ADD, .LONG, stackPop, accumulator⟩],
               emptyMemory⟩ ∧
    getTypeBinaryExpression (binaryOf (identifier "p") .TOKEN_PLUS (integerLiteral 4))
        pointAssembly
      = .ok .INVALID ∧
    generateBinaryExpression (binaryOf (identifier "p") .TOKEN_PLUS (integerLiteral 4))
        pointAssembly
      = .done ⟨[⟨.MOVE, .LONG, stackPop, accumulator⟩, ⟨.ADD, .LONG, stackPop, accumulator⟩],
               pointMemory⟩ ∧
    typeToWordSize .INVALID = .LONG := by
  decide

end GoldScorpion.Generator

/-! ## Properties of the sizes of types -/

namespace GoldScorpion

end GoldScorpion

/-! ## Further properties of the code generator -/

namespace GoldScorpion.Generator

/-- The word size of the kind of an integer literal. -/
theorem typeToWordSize_getLiteralType (v : Int) :
    typeToWordSize (getLiteralType v)
      = if -127 ≤ v ∧ v ≤ 255 then .BYTE
        else if -32767 ≤ v ∧ v ≤ 65535 then .WORD else .LONG := by
  unfold getLiteralType
  split_ifs <;> first | rfl | omega

/-- C23: for every integer literal value `v`, `generate( const Primary& )` on a
`Primary` wrapping a `TOKEN_LITERAL_INTEGER` token with payload `v` returns
normally and has appended exactly one instruction: a `MOVE` whose source is
the immediate operand with value `v`, whose destination is
stack-pointer-indirect with pre-decrement (index -1), and whose width is
`BYTE` for -127..255, `WORD` for -32767..-128 and 256..65535, and `LONG`
otherwise. -/
theorem generatePrimary_literal (v : Int) (assembly : Assembly) :
    generatePrimary (.token ⟨.TOKEN_LITERAL_INTEGER, some (.long v)⟩) assembly
      = .done ⟨assembly.instructions ++
          [⟨.MOVE,
            if -127 ≤ v ∧ v ≤ 255 then .BYTE
            else if -32767 ≤ v ∧ v ≤ 65535 then .WORD else .LONG,
            ⟨0, .IMMEDIATE, 0, v⟩, ⟨-1, .REGISTER_sp_INDIRECT, 0, 0⟩⟩],
          assembly.memory⟩ := by
  rw [← typeToWordSize_getLiteralType v]
  simp [generatePrimary, getTypePrimary, expectLong, Assembly.push, bind, Except.bind, pure,
    Except.pure]

/-- C25: when `generate` on a `BinaryExpression` fails at its operator, which is
a nested expression or a token other than `+`, `-`, `*`, `/`, after the type
has been derived and both operands have been generated, the assembly at the
throw holds the instruction list as it was before the call, followed by the
instructions of the right operand, those of the left operand, and one `MOVE`
from the stack into `d0`; the list is not the list before the call. -/
theorem generate_binary_failure_not_atomic (lhsValue rhsValue : Expression) (op : Primary)
    (assembly afterRhs afterLhs : Assembly) (type : ExpressionDataType)
    (hop : ∀ token : Token, op = .token token →
      token.type ≠ .TOKEN_PLUS ∧ token.type ≠ .TOKEN_MINUS ∧
      token.type ≠ .TOKEN_ASTERISK ∧ token.type ≠ .TOKEN_FORWARD_SLASH)
    (htype : getTypeBinaryExpression (.mk lhsValue op rhsValue) assembly = .ok type)
    (hrhs : generateExpression rhsValue assembly = .done afterRhs)
    (hlhs : generateExpression lhsValue afterRhs = .done afterLhs) :
    ∃ (fromRhs fromLhs : List m68k.Instruction) (message : String),
      afterRhs.instructions = assembly.instructions ++ fromRhs ∧
      afterLhs.instructions = afterRhs.instructions ++ fromLhs ∧
      generateBinaryExpression (.mk lhsValue op rhsValue) assembly
        = .threw message
            ⟨assembly.instructions ++ fromRhs ++ fromLhs ++
              [⟨.MOVE, typeToWordSize type, ⟨0, .REGISTER_sp_INDIRECT, 1, 0⟩,
                ⟨0, .REGISTER_d0, 0, 0⟩⟩],
             assembly.memory⟩ ∧
      (message = "Expected: Token as BinaryExpression operator" ∨
        message = "Expected: ., +, -, *, or / operator") ∧
      assembly.instructions ++ fromRhs ++ fromLhs ++
          [⟨.MOVE, typeToWordSize type, ⟨0, .REGISTER_sp_INDIRECT, 1, 0⟩,
            ⟨0, .REGISTER_d0, 0, 0⟩⟩]
        ≠ assembly.instructions := by
  obtain ⟨fromRhs, hr, hrm⟩ := generateExpression_extends rhsValue assembly afterRhs hrhs
  obtain ⟨fromLhs, hl, hlm⟩ := generateExpression_extends lhsValue afterRhs afterLhs hlhs
  have hstate : afterLhs.push ⟨.MOVE, typeToWordSize type, stackPop, accumulator⟩
      = ⟨assembly.instructions ++ fromRhs ++ fromLhs ++
          [⟨.MOVE, typeToWordSize type, ⟨0, .REGISTER_sp_INDIRECT, 1, 0⟩,
            ⟨0, .REGISTER_d0, 0, 0⟩⟩], assembly.memory⟩ := by
    simp [Assembly.push, hl, hr, hlm, hrm, stackPop, accumulator]
  have hlonger : assembly.instructions ++ fromRhs ++ fromLhs ++
        [⟨.MOVE, typeToWordSize type, ⟨0, .REGISTER_sp_INDIRECT, 1, 0⟩,
          ⟨0, .REGISTER_d0, 0, 0⟩⟩] ≠ assembly.instructions := by
    intro heq
    have hlen := congrArg List.length heq
    simp only [List.length_append, List.length_cons, List.length_nil] at hlen
    omega
  cases op with
  | expression nested =>
    refine ⟨fromRhs, fromLhs, _, hr, hl, ?_, Or.inl rfl, hlonger⟩
    rw [← hstate]
    simp only [generateBinaryExpression, htype, hrhs, hlhs, expectToken, throw, throwThe,
      MonadExceptOf.throw]
  | token token =>
    refine ⟨fromRhs, fromLhs, _, hr, hl, ?_, Or.inr rfl, hlonger⟩
    rw [← hstate]
    simp only [generateBinaryExpression, htype, hrhs, hlhs, expectToken, pure, Except.pure,
      arithmeticOperator_unknown token.type type (hop token rfl)]

/-- C25 on `1 . 2`: the throw at the dot leaves the `MOVE` of width `BYTE` in
the list, which was empty before the call. -/
theorem generate_binary_failure_not_atomic_witness :
    ∃ (fromRhs fromLhs : List m68k.Instruction) (message : String),
      emptyAssembly.instructions = emptyAssembly.instructions ++ fromRhs ∧
      emptyAssembly.instructions = emptyAssembly.instructions ++ fromLhs ∧
      generateBinaryExpression
          (.mk (integerLiteral 1) (.token ⟨.TOKEN_DOT, none⟩) (integerLiteral 2)) emptyAssembly
        = .threw message
            ⟨emptyAssembly.instructions ++ fromRhs ++ fromLhs ++
              [⟨.MOVE, typeToWordSize .U8, ⟨0, .REGISTER_sp_INDIRECT, 1, 0⟩,
                ⟨0, .REGISTER_d0, 0, 0⟩⟩],
             emptyAssembly.memory⟩ ∧
      (message = "Expected: Token as BinaryExpression operator" ∨
        message = "Expected: ., +, -, *, or / operator") ∧
      emptyAssembly.instructions ++ fromRhs ++ fromLhs ++
          [⟨.MOVE, typeToWordSize .U8, ⟨0, .REGISTER_sp_INDIRECT, 1, 0⟩,
            ⟨0, .REGISTER_d0, 0, 0⟩⟩]
        ≠ emptyAssembly.instructions :=
  generate_binary_failure_not_atomic (integerLiteral 1) (integerLiteral 2)
    (.token ⟨.TOKEN_DOT, none⟩) emptyAssembly emptyAssembly emptyAssembly .U8
    (fun token h => by
      cases h
      exact ⟨by decide, by decide, by decide, by decide⟩)
    (by decide) (by decide) (by decide)

/-- On the integer kinds the promoted type is signed exactly when both operand
types are signed. -/
theorem isSigned_promote (a b : ExpressionDataType) (ha : isIntegerKind a = true)
    (hb : isIntegerKind b = true) :
    isSigned (promote a b) = (isSigned a && isSigned b) := by
  revert ha hb
  cases a <;> cases b <;> decide

/-- The type that `getType` gives to a binary node is the promotion of the
types of its operands. -/
theorem getTypeBinaryExpression_promote (lhsValue rhsValue : Expression) (op : Primary)
    (assembly : Assembly) (a b : ExpressionDataType)
    (hl : getTypeExpression lhsValue assembly = .ok a)
    (hr : getTypeExpression rhsValue assembly = .ok b) :
    getTypeBinaryExpression (.mk lhsValue op rhsValue) assembly = .ok (promote a b) := by
  simp [getTypeBinaryExpression, hl, hr, bind, Except.bind, pure, Except.pure]

/-- C27: on the six integer kinds the promotion of the generator is idempotent,
commutative and associative, and its result is an integer kind again; so the
type derived for a chain of two operators over three operands whose types are
integer kinds is the same for both groupings and for exchanged operands. -/
theorem promote_semilattice (a b c : ExpressionDataType) (ha : isIntegerKind a = true)
    (hb : isIntegerKind b = true) (hc : isIntegerKind c = true) :
    promote a a = a ∧
    promote a b = promote b a ∧
    promote (promote a b) c = promote a (promote b c) ∧
    isIntegerKind (promote a b) = true ∧
    (∀ (x y z : Expression) (first second : Primary) (assembly : Assembly),
      getTypeExpression x assembly = .ok a → getTypeExpression y assembly = .ok b →
      getTypeExpression z assembly = .ok c →
      getTypeBinaryExpression (.mk (.binary (.mk x first y)) second z) assembly
        = getTypeBinaryExpression (.mk x first (.binary (.mk y second z))) assembly ∧
      getTypeBinaryExpression (.mk (.binary (.mk x first y)) second z) assembly
        = getTypeBinaryExpression (.mk (.binary (.mk z first y)) second x) assembly) := by
  have hidem : promote a a = a := by
    revert ha
    cases a <;> decide
  have hcomm : ∀ p q : ExpressionDataType, isIntegerKind p = true → isIntegerKind q = true →
      promote p q = promote q p := by
    intro p q hp hq
    revert hp hq
    cases p <;> cases q <;> decide
  have hassoc : promote (promote a b) c = promote a (promote b c) := by
    revert ha hb hc
    cases a <;> cases b <;> cases c <;> decide
  have hclosed : ∀ p q : ExpressionDataType, isIntegerKind p = true → isIntegerKind q = true →
      isIntegerKind (promote p q) = true := by
    intro p q hp hq
    revert hp hq
    cases p <;> cases q <;> decide
  refine ⟨hidem, hcomm a b ha hb, hassoc, hclosed a b ha hb, ?_⟩
  intro x y z first second assembly hx hy hz
  have hxy := getTypeBinaryExpression_promote x y first assembly a b hx hy
  have hyz := getTypeBinaryExpression_promote y z second assembly b c hy hz
  have hzy := getTypeBinaryExpression_promote z y first assembly c b hz hy
  have hleft := getTypeBinaryExpression_promote (.binary (.mk x first y)) z second assembly
    (promote a b) c (by simpa [getTypeExpression] using hxy) hz
  have hright := getTypeBinaryExpression_promote x (.binary (.mk y second z)) first assembly
    a (promote b c) hx (by simpa [getTypeExpression] using hyz)
  have hswap := getTypeBinaryExpression_promote (.binary (.mk z first y)) x second assembly
    (promote c b) a (by simpa [getTypeExpression] using hzy) hx
  refine ⟨?_, ?_⟩
  · rw [hleft, hright, hassoc]
  · rw [hleft, hswap, hcomm c b hc hb, hcomm (promote b c) a (hclosed b c hb hc) ha,
      hassoc]

/-- C27 on `s8`, `u16` and `s32`: the three laws at these kinds. -/
theorem promote_semilattice_witness :
    promote .S8 .S8 = .S8 ∧
    promote .S8 .U16 = promote .U16 .S8 ∧
    promote (promote .S8 .U16) .S32 = promote .S8 (promote .U16 .S32) :=
  ⟨(promote_semilattice .S8 .U16 .S32 (by decide) (by decide) (by decide)).1,
   (promote_semilattice .S8 .U16 .S32 (by decide) (by decide) (by decide)).2.1,
   (promote_semilattice .S8 .U16 .S32 (by decide) (by decide) (by decide)).2.2.1⟩

mutual
/-- What `generate( const Expression& )` has appended at its end: on a normal
return two instructions for each binary node reached, on a throw fewer; and
each of them pops the stack into `d0`. -/
theorem generateExpression_appended : ∀ (node : Expression) (assembly : Assembly),
    (∀ result : Assembly, generateExpression node assembly = .done result →
      ∃ added : List m68k.Instruction,
        result.instructions = assembly.instructions ++ added ∧
        added.length = 2 * binaryNodes node ∧
        ∀ instruction ∈ added, popsIntoAccumulator instruction) ∧
    (∀ (message : String) (result : Assembly),
      generateExpression node assembly = .threw message result →
      ∃ added : List m68k.Instruction,
        result.instructions = assembly.instructions ++ added ∧
        added.length < 2 * binaryNodes node ∧
        ∀ instruction ∈ added, popsIntoAccumulator instruction)
  | .binary node, assembly => by
    have h := generateBinaryExpression_appended node assembly
    simpa only [generateExpression, binaryNodes] using h
  | .primary _, assembly => by
    constructor
    · intro result h
      simp only [generateExpression, Generated.done.injEq] at h
      subst h
      exact ⟨[], by simp, by simp [binaryNodes], by simp⟩
    · intro message result h
      simp [generateExpression] at h
  | .unary _, assembly => by
    constructor
    · intro result h
      simp only [generateExpression, Generated.done.injEq] at h
      subst h
      exact ⟨[], by simp, by simp [binaryNodes], by simp⟩
    · intro message result h
      simp [generateExpression] at h
  | .call _, assembly => by
    constructor
    · intro result h
      simp only [generateExpression, Generated.done.injEq] at h
      subst h
      exact ⟨[], by simp, by simp [binaryNodes], by simp⟩
    · intro message result h
      simp [generateExpression] at h
  | .assignment _, assembly => by
    constructor
    · intro result h
      simp only [generateExpression, Generated.done.injEq] at h
      subst h
      exact ⟨[], by simp, by simp [binaryNodes], by simp⟩
    · intro message result h
      simp [generateExpression] at h
/-- What `generate( const BinaryExpression& )` has appended at its end. -/
theorem generateBinaryExpression_appended : ∀ (node : BinaryExpression) (assembly : Assembly),
    (∀ result : Assembly, generateBinaryExpression node assembly = .done result →
      ∃ added : List m68k.Instruction,
        result.instructions = assembly.instructions ++ added ∧
        added.length = 2 * binaryNodesOf node ∧
        ∀ instruction ∈ added, popsIntoAccumulator instruction) ∧
    (∀ (message : String) (result : Assembly),
      generateBinaryExpression node assembly = .threw message result →
      ∃ added : List m68k.Instruction,
        result.instructions = assembly.instructions ++ added ∧
        added.length < 2 * binaryNodesOf node ∧
        ∀ instruction ∈ added, popsIntoAccumulator instruction)
  | .mk lhsValue op rhsValue, assembly => by
    have hpop : ∀ (operator : m68k.Operator) (size : m68k.OperatorSize),
        popsIntoAccumulator ⟨operator, size, stackPop, accumulator⟩ :=
      fun _ _ => ⟨rfl, rfl⟩
    cases htype : getTypeBinaryExpression (.mk lhsValue op rhsValue) assembly with
    | error failure =>
      have hgen : generateBinaryExpression (.mk lhsValue op rhsValue) assembly
          = .threw failure assembly := by
        simp only [generateBinaryExpression, htype]
      rw [hgen]
      constructor
      · intro result h
        cases h
      · intro message result h
        cases h
        exact ⟨[], by simp, by simp [binaryNodesOf], by simp⟩
    | ok type =>
      cases hrhs : generateExpression rhsValue assembly with
      | threw failure afterRhs =>
        have hgen : generateBinaryExpression (.mk lhsValue op rhsValue) assembly
            = .threw failure afterRhs := by
          simp only [generateBinaryExpression, htype, hrhs]
        rw [hgen]
        obtain ⟨fromRhs, hr, hrlen, hrpop⟩ :=
          (generateExpression_appended rhsValue assembly).2 failure afterRhs hrhs
        constructor
        · intro result h
          cases h
        · intro message result h
          cases h
          exact ⟨fromRhs, hr, by simp only [binaryNodesOf]; omega, hrpop⟩
      | done afterRhs =>
        obtain ⟨fromRhs, hr, hrlen, hrpop⟩ :=
          (generateExpression_appended rhsValue assembly).1 afterRhs hrhs
        cases hlhs : generateExpression lhsValue afterRhs with
        | threw failure afterLhs =>
          have hgen : generateBinaryExpression (.mk lhsValue op rhsValue) assembly
              = .threw failure afterLhs := by
            simp only [generateBinaryExpression, htype, hrhs, hlhs]
          rw [hgen]
          obtain ⟨fromLhs, hl, hllen, hlpop⟩ :=
            (generateExpression_appended lhsValue afterRhs).2 failure afterLhs hlhs
          constructor
          · intro result h
            cases h
          · intro message result h
            cases h
            refine ⟨fromRhs ++ fromLhs, by simp [hl, hr], ?_, ?_⟩
            · simp only [List.length_append, binaryNodesOf]
              omega
            · intro instruction hmem
              rcases List.mem_append.mp hmem with hm | hm
              · exact hrpop instruction hm
              · exact hlpop instruction hm
        | done afterLhs =>
          obtain ⟨fromLhs, hl, hllen, hlpop⟩ :=
            (generateExpression_appended lhsValue afterRhs).1 afterLhs hlhs
          have hmoved : ∀ instruction ∈ fromRhs ++ fromLhs ++
              [(⟨.MOVE, typeToWordSize type, stackPop, accumulator⟩ : m68k.Instruction)],
              popsIntoAccumulator instruction := by
            intro instruction hmem
            rcases List.mem_append.mp hmem with hm | hm
            · rcases List.mem_append.mp hm with hm | hm
              · exact hrpop instruction hm
              · exact hlpop instruction hm
            · rw [List.mem_singleton.mp hm]
              exact hpop _ _
          cases op with
          | expression nested =>
            have hgen : generateBinaryExpression (.mk lhsValue (.expression nested) rhsValue)
                assembly = .threw "Expected: Token as BinaryExpression operator"
                  (afterLhs.push ⟨.MOVE, typeToWordSize type, stackPop, accumulator⟩) := by
              simp only [generateBinaryExpression, htype, hrhs, hlhs, expectToken, throw,
                throwThe, MonadExceptOf.throw]
            rw [hgen]
            constructor
            · intro result h
              cases h
            · intro message result h
              cases h
              refine ⟨fromRhs ++ fromLhs ++ [⟨.MOVE, typeToWordSize type, stackPop,
                accumulator⟩], by simp [Assembly.push, hl, hr], ?_, hmoved⟩
              simp only [List.length_append, List.length_cons, List.length_nil, binaryNodesOf]
              omega
          | token token =>
            cases hoperator : arithmeticOperator token.type type with
            | none =>
              have hgen : generateBinaryExpression (.mk lhsValue (.token token) rhsValue)
                  assembly = .threw "Expected: ., +, -, *, or / operator"
                    (afterLhs.push ⟨.MOVE, typeToWordSize type, stackPop, accumulator⟩) := by
                simp only [generateBinaryExpression, htype, hrhs, hlhs, expectToken, pure,
                  Except.pure, hoperator]
              rw [hgen]
              constructor
              · intro result h
                cases h
              · intro message result h
                cases h
                refine ⟨fromRhs ++ fromLhs ++ [⟨.MOVE, typeToWordSize type, stackPop,
                  accumulator⟩], by simp [Assembly.push, hl, hr], ?_, hmoved⟩
                simp only [List.length_append, List.length_cons, List.length_nil, binaryNodesOf]
                omega
            | some operator =>
              rw [generateBinaryExpression_steps lhsValue rhsValue token assembly afterRhs
                afterLhs type operator htype hrhs hlhs hoperator]
              constructor
              · intro result h
                cases h
                refine ⟨fromRhs ++ fromLhs ++ [⟨.MOVE, typeToWordSize type, stackPop,
                  accumulator⟩] ++ [⟨operator, typeToWordSize type, stackPop, accumulator⟩],
                  by simp [Assembly.push, hl, hr], ?_, ?_⟩
                · simp only [List.length_append, List.length_cons, List.length_nil,
                    binaryNodesOf]
                  omega
                · intro instruction hmem
                  rcases List.mem_append.mp hmem with hm | hm
                  · exact hmoved instruction hm
                  · rw [List.mem_singleton.mp hm]
                    exact hpop _ _
              · intro message result h
                cases h
end

/-- C24, as stated, fails on the code: on the expression `1 . 2`, which holds
one `BinaryExpression`, `generate( const Expression& )` throws at the dot after
it has appended one instruction, not two. -/
theorem generate_appended_instructions_counterexample :
    generateExpression dotOfLiterals emptyAssembly
      = .threw "Expected: ., +, -, *, or / operator"
          ⟨[⟨.MOVE, .BYTE, ⟨0, .REGISTER_sp_INDIRECT, 1, 0⟩, ⟨0, .REGISTER_d0, 0, 0⟩⟩],
           emptyMemory⟩ ∧
    emptyAssembly.instructions = [] ∧
    binaryNodes dotOfLiterals = 1 ∧
    ([⟨.MOVE, .BYTE, ⟨0, .REGISTER_sp_INDIRECT, 1, 0⟩, ⟨0, .REGISTER_d0, 0, 0⟩⟩]
      : List m68k.Instruction).length ≠ 2 * binaryNodes dotOfLiterals := by
  decide

/-- C24, amended: for every expression and every assembly, every instruction
that `generate( const Expression& )` appends has the stack-pointer-indirect
operand with post-increment as its source and the register `d0` as its
destination, and none has an immediate source, whether `generate` returns
normally or throws; when it returns normally, the number of appended
instructions is exactly twice the number of `BinaryExpression` nodes reached
through operand links that hold a `BinaryExpression` directly, and when it
throws, the number is smaller than that. -/
theorem generate_appended_instructions (node : Expression) (assembly : Assembly) :
    (∀ result : Assembly, generateExpression node assembly = .done result →
      ∃ added : List m68k.Instruction,
        result.instructions = assembly.instructions ++ added ∧
        added.length = 2 * binaryNodes node ∧
        ∀ instruction ∈ added,
          instruction.source = ⟨0, .REGISTER_sp_INDIRECT, 1, 0⟩ ∧
          instruction.destination = ⟨0, .REGISTER_d0, 0, 0⟩ ∧
          instruction.source.type ≠ .IMMEDIATE) ∧
    (∀ (message : String) (result : Assembly),
      generateExpression node assembly = .threw message result →
      ∃ added : List m68k.Instruction,
        result.instructions = assembly.instructions ++ added ∧
        added.length < 2 * binaryNodes node ∧
        ∀ instruction ∈ added,
          instruction.source = ⟨0, .REGISTER_sp_INDIRECT, 1, 0⟩ ∧
          instruction.destination = ⟨0, .REGISTER_d0, 0, 0⟩ ∧
          instruction.source.type ≠ .IMMEDIATE) := by
  have hpops : ∀ instruction : m68k.Instruction, popsIntoAccumulator instruction →
      instruction.source = ⟨0, .REGISTER_sp_INDIRECT, 1, 0⟩ ∧
      instruction.destination = ⟨0, .REGISTER_d0, 0, 0⟩ ∧
      instruction.source.type ≠ .IMMEDIATE := by
    intro instruction h
    refine ⟨h.1, h.2, ?_⟩
    rw [h.1]
    decide
  obtain ⟨hdone, hthrew⟩ := generateExpression_appended node assembly
  constructor
  · intro result h
    obtain ⟨added, hadded, hlen, hall⟩ := hdone result h
    exact ⟨added, hadded, hlen, fun instruction hmem => hpops instruction (hall instruction hmem)⟩
  · intro message result h
    obtain ⟨added, hadded, hlen, hall⟩ := hthrew message result h
    exact ⟨added, hadded, hlen, fun instruction hmem => hpops instruction (hall instruction hmem)⟩

/-- C24 on `(1 + 2) * 3` held by an expression: two binary nodes are reached and
four instructions are appended, each popping the stack into `d0`. -/
theorem generate_appended_instructions_witness :
    ∃ added : List m68k.Instruction,
      ([⟨.MOVE, .BYTE, stackPop, accumulator⟩, ⟨.ADD, .BYTE, stackPop, accumulator⟩,
        ⟨.MOVE, .BYTE, stackPop, accumulator⟩, ⟨.MULTIPLY_UNSIGNED, .BYTE, stackPop,
          accumulator⟩] : List m68k.Instruction) = emptyAssembly.instructions ++ added ∧
      added.length = 2 * binaryNodes (.binary (binaryOf
        (.binary (binaryOf (integerLiteral 1) .TOKEN_PLUS (integerLiteral 2)))
        .TOKEN_ASTERISK (integerLiteral 3))) ∧
      ∀ instruction ∈ added,
        instruction.source = ⟨0, .REGISTER_sp_INDIRECT, 1, 0⟩ ∧
        instruction.destination = ⟨0, .REGISTER_d0, 0, 0⟩ ∧
        instruction.source.type ≠ .IMMEDIATE :=
  (generate_appended_instructions
    (.binary (binaryOf (.binary (binaryOf (integerLiteral 1) .TOKEN_PLUS (integerLiteral 2)))
      .TOKEN_ASTERISK (integerLiteral 3))) emptyAssembly).1
    ⟨[⟨.MOVE, .BYTE, stackPop, accumulator⟩, ⟨.ADD, .BYTE, stackPop, accumulator⟩,
      ⟨.MOVE, .BYTE, stackPop, accumulator⟩, ⟨.MULTIPLY_UNSIGNED, .BYTE, stackPop,
        accumulator⟩], emptyMemory⟩
    (by decide)

end GoldScorpion.Generator

/-! ## Further properties of the type resolver -/

namespace GoldScorpion

/-- The size test and the argument loop of `typesMatch` together: the two
argument lists carry the same sequence of type ids. -/
theorem argumentTypesMatch_map (ls : List FunctionTypeParameter) :
    ∀ rs : List FunctionTypeParameter,
      (ls.length = rs.length ∧ argumentTypesMatch ls rs = true) ↔
        ls.map (fun parameter => parameter.typeId) = rs.map (fun parameter => parameter.typeId) := by
  induction ls with
  | nil =>
    intro rs
    cases rs with
    | nil => simp [argumentTypesMatch]
    | cons r rs => simp
  | cons l ls ih =>
    intro rs
    cases rs with
    | nil => simp
    | cons r rs =>
      simp only [List.length_cons, add_left_inj, argumentTypesMatch, List.map_cons,
        List.cons.injEq]
      rw [← ih rs]
      by_cases hhead : l.typeId = r.typeId
      · simp [hhead]
      · simp [hhead]

/-- Two function types match exactly when they agree on the bound UDT, on the
sequence of argument type ids and on the return type id. -/
theorem typesMatch_function (f g : FunctionType) :
    typesMatch (.function f) (.function g) = true ↔
      f.udtId = g.udtId ∧
      f.arguments.map (fun parameter => parameter.typeId)
        = g.arguments.map (fun parameter => parameter.typeId) ∧
      f.returnTypeId = g.returnTypeId := by
  rw [← argumentTypesMatch_map f.arguments g.arguments]
  simp only [typesMatch, typesComparable, typeIsFunction, typeIsValue]
  by_cases hudt : f.udtId = g.udtId
  · by_cases hlen : f.arguments.length = g.arguments.length
    · by_cases hret : f.returnTypeId = g.returnTypeId
      · by_cases hmatch : argumentTypesMatch f.arguments g.arguments = true
        · simp [hudt, hlen, hret, hmatch]
        · simp [hudt, hlen, hret, hmatch]
      · simp [hudt, hlen, hret]
    · simp [hudt, hlen]
  · simp [hudt]

/-- Two value types match exactly when their ids are equal. -/
theorem typesMatch_value (a b : ValueType) :
    typesMatch (.value a) (.value b) = true ↔ a.id = b.id := by
  simp [typesMatch, typesComparable, typeIsFunction, typeIsValue]

/-- A value type and a function type do not match. -/
theorem typesMatch_mixed (v : ValueType) (f : FunctionType) :
    typesMatch (.value v) (.function f) = false ∧
    typesMatch (.function f) (.value v) = false := by
  constructor <;> simp [typesMatch, typesComparable, typeIsFunction, typeIsValue]

/-- C28: `typesMatch` is an equivalence relation on the semantic types: it holds
of every type with itself, it holds of `b` and `a` when it holds of `a` and
`b`, and it holds of `a` and `c` when it holds of `a` and `b` and of `b` and
`c`. -/
theorem typesMatch_equivalence (a b c : MemoryDataType) :
    typesMatch a a = true ∧
    (typesMatch a b = true → typesMatch b a = true) ∧
    (typesMatch a b = true → typesMatch b c = true → typesMatch a c = true) := by
  refine ⟨?_, ?_, ?_⟩
  · cases a with
    | value v => exact (typesMatch_value v v).mpr rfl
    | function f => exact (typesMatch_function f f).mpr ⟨rfl, rfl, rfl⟩
  · cases a with
    | value v =>
      cases b with
      | value w =>
        intro h
        exact (typesMatch_value w v).mpr ((typesMatch_value v w).mp h).symm
      | function g =>
        intro h
        rw [(typesMatch_mixed v g).1] at h
        cases h
    | function f =>
      cases b with
      | value w =>
        intro h
        rw [(typesMatch_mixed w f).2] at h
        cases h
      | function g =>
        intro h
        obtain ⟨h1, h2, h3⟩ := (typesMatch_function f g).mp h
        exact (typesMatch_function g f).mpr ⟨h1.symm, h2.symm, h3.symm⟩
  · cases a with
    | value v =>
      cases b with
      | value w =>
        cases c with
        | value x =>
          intro hab hbc
          exact (typesMatch_value v x).mpr
            (((typesMatch_value v w).mp hab).trans ((typesMatch_value w x).mp hbc))
        | function k =>
          intro _ hbc
          rw [(typesMatch_mixed w k).1] at hbc
          cases hbc
      | function g =>
        intro hab
        rw [(typesMatch_mixed v g).1] at hab
        cases hab
    | function f =>
      cases b with
      | value w =>
        intro hab
        rw [(typesMatch_mixed w f).2] at hab
        cases hab
      | function g =>
        cases c with
        | value x =>
          intro _ hbc
          rw [(typesMatch_mixed x g).2] at hbc
          cases hbc
        | function k =>
          intro hab hbc
          obtain ⟨h1, h2, h3⟩ := (typesMatch_function f g).mp hab
          obtain ⟨k1, k2, k3⟩ := (typesMatch_function g k).mp hbc
          exact (typesMatch_function f k).mpr ⟨h1.trans k1, h2.trans k2, h3.trans k3⟩

/-- C28 on three function types that differ in the names of their argument
only: they match with themselves, in both orders and across. -/
theorem typesMatch_equivalence_witness :
    typesMatch (.function ⟨none, [⟨"a", "u8"⟩], some "u8"⟩)
      (.function ⟨none, [⟨"a", "u8"⟩], some "u8"⟩) = true ∧
    typesMatch (.function ⟨none, [⟨"b", "u8"⟩], some "u8"⟩)
      (.function ⟨none, [⟨"a", "u8"⟩], some "u8"⟩) = true ∧
    typesMatch (.function ⟨none, [⟨"a", "u8"⟩], some "u8"⟩)
      (.function ⟨none, [⟨"c", "u8"⟩], some "u8"⟩) = true :=
  ⟨(typesMatch_equivalence (.function ⟨none, [⟨"a", "u8"⟩], some "u8"⟩)
      (.function ⟨none, [⟨"b", "u8"⟩], some "u8"⟩)
      (.function ⟨none, [⟨"c", "u8"⟩], some "u8"⟩)).1,
   (typesMatch_equivalence (.function ⟨none, [⟨"a", "u8"⟩], some "u8"⟩)
      (.function ⟨none, [⟨"b", "u8"⟩], some "u8"⟩)
      (.function ⟨none, [⟨"c", "u8"⟩], some "u8"⟩)).2.1 (by decide),
   (typesMatch_equivalence (.function ⟨none, [⟨"a", "u8"⟩], some "u8"⟩)
      (.function ⟨none, [⟨"b", "u8"⟩], some "u8"⟩)
      (.function ⟨none, [⟨"c", "u8"⟩], some "u8"⟩)).2.2 (by decide) (by decide)⟩

/-- C29: for every semantic type exactly one of `typeIsFunction`,
`typeIsInteger`, `typeIsString` and `typeIsUdt` is true; and a `ValueType` is a
UDT exactly when its id is none of u8, u16, u32, s8, s16, s32 and string. -/
theorem type_kinds_partition (t : MemoryDataType) :
    [typeIsFunction t, typeIsInteger t, typeIsString t, typeIsUdt t].count true = 1 ∧
    (∀ v : ValueType,
      typeIsUdt (.value v) = true ↔
        v.id ∉ ["u8", "u16", "u32", "s8", "s16", "s32", "string"]) := by
  constructor
  · cases t with
    | function f => simp [typeIsFunction, typeIsInteger, typeIsString, typeIsUdt]
    | value v =>
      obtain ⟨id⟩ := v
      simp only [typeIsFunction, typeIsInteger, typeIsString, typeIsUdt, typeIdToTokenType]
      by_cases h1 : id = "u8"
      · subst h1
        decide
      by_cases h2 : id = "u16"
      · subst h2
        decide
      by_cases h3 : id = "u32"
      · subst h3
        decide
      by_cases h4 : id = "s8"
      · subst h4
        decide
      by_cases h5 : id = "s16"
      · subst h5
        decide
      by_cases h6 : id = "s32"
      · subst h6
        decide
      by_cases h7 : id = "string"
      · subst h7
        decide
      simp [h1, h2, h3, h4, h5, h6, h7]
  · intro v
    obtain ⟨id⟩ := v
    simp only [typeIsUdt, typeIdToTokenType]
    by_cases h1 : id = "u8"
    · subst h1
      decide
    by_cases h2 : id = "u16"
    · subst h2
      decide
    by_cases h3 : id = "u32"
    · subst h3
      decide
    by_cases h4 : id = "s8"
    · subst h4
      decide
    by_cases h5 : id = "s16"
    · subst h5
      decide
    by_cases h6 : id = "s32"
    · subst h6
      decide
    by_cases h7 : id = "string"
    · subst h7
      decide
    simp [h1, h2, h3, h4, h5, h6, h7]

/-- A size that `getPrimitiveTypeSize` returns is positive. -/
theorem getPrimitiveTypeSize_pos (type : MemoryDataType) (size : Int)
    (h : getPrimitiveTypeSize type = some size) : 0 < size := by
  unfold getPrimitiveTypeSize at h
  split_ifs at h
  cases type with
  | function f => simp at h
  | value element =>
    simp only at h
    split_ifs at h <;> simp only [Option.some.injEq] at h <;> omega

/-- The loop of `getUdtTypeSize` does not lower the running total when the
recursive calls return positive sizes only. -/
theorem getUdtTypeSizeFields_ge (recurse : MemoryDataType → Option (Option Int))
    (hrecurse : ∀ (type : MemoryDataType) (size : Int),
      recurse type = some (some size) → 0 < size) :
    ∀ (fields : List UdtField) (totalSize result : Int),
      getUdtTypeSizeFields recurse fields totalSize = some (some result) →
      totalSize ≤ result := by
  intro fields
  induction fields with
  | nil =>
    intro totalSize result h
    simp only [getUdtTypeSizeFields, Option.some.injEq] at h
    omega
  | cons field rest ih =>
    intro totalSize result h
    simp only [getUdtTypeSizeFields] at h
    by_cases hudt : typeIsUdt field.type = true
    · simp only [hudt, if_true] at h
      cases hcall : recurse field.type with
      | none => simp [hcall] at h
      | some inner =>
        cases inner with
        | none => simp [hcall] at h
        | some size =>
          simp only [hcall] at h
          have hpos := hrecurse field.type size hcall
          have := ih (totalSize + size) result h
          omega
    · simp only [hudt] at h
      cases hprim : getPrimitiveTypeSize field.type with
      | none => simp [hprim] at h
      | some size =>
        simp only [hprim] at h
        have hpos := getPrimitiveTypeSize_pos field.type size hprim
        have := ih (totalSize + size) result h
        omega

/-- A present value that `getUdtTypeSize` returns is positive. -/
theorem getUdtTypeSize_pos (memory : MemoryTracker) :
    ∀ (fuel : Nat) (type : MemoryDataType) (size : Int),
      getUdtTypeSize fuel type memory = some (some size) → 0 < size := by
  intro fuel
  induction fuel with
  | zero =>
    intro type size h
    simp [getUdtTypeSize] at h
  | succ fuel ih =>
    intro type size h
    simp only [getUdtTypeSize] at h
    by_cases hudt : typeIsUdt type = true
    · cases type with
      | function f => simp [typeIsUdt] at hudt
      | value element =>
        simp only [hudt] at h
        cases hreg : memory.findUdt element.id false with
        | none => simp [hreg] at h
        | some query =>
          simp only [hreg] at h
          cases hloop : getUdtTypeSizeFields
              (fun fieldType => getUdtTypeSize fuel fieldType memory) query.fields 0 with
          | none => simp [hloop] at h
          | some inner =>
            cases inner with
            | none => simp [hloop] at h
            | some totalSize =>
              simp only [hloop] at h
              have hge := getUdtTypeSizeFields_ge
                (fun fieldType => getUdtTypeSize fuel fieldType memory)
                (fun fieldType fieldSize hcall => ih fieldType fieldSize hcall)
                query.fields 0 totalSize hloop
              by_cases hzero : totalSize = 0
              · simp [hzero] at h
              · simp [hzero] at h
                subst h
                omega
    · simp [hudt] at h

/-- The loop of `getUdtTypeSize` returns when every recursive call that it makes
returns. -/
theorem getUdtTypeSizeFields_returns (recurse : MemoryDataType → Option (Option Int)) :
    ∀ (fields : List UdtField),
      (∀ field ∈ fields, typeIsUdt field.type = true →
        ∃ result, recurse field.type = some result) →
      ∀ totalSize : Int, ∃ result, getUdtTypeSizeFields recurse fields totalSize = some result := by
  intro fields
  induction fields with
  | nil =>
    intro _ totalSize
    exact ⟨_, rfl⟩
  | cons field rest ih =>
    intro hcalls totalSize
    have hrest := ih (fun other hmem => hcalls other (List.mem_cons_of_mem _ hmem))
    simp only [getUdtTypeSizeFields]
    by_cases hudt : typeIsUdt field.type = true
    · obtain ⟨result, hcall⟩ := hcalls field (List.mem_cons_self _ _) hudt
      simp only [hudt, if_true, hcall]
      cases result with
      | none => exact ⟨_, rfl⟩
      | some size => exact hrest (totalSize + size)
    · simp only [hudt]
      cases hprim : getPrimitiveTypeSize field.type with
      | none => exact ⟨_, rfl⟩
      | some size => exact hrest (totalSize + size)

/-- A budget that is enough for each field of a list is enough for all of
them. -/
theorem uniform_budget (property : UdtField → Nat → Prop) :
    ∀ fields : List UdtField,
      (∀ field ∈ fields, ∃ fuel, ∀ fuel', fuel ≤ fuel' → property field fuel') →
      ∃ fuel, ∀ field ∈ fields, ∀ fuel', fuel ≤ fuel' → property field fuel' := by
  intro fields
  induction fields with
  | nil =>
    intro _
    exact ⟨0, fun field hmem => by simp at hmem⟩
  | cons field rest ih =>
    intro h
    obtain ⟨fuelRest, hRest⟩ := ih (fun other hmem => h other (List.mem_cons_of_mem _ hmem))
    obtain ⟨fuelField, hField⟩ := h field (List.mem_cons_self _ _)
    refine ⟨max fuelField fuelRest, fun other hmem fuel' hle => ?_⟩
    rcases List.mem_cons.mp hmem with heq | hmem'
    · subst heq
      exact hField fuel' (le_trans (le_max_left _ _) hle)
    · exact hRest other hmem' fuel' (le_trans (le_max_right _ _) hle)

/-- The name of a UDT that `findUdt` returns is the name of a registered UDT. -/
theorem findUdt_registered (memory : MemoryTracker) (id : String) (udt : UserDefinedType)
    (h : memory.findUdt id false = some udt) :
    id ∈ (memory.udts.map (fun registered => registered.id)).toFinset := by
  have hid := findUdt_id memory id udt h
  simp only [MemoryTracker.findUdt] at h
  have hmem := List.mem_of_find?_eq_some h
  rw [List.mem_toFinset, List.mem_map]
  exact ⟨udt, hmem, hid⟩

/-- In a registry where no UDT reaches itself, `getUdtTypeSize` returns on a
name that all names of the set `visited` reach, by induction on the number of
registered names outside `visited`. -/
theorem acyclic_registry_returns (memory : MemoryTracker)
    (hacyclic : ∀ name : String, ¬ Relation.TransGen (fieldStep memory) name name) :
    ∀ (room : Nat) (visited : Finset String),
      visited ⊆ (memory.udts.map (fun registered => registered.id)).toFinset →
      ((memory.udts.map (fun registered => registered.id)).toFinset).card
        ≤ visited.card + room →
      ∀ name : String,
        (∀ ancestor ∈ visited, Relation.TransGen (fieldStep memory) ancestor name) →
        ∃ fuel : Nat, ∀ fuel' : Nat, fuel ≤ fuel' →
          ∃ result, getUdtTypeSize fuel' (.value ⟨name⟩) memory = some result := by
  intro room
  induction room with
  | zero =>
    intro visited hsub hcard name hreach
    refine ⟨1, fun fuel' hle => ?_⟩
    obtain ⟨k, hk⟩ : ∃ k, fuel' = k + 1 := ⟨fuel' - 1, by omega⟩
    rw [hk]
    simp only [getUdtTypeSize]
    by_cases hudt : typeIsUdt (.value ⟨name⟩) = true
    · cases hreg : memory.findUdt name false with
      | none => simp [hudt, hreg]
      | some udt =>
        exfalso
        have hname := findUdt_registered memory name udt hreg
        have hnot : name ∉ visited := fun hmem => hacyclic name (hreach name hmem)
        have hlt : visited.card < (insert name visited).card := by
          rw [Finset.card_insert_of_not_mem hnot]
          omega
        have hle' : (insert name visited).card
            ≤ ((memory.udts.map (fun registered => registered.id)).toFinset).card :=
          Finset.card_le_card (Finset.insert_subset hname hsub)
        omega
    · simp [hudt]
  | succ room ih =>
    intro visited hsub hcard name hreach
    by_cases hudt : typeIsUdt (.value ⟨name⟩) = true
    · cases hreg : memory.findUdt name false with
      | none =>
        refine ⟨1, fun fuel' hle => ?_⟩
        obtain ⟨k, hk⟩ : ∃ k, fuel' = k + 1 := ⟨fuel' - 1, by omega⟩
        rw [hk]
        simp [getUdtTypeSize, hudt, hreg]
      | some udt =>
        have hname := findUdt_registered memory name udt hreg
        have hnot : name ∉ visited := fun hmem => hacyclic name (hreach name hmem)
        have hsub' : insert name visited
            ⊆ (memory.udts.map (fun registered => registered.id)).toFinset :=
          Finset.insert_subset hname hsub
        have hcard' : ((memory.udts.map (fun registered => registered.id)).toFinset).card
            ≤ (insert name visited).card + room := by
          rw [Finset.card_insert_of_not_mem hnot]
          omega
        have hfields : ∀ field ∈ udt.fields, ∃ fuel : Nat, ∀ fuel' : Nat, fuel ≤ fuel' →
            (typeIsUdt field.type = true →
              ∃ result, getUdtTypeSize fuel' field.type memory = some result) := by
          intro field hmem
          by_cases hfieldUdt : typeIsUdt field.type = true
          · cases hfieldType : field.type with
            | function f =>
              rw [hfieldType] at hfieldUdt
              simp [typeIsUdt] at hfieldUdt
            | value element =>
              obtain ⟨inner⟩ := element
              have hstep : fieldStep memory name inner :=
                ⟨udt, hreg, field, hmem, hfieldType, by rw [← hfieldType]; exact hfieldUdt⟩
              have hreach' : ∀ ancestor ∈ insert name visited,
                  Relation.TransGen (fieldStep memory) ancestor inner := by
                intro ancestor hin
                rcases Finset.mem_insert.mp hin with heq | hin'
                · rw [heq]
                  exact Relation.TransGen.single hstep
                · exact Relation.TransGen.tail (hreach ancestor hin') hstep
              obtain ⟨fuel, hfuel⟩ := ih (insert name visited) hsub' hcard' inner hreach'
              exact ⟨fuel, fun fuel' hle _ => hfuel fuel' hle⟩
          · exact ⟨0, fun fuel' _ h => absurd h hfieldUdt⟩
        obtain ⟨fuel, hfuel⟩ := uniform_budget
          (fun field fuel' => typeIsUdt field.type = true →
            ∃ result, getUdtTypeSize fuel' field.type memory = some result)
          udt.fields hfields
        refine ⟨fuel + 1, fun fuel' hle => ?_⟩
        obtain ⟨k, hk⟩ : ∃ k, fuel' = k + 1 := ⟨fuel' - 1, by omega⟩
        rw [hk]
        obtain ⟨inner, hloop⟩ := getUdtTypeSizeFields_returns
          (fun fieldType => getUdtTypeSize k fieldType memory) udt.fields
          (fun field hmem hfieldUdt => hfuel field hmem k (by omega) hfieldUdt) 0
        simp only [getUdtTypeSize, hudt, hreg, hloop]
        cases inner with
        | none => exact ⟨_, rfl⟩
        | some totalSize =>
          by_cases hzero : totalSize = 0
          · simp [hzero]
          · simp [hzero]
    · refine ⟨1, fun fuel' hle => ?_⟩
      obtain ⟨k, hk⟩ : ∃ k, fuel' = k + 1 := ⟨fuel' - 1, by omega⟩
      rw [hk]
      simp [getUdtTypeSize, hudt]

/-- C30: in a UDT registry in which no UDT reaches itself through the types of
its fields, `getUdtTypeSize` returns on every type: from some budget of nested
calls on it gives a value, present or absent; and whenever the value it gives
is present, it is strictly positive. -/
theorem getUdtTypeSize_returns (memory : MemoryTracker) (type : MemoryDataType)
    (hacyclic : ∀ name : String, ¬ Relation.TransGen (fieldStep memory) name name) :
    (∃ fuel : Nat, ∀ fuel' : Nat, fuel ≤ fuel' →
      ∃ result : Option Int, getUdtTypeSize fuel' type memory = some result) ∧
    (∀ (fuel : Nat) (size : Int),
      getUdtTypeSize fuel type memory = some (some size) → 0 < size) := by
  refine ⟨?_, fun fuel size h => getUdtTypeSize_pos memory fuel type size h⟩
  cases type with
  | function f =>
    refine ⟨1, fun fuel' hle => ?_⟩
    obtain ⟨k, hk⟩ : ∃ k, fuel' = k + 1 := ⟨fuel' - 1, by omega⟩
    rw [hk]
    simp [getUdtTypeSize, typeIsUdt]
  | value element =>
    obtain ⟨name⟩ := element
    exact acyclic_registry_returns memory hacyclic
      ((memory.udts.map (fun registered => registered.id)).toFinset).card ∅
      (Finset.empty_subset _) (by simp) name (fun ancestor hmem => by simp at hmem)

/-- In `udtMemory` the only link from a UDT to the UDT type of a field is the
one from `Line` to `Point`. -/
theorem udtMemory_fieldStep (outer inner : String) (h : fieldStep udtMemory outer inner) :
    outer = "Line" ∧ inner = "Point" := by
  obtain ⟨udt, hreg, field, hmem, htype, hudt⟩ := h
  have hid := findUdt_id udtMemory outer udt hreg
  simp only [MemoryTracker.findUdt] at hreg
  have hin := List.mem_of_find?_eq_some hreg
  simp only [udtMemory, List.mem_cons, List.mem_singleton, List.not_mem_nil, or_false] at hin
  rcases hin with hu | hu | hu
  · subst hu
    simp only [pointUdt, List.mem_cons, List.mem_singleton, List.not_mem_nil, or_false] at hmem
    rcases hmem with hf | hf
    · subst hf
      simp only [MemoryDataType.value.injEq, ValueType.mk.injEq] at htype
      subst htype
      simp [typeIsUdt, typeIdToTokenType] at hudt
    · subst hf
      simp only [MemoryDataType.value.injEq, ValueType.mk.injEq] at htype
      subst htype
      simp [typeIsUdt, typeIdToTokenType] at hudt
  · subst hu
    simp only [lineUdt, List.mem_cons, List.mem_singleton, List.not_mem_nil, or_false] at hmem
    refine ⟨hid.symm, ?_⟩
    rcases hmem with hf | hf
    · subst hf
      simp only [MemoryDataType.value.injEq, ValueType.mk.injEq] at htype
      exact htype.symm
    · subst hf
      simp only [MemoryDataType.value.injEq, ValueType.mk.injEq] at htype
      exact htype.symm
  · subst hu
    simp [emptyUdt] at hmem

/-- In `udtMemory` no UDT reaches itself through the types of its fields. -/
theorem udtMemory_acyclic (name : String) :
    ¬ Relation.TransGen (fieldStep udtMemory) name name := by
  intro h
  obtain ⟨next, hfirst, _⟩ := Relation.TransGen.head'_iff.mp h
  obtain ⟨previous, _, hlast⟩ := Relation.TransGen.tail'_iff.mp h
  have h1 := (udtMemory_fieldStep name next hfirst).1
  have h2 := (udtMemory_fieldStep previous name hlast).2
  rw [h1] at h2
  exact absurd h2 (by decide)

/-- C30 on `udtMemory`, where `Line` has two fields of type `Point`: no UDT
reaches itself, so `getUdtTypeSize` returns on `Line`, and what it returns is
positive when present. -/
theorem getUdtTypeSize_returns_witness :
    (∃ fuel : Nat, ∀ fuel' : Nat, fuel ≤ fuel' →
      ∃ result : Option Int,
        getUdtTypeSize fuel' (.value ⟨"Line"⟩) udtMemory = some result) ∧
    (∀ (fuel : Nat) (size : Int),
      getUdtTypeSize fuel (.value ⟨"Line"⟩) udtMemory = some (some size) → 0 < size) :=
  getUdtTypeSize_returns udtMemory (.value ⟨"Line"⟩) udtMemory_acyclic

end GoldScorpion

/-! ## Properties of the memory tracker -/

namespace GoldScorpion

/-- The offsets of a segment that is extended at its tail: the elements that
were there keep their offsets, and the new ones start at the size of the
segment. -/
theorem withOffsets_append (segment added : List MemoryElement) :
    ∀ base : Int,
      withOffsets (segment ++ added) base
        = withOffsets segment base ++ withOffsets added (base + segmentSize segment) := by
  induction segment with
  | nil =>
    intro base
    simp [withOffsets, segmentSize]
  | cons element rest ih =>
    intro base
    have hsize : segmentSize (element :: rest) = element.size + segmentSize rest := by
      simp [segmentSize]
    have hcons : withOffsets (element :: rest ++ added) base
        = (element, base) :: withOffsets (rest ++ added) (base + element.size) := rfl
    rw [hcons, ih, hsize, Int.add_assoc]
    rfl

/-- There is one offset for each element of a segment. -/
theorem withOffsets_length (segment : List MemoryElement) :
    ∀ base : Int, (withOffsets segment base).length = segment.length := by
  induction segment with
  | nil =>
    intro base
    rfl
  | cons element rest ih =>
    intro base
    simp [withOffsets, ih]

/-- The elements that carry the offsets are the elements of the segment, in
order. -/
theorem withOffsets_map_fst (segment : List MemoryElement) :
    ∀ base : Int, (withOffsets segment base).map (fun entry => entry.1) = segment := by
  induction segment with
  | nil =>
    intro base
    rfl
  | cons element rest ih =>
    intro base
    simp [withOffsets, ih]

/-- A sequence of pushes extends the stack at its tail and leaves the rest of
the memory tracker as it was. -/
theorem pushAll_eq (elements : List MemoryElement) :
    ∀ memory : MemoryTracker,
      memory.pushAll elements = { memory with stack := memory.stack ++ elements } := by
  induction elements with
  | nil =>
    intro memory
    simp [MemoryTracker.pushAll]
  | cons element rest ih =>
    intro memory
    have hstep : memory.pushAll (element :: rest) = (memory.push element).pushAll rest := rfl
    rw [hstep, ih]
    simp [MemoryTracker.push]

/-- A search that is bounded to the current scope finds nothing when the
search of all visible scopes finds nothing. -/
theorem find_currentScope_none (memory : MemoryTracker) (id : String)
    (h : memory.find id false = none) : memory.find id true = none := by
  cases hscopes : memory.scopes with
  | nil =>
    simp only [MemoryTracker.find, hscopes] at h ⊢
    exact h
  | cons scope enclosing =>
    simp only [MemoryTracker.find, hscopes] at h ⊢
    cases hstack : List.find? (fun entry : MemoryElement × Int => entry.1.id == some id)
        (withOffsets memory.stack 0).reverse with
    | some entry => simp [hstack] at h
    | none =>
      rw [List.find?_eq_none] at hstack
      have hdrop : List.find? (fun entry : MemoryElement × Int => entry.1.id == some id)
          (List.drop scope.stackItems.toNat (withOffsets memory.stack 0)).reverse = none := by
        rw [List.find?_eq_none]
        intro entry hmem
        exact hstack entry
          (List.mem_reverse.mpr (List.mem_of_mem_drop (List.mem_reverse.mp hmem)))
      simp [hdrop]

/-- C21: for every memory tracker state and every list of elements, `openScope`,
then `push` for each of the elements, then `closeScope` returns exactly those
elements, in order, each with the offset that it had on the stack, and leaves
the memory tracker, and so the entries of the stack and their byte offsets, as
it was before `openScope`; afterwards `find` with `currentScope = true` is
absent for each of the pushed identifiers that was not visible before. -/
theorem scope_isolation (memory : MemoryTracker) (elements : List MemoryElement) :
    ∃ (returned : List StackMemoryElement) (after : MemoryTracker),
      (memory.openScope.pushAll elements).closeScope = .ok (returned, after) ∧
      returned.length = elements.length ∧
      returned.map (fun entry => entry.value) = elements ∧
      returned = (withOffsets elements (segmentSize memory.stack)).map
        (fun entry => StackMemoryElement.mk entry.1 entry.2) ∧
      after = memory ∧
      withOffsets after.stack 0 = withOffsets memory.stack 0 ∧
      (∀ element ∈ elements, ∀ id : String, element.id = some id →
        memory.find id false = none → after.find id true = none) := by
  have hclose : (memory.openScope.pushAll elements).closeScope
      = .ok ((withOffsets elements (segmentSize memory.stack)).map
          (fun entry => StackMemoryElement.mk entry.1 entry.2), memory) := by
    rw [pushAll_eq]
    simp only [MemoryTracker.closeScope, MemoryTracker.openScope, Int.toNat_ofNat,
      withOffsets_append, pure, Except.pure]
    have hdrop : List.drop memory.stack.length
        (withOffsets memory.stack 0 ++ withOffsets elements (0 + segmentSize memory.stack))
        = withOffsets elements (segmentSize memory.stack) := by
      rw [List.drop_append_of_le_length (by rw [withOffsets_length])]
      rw [List.drop_of_length_le (by rw [withOffsets_length])]
      simp
    rw [hdrop]
    simp
  refine ⟨_, memory, hclose, ?_, ?_, rfl, rfl, rfl, ?_⟩
  · simp [withOffsets_length]
  · rw [List.map_map]
    exact withOffsets_map_fst elements _
  · intro element _ id _ hnone
    exact find_currentScope_none memory id hnone

/-- C21 on `pointMemory` with the two pushes of `x` and `y`: both come back from
`closeScope` and the memory tracker is `pointMemory` again. -/
theorem scope_isolation_witness :
    ∃ (returned : List StackMemoryElement) (after : MemoryTracker),
      (pointMemory.openScope.pushAll [byteX, longY]).closeScope = .ok (returned, after) ∧
      returned.length = [byteX, longY].length ∧
      returned.map (fun entry => entry.value) = [byteX, longY] ∧
      returned = (withOffsets [byteX, longY] (segmentSize pointMemory.stack)).map
        (fun entry => StackMemoryElement.mk entry.1 entry.2) ∧
      after = pointMemory ∧
      withOffsets after.stack 0 = withOffsets pointMemory.stack 0 ∧
      (∀ element ∈ [byteX, longY], ∀ id : String, element.id = some id →
        pointMemory.find id false = none → after.find id true = none) :=
  scope_isolation pointMemory [byteX, longY]

/-- The elements that carry the offsets are elements of the segment. -/
theorem mem_withOffsets (segment : List MemoryElement) (base : Int)
    (entry : MemoryElement × Int) (h : entry ∈ withOffsets segment base) :
    entry.1 ∈ segment := by
  rw [← withOffsets_map_fst segment base]
  exact List.mem_map.mpr ⟨entry, h, rfl⟩

/-- A segment without an element named `id` has no match for `id`, in either
direction of the search. -/
theorem find_none_of_absent (segment : List MemoryElement) (id : String)
    (h : ∀ element ∈ segment, element.id ≠ some id) :
    List.find? (fun entry : MemoryElement × Int => entry.1.id == some id)
        (withOffsets segment 0) = none ∧
    List.find? (fun entry : MemoryElement × Int => entry.1.id == some id)
        (withOffsets segment 0).reverse = none := by
  constructor
  · rw [List.find?_eq_none]
    intro entry hmem
    simpa using h entry.1 (mem_withOffsets segment 0 entry hmem)
  · rw [List.find?_eq_none]
    intro entry hmem
    simpa using h entry.1 (mem_withOffsets segment 0 entry (List.mem_reverse.mp hmem))

/-- The search from the head of a segment that has no element named `id` and is
extended by an element named `id` finds that element at the size of the
segment. -/
theorem find_appended (segment : List MemoryElement) (element : MemoryElement) (id : String)
    (hid : element.id = some id) (h : ∀ other ∈ segment, other.id ≠ some id) :
    List.find? (fun entry : MemoryElement × Int => entry.1.id == some id)
        (withOffsets (segment ++ [element]) 0) = some (element, segmentSize segment) := by
  rw [withOffsets_append, List.find?_append, (find_none_of_absent segment id h).1]
  simp [withOffsets, hid]

/-- The search from the tail of a segment that is extended by an element named
`id` finds that element at the size of the segment. -/
theorem find_pushed (segment : List MemoryElement) (element : MemoryElement) (id : String)
    (hid : element.id = some id) :
    List.find? (fun entry : MemoryElement × Int => entry.1.id == some id)
        (withOffsets (segment ++ [element]) 0).reverse
      = some (element, segmentSize segment) := by
  rw [withOffsets_append]
  simp [withOffsets, hid]

/-- C22, as stated, fails on the model of the memory tracker: with the variable
`x` on the stack, an element named `x` is inserted into the data segment and
`find` on `x` returns the stack element; and the first of two elements named
`x` that are pushed is stored after nothing, but `find` on `x` returns the
second one, at offset 1. -/
theorem store_then_find_counterexample :
    byteMemory.insert wordX false
      = .ok ⟨[], [wordX], [byteX], [], []⟩ ∧
    (⟨[], [wordX], [byteX], [], []⟩ : MemoryTracker).find "x" false
      = some (.stack byteX 0) ∧
    ((emptyMemory.push byteX).push wordX).find "x" false = some (.stack wordX 1) ∧
    segmentSize emptyMemory.stack = 0 := by
  decide

/-- C22, amended: for every element with an identifier, `find` on that
identifier, called right after the element is stored, returns a query tagged
with the segment that the element was stored into, holding the element and, as
its offset, the sum of the sizes of the elements stored into the same segment
before it: always after `push`; after `insert` into the data segment when no
stack element has that identifier; after `insert` into the constant segment
when no stack element and no data element has that identifier. -/
theorem store_then_find (memory : MemoryTracker) (element : MemoryElement) (id : String)
    (hid : element.id = some id) :
    (memory.push element).find id false
      = some (.stack element (segmentSize memory.stack)) ∧
    (∀ after : MemoryTracker, memory.insert element false = .ok after →
      (∀ other ∈ memory.stack, other.id ≠ some id) →
      after.find id false = some (.global element (segmentSize memory.dataSegment))) ∧
    (∀ after : MemoryTracker, memory.insert element true = .ok after →
      (∀ other ∈ memory.stack, other.id ≠ some id) →
      (∀ other ∈ memory.dataSegment, other.id ≠ some id) →
      after.find id false = some (.const element (segmentSize memory.textSegment))) := by
  refine ⟨?_, ?_, ?_⟩
  · have hfound := find_pushed memory.stack element id hid
    cases hscopes : memory.scopes <;>
      simp only [MemoryTracker.find, MemoryTracker.push, hscopes, hfound]
  · intro after hinsert hstack
    simp only [MemoryTracker.insert, hid] at hinsert
    by_cases hany : memory.dataSegment.any (fun existing => existing.id == some id) = true
    · simp [hany, throw, throwThe, MonadExceptOf.throw] at hinsert
    · simp only [Bool.false_eq_true, if_false, hany, pure, Except.pure, Except.ok.injEq]
        at hinsert
      subst hinsert
      have hdata : ∀ other ∈ memory.dataSegment, other.id ≠ some id := by
        intro other hmem heq
        exact hany (List.any_eq_true.mpr ⟨other, hmem, by simp [heq]⟩)
      have hfound := find_appended memory.dataSegment element id hid hdata
      have hnone := (find_none_of_absent memory.stack id hstack).2
      cases hscopes : memory.scopes <;>
        simp only [MemoryTracker.find, hscopes, hnone, hfound]
  · intro after hinsert hstack hdata
    simp only [MemoryTracker.insert, hid] at hinsert
    by_cases hany : memory.textSegment.any (fun existing => existing.id == some id) = true
    · simp [hany, throw, throwThe, MonadExceptOf.throw] at hinsert
    · simp only [if_true, hany, pure, Except.pure, Except.ok.injEq, Bool.false_eq_true,
        if_false] at hinsert
      subst hinsert
      have htext : ∀ other ∈ memory.textSegment, other.id ≠ some id := by
        intro other hmem heq
        exact hany (List.any_eq_true.mpr ⟨other, hmem, by simp [heq]⟩)
      have hfound := find_appended memory.textSegment element id hid htext
      have hnoStack := (find_none_of_absent memory.stack id hstack).2
      have hnoData := (find_none_of_absent memory.dataSegment id hdata).1
      cases hscopes : memory.scopes <;>
        simp only [MemoryTracker.find, hscopes, hnoStack, hnoData, hfound]

/-- C22 on `pointMemory`: `y` pushed after `p` is found on the stack at offset
2, `y` inserted into the empty data segment is found there at offset 0, and
`y` inserted into the empty constant segment is found there at offset 0. -/
theorem store_then_find_witness :
    (pointMemory.push longY).find "y" false = some (.stack longY 2) ∧
    (⟨[], [longY], [⟨some "p", .value ⟨"Point"⟩, 2, 0⟩], [pointUdt], []⟩ : MemoryTracker).find
        "y" false = some (.global longY 0) ∧
    (⟨[longY], [], [⟨some "p", .value ⟨"Point"⟩, 2, 0⟩], [pointUdt], []⟩ : MemoryTracker).find
        "y" false = some (.const longY 0) :=
  ⟨(store_then_find pointMemory longY "y" rfl).1,
   (store_then_find pointMemory longY "y" rfl).2.1 _ (by decide) (by decide),
   (store_then_find pointMemory longY "y" rfl).2.2 _ (by decide) (by decide) (by decide)⟩

end GoldScorpion

/-! ## Properties of the lexer -/

namespace GoldScorpion.Lexer

/-- The value that `stol` reads is the number that the digits spell in base
ten. -/
theorem decimalValue_eq_ofDigits (component : List Char) :
    decimalValue component
      = Nat.ofDigits 10 (component.reverse.map (fun c => c.toNat - 48)) := by
  induction component using List.reverseRecOn with
  | nil => rfl
  | append_singleton front last ih =>
    have hstep : decimalValue (front ++ [last]) = decimalValue front * 10 + (last.toNat - 48) := by
      simp [decimalValue, List.foldl_append]
    rw [hstep, ih]
    simp only [List.reverse_append, List.reverse_cons, List.reverse_nil, List.nil_append,
      List.singleton_append, List.map_cons, Nat.ofDigits_cons]
    omega

/-- A blank between tokens is passed over. -/
theorem step_blank (tokens : List Token) (lineContinuation : Bool) (c : Char)
    (hc : c ∈ blanks) :
    step ⟨tokens, [], lineContinuation, false, false, false, false, false⟩ c
      = .next ⟨tokens, [], lineContinuation, false, false, false, false, false⟩ := by
  simp only [blanks, List.mem_cons, List.mem_singleton, List.not_mem_nil, or_false] at hc
  rcases hc with h | h | h | h | h <;> subst h <;> rfl

/-- A run of blanks between tokens is passed over. -/
theorem run_blanks (tokens : List Token) (lineContinuation : Bool) (rest : List Char) :
    ∀ passed : List Char, (∀ c ∈ passed, c ∈ blanks) →
      run ⟨tokens, [], lineContinuation, false, false, false, false, false⟩ (passed ++ rest)
        = run ⟨tokens, [], lineContinuation, false, false, false, false, false⟩ rest := by
  intro passed
  induction passed with
  | nil =>
    intro _
    rfl
  | cons c more ih =>
    intro h
    have hc := h c (List.mem_cons_self _ _)
    have hmore : ∀ d ∈ more, d ∈ blanks := fun d hd => h d (List.mem_cons_of_mem _ hd)
    have hrun : run ⟨tokens, [], lineContinuation, false, false, false, false, false⟩
        (c :: more ++ rest)
        = run ⟨tokens, [], lineContinuation, false, false, false, false, false⟩
            (more ++ rest) := by
      show run _ (c :: (more ++ rest)) = _
      simp only [run, step_blank tokens lineContinuation c hc]
    rw [hrun]
    exact ih hmore

/-- A digit between tokens opens the numeric state. -/
theorem step_first_digit (tokens : List Token) (lineContinuation : Bool) (c : Char)
    (hc : c ∈ digits) :
    step ⟨tokens, [], lineContinuation, false, false, false, false, false⟩ c
      = .next ⟨tokens, [c], lineContinuation, true, false, false, false, false⟩ := by
  simp only [digits, List.mem_cons, List.mem_singleton, List.not_mem_nil, or_false] at hc
  rcases hc with h | h | h | h | h | h | h | h | h | h <;> subst h <;> rfl

/-- A digit in the numeric state is appended to the component. -/
theorem step_next_digit (tokens : List Token) (component : List Char)
    (lineContinuation : Bool) (c : Char) (hc : c ∈ digits) :
    step ⟨tokens, component, lineContinuation, true, false, false, false, false⟩ c
      = .next ⟨tokens, component ++ [c], lineContinuation, true, false, false, false, false⟩ := by
  simp only [digits, List.mem_cons, List.mem_singleton, List.not_mem_nil, or_false] at hc
  rcases hc with h | h | h | h | h | h | h | h | h | h <;> subst h <;> rfl

/-- A run of digits in the numeric state is appended to the component. -/
theorem run_digits (tokens : List Token) (lineContinuation : Bool) (rest : List Char) :
    ∀ (more component : List Char), (∀ c ∈ more, c ∈ digits) →
      run ⟨tokens, component, lineContinuation, true, false, false, false, false⟩ (more ++ rest)
        = run ⟨tokens, component ++ more, lineContinuation, true, false, false, false, false⟩
            rest := by
  intro more
  induction more with
  | nil =>
    intro component _
    simp
  | cons c others ih =>
    intro component h
    have hc := h c (List.mem_cons_self _ _)
    have hothers : ∀ d ∈ others, d ∈ digits := fun d hd => h d (List.mem_cons_of_mem _ hd)
    have hrun : run ⟨tokens, component, lineContinuation, true, false, false, false, false⟩
        (c :: others ++ rest)
        = run ⟨tokens, component ++ [c], lineContinuation, true, false, false, false, false⟩
            (others ++ rest) := by
      show run _ (c :: (others ++ rest)) = _
      simp only [run, step_next_digit tokens component lineContinuation c hc]
    rw [hrun, ih (component ++ [c]) hothers]
    simp

/-- A blank in the numeric state ends the component and appends the integer
literal token. -/
theorem step_flush_digits (tokens : List Token) (component : List Char)
    (lineContinuation : Bool) (value : Int) (c : Char) (hc : c ∈ blanks)
    (hvalue : stol component = .ok value) :
    step ⟨tokens, component, lineContinuation, true, false, false, false, false⟩ c
      = .next ⟨tokens ++ [⟨.TOKEN_LITERAL_INTEGER, some (.long value)⟩], [], lineContinuation,
          false, false, false, false, false⟩ := by
  simp only [blanks, List.mem_cons, List.mem_singleton, List.not_mem_nil, or_false] at hc
  rcases hc with h | h | h | h | h <;> subst h <;>
    simp only [step, leaveState, hvalue] <;> rfl

/-- C31, as stated, fails on the code when the whitespace next to the digits is
a newline: the lexer does not pass over a newline, it appends a
`TOKEN_NEWLINE` token for it, so `7` followed by a newline, and a newline
followed by `7`, are lexed to two tokens. -/
theorem getTokens_integer_counterexample :
    getTokens ['7', Char.ofNat 10]
      = .tokens [⟨.TOKEN_LITERAL_INTEGER, some (.long 7)⟩, ⟨.TOKEN_NEWLINE, none⟩] ∧
    getTokens [Char.ofNat 10, '7']
      = .tokens [⟨.TOKEN_NEWLINE, none⟩, ⟨.TOKEN_LITERAL_INTEGER, some (.long 7)⟩] := by
  decide

/-- C31, amended: for every non-negative integer `n` that fits in a `long`, and
every decimal spelling of `n`, a non-empty run of digits with or without
leading zeros, alone or between runs of the blanks that the lexer passes over
(space, tab, carriage return, vertical tab, form feed), `getTokens` succeeds
and returns exactly one token, of kind `TOKEN_LITERAL_INTEGER` and with the
payload `n`. -/
theorem getTokens_integer (n : Nat) (before spelling after : List Char)
    (hbefore : ∀ c ∈ before, c ∈ blanks)
    (hafter : ∀ c ∈ after, c ∈ blanks)
    (hdigits : ∀ c ∈ spelling, c ∈ digits)
    (hne : spelling ≠ [])
    (hvalue : Nat.ofDigits 10 (spelling.reverse.map (fun c => c.toNat - 48)) = n)
    (hfits : n ≤ 9223372036854775807) :
    getTokens (before ++ spelling ++ after)
      = .tokens [⟨.TOKEN_LITERAL_INTEGER, some (.long n)⟩] := by
  have hstol : stol spelling = .ok (n : Int) := by
    have hdecimal : decimalValue spelling = n := by
      rw [decimalValue_eq_ofDigits, hvalue]
    simp [stol, hne, hdecimal, hfits, pure, Except.pure]
  cases spelling with
  | nil => exact absurd rfl hne
  | cons first others =>
    have hfirst : first ∈ digits := hdigits first (List.mem_cons_self _ _)
    have hothers : ∀ c ∈ others, c ∈ digits :=
      fun c hc => hdigits c (List.mem_cons_of_mem _ hc)
    have hclosing : ∀ c ∈ after ++ [Char.ofNat 9], c ∈ blanks := by
      intro c hc
      rcases List.mem_append.mp hc with h | h
      · exact hafter c h
      · rw [List.mem_singleton.mp h]
        decide
    have hshape : before ++ first :: others ++ after ++ [Char.ofNat 9]
        = before ++ (first :: (others ++ (after ++ [Char.ofNat 9]))) := by
      simp
    unfold getTokens initial
    rw [hshape, run_blanks [] false _ before hbefore]
    have hopen : run ⟨[], [], false, false, false, false, false, false⟩
        (first :: (others ++ (after ++ [Char.ofNat 9])))
        = run ⟨[], [first], false, true, false, false, false, false⟩
            (others ++ (after ++ [Char.ofNat 9])) := by
      simp only [run, step_first_digit [] false first hfirst]
    rw [hopen, run_digits [] false _ others [first] hothers]
    cases hrest : after ++ [Char.ofNat 9] with
    | nil => simp at hrest
    | cons delimiter remaining =>
      rw [hrest] at hclosing
      have hdelimiter : delimiter ∈ blanks := hclosing delimiter (List.mem_cons_self _ _)
      have hremaining : ∀ c ∈ remaining, c ∈ blanks :=
        fun c hc => hclosing c (List.mem_cons_of_mem _ hc)
      have hflush : run ⟨[], [first] ++ others, false, true, false, false, false, false⟩
          (delimiter :: remaining)
          = run ⟨[] ++ [⟨.TOKEN_LITERAL_INTEGER, some (.long (n : Int))⟩], [], false, false,
              false, false, false, false⟩ remaining := by
        simp only [run, step_flush_digits [] ([first] ++ others) false (n : Int) delimiter
          hdelimiter hstol]
      rw [hflush]
      have hend := run_blanks ([] ++ [⟨.TOKEN_LITERAL_INTEGER, some (.long (n : Int))⟩]) false []
        remaining hremaining
      rw [List.append_nil] at hend
      rw [hend]
      rfl

/-- C31 on the spelling `007` between a space and a tab: one integer literal
token with the payload 7. -/
theorem getTokens_integer_witness :
    getTokens ([' '] ++ ['0', '0', '7'] ++ [Char.ofNat 9])
      = .tokens [⟨.TOKEN_LITERAL_INTEGER, some (.long 7)⟩] :=
  getTokens_integer 7 [' '] ['0', '0', '7'] [Char.ofNat 9] (by decide) (by decide) (by decide)
    (by decide) (by decide) (by decide)

/-- The exclamation mark is not a symbol for `isValidSymbol`, so lexing `!=`,
which `TOKEN_MAP` lists with the kind `TOKEN_NOT_EQUALS`, ends in an error at
its first character. -/
theorem exclamation_mark_rejected :
    ("!=", TokenType.TOKEN_NOT_EQUALS) ∈ TOKEN_MAP ∧
    isValidSymbol '!' = false ∧
    getTokens "!=".toList = .error "Unexpected character: !" := by
  decide

/-- C32, as stated, fails on the code: the double quote is a spelling of
`TOKEN_MAP`, and lexing it alone opens a string literal and returns no
token. -/
theorem getTokens_keyword_counterexample :
    ("\"", TokenType.TOKEN_DOUBLE_QUOTE) ∈ TOKEN_MAP ∧
    getTokens "\"".toList = .tokens [] := by
  decide

/-- C32, amended: for every spelling listed in `TOKEN_MAP` other than the
double quote and `!=`, lexing the spelling alone succeeds and returns exactly
one token, whose kind is the one the table gives for the spelling and which
carries no payload. -/
theorem getTokens_keyword (spelling : String) (type : TokenType)
    (hlisted : (spelling, type) ∈ TOKEN_MAP)
    (hquote : spelling ≠ "\"") (hunequal : spelling ≠ "!=") :
    getTokens spelling.toList = .tokens [⟨type, none⟩] := by
  have hall : ∀ entry ∈ TOKEN_MAP, entry.1 ≠ "\"" → entry.1 ≠ "!=" →
      getTokens entry.1.toList = .tokens [⟨entry.2, none⟩] := by
    decide
  exact hall (spelling, type) hlisted hquote hunequal

/-- C32 on the keyword `def` and on the symbol `>=`. -/
theorem getTokens_keyword_witness :
    getTokens "def".toList = .tokens [⟨.TOKEN_DEF, none⟩] ∧
    getTokens ">=".toList = .tokens [⟨.TOKEN_GREATER_THAN_EQUAL, none⟩] :=
  ⟨getTokens_keyword "def" .TOKEN_DEF (by decide) (by decide) (by decide),
   getTokens_keyword ">=" .TOKEN_GREATER_THAN_EQUAL (by decide) (by decide) (by decide)⟩

/-- C33, evaluated on the code: lexing `()` succeeds and returns one token of
kind `TOKEN_IDENTIFIER` with the payload `()`, and lexing `=-` returns one of
kind `TOKEN_IDENTIFIER` with the payload `=-`; these payloads do not start with
a letter.  A run of symbol characters that `TOKEN_MAP` does not list goes
through `interpretToken` like a word and comes out as an identifier. -/
theorem getTokens_symbol_run_is_identifier :
    getTokens "()".toList = .tokens [⟨.TOKEN_IDENTIFIER, some (.string "()")⟩] ∧
    getTokens "=-".toList = .tokens [⟨.TOKEN_IDENTIFIER, some (.string "=-")⟩] ∧
    isAlpha '(' = false ∧ isAlpha '=' = false ∧
    getTokens "f()".toList
      = .tokens [⟨.TOKEN_IDENTIFIER, some (.string "f")⟩,
                 ⟨.TOKEN_IDENTIFIER, some (.string "()")⟩] := by
  decide

end GoldScorpion.Lexer

/-! ## Properties of the parser -/

namespace GoldScorpion.Parser

/-- The static `getPrimary` on an operand token. -/
theorem getPrimary_operand (token : Token) (more : List Token) (h : isOperand token) :
    getPrimary (token :: more) = .value (some ⟨more, leaf token⟩) := by
  unfold isOperand at h
  rcases h with h | h <;> simp [getPrimary, h, leaf]

/-- The loop of `getCall` ends at once at a token that is neither a left
parenthesis nor a dot. -/
theorem getCallLoop_break (fuel : Nat) (next : Token) (more : List Token)
    (hparen : next.type ≠ .TOKEN_LEFT_PAREN) (hdot : next.type ≠ .TOKEN_DOT) :
    getCallLoop (fuel + 1) (next :: more) [] = .value ([], next :: more) := by
  simp [getCallLoop, hparen, hdot]

/-- The static `getCall` on an operand token that is followed by a token that
is neither a left parenthesis nor a dot. -/
theorem getCall_operand (fuel : Nat) (token next : Token) (more : List Token)
    (h : isOperand token) (hparen : next.type ≠ .TOKEN_LEFT_PAREN)
    (hdot : next.type ≠ .TOKEN_DOT) :
    getCall (fuel + 1) (token :: next :: more) = .value (some ⟨next :: more, leaf token⟩) := by
  simp only [getCall, getPrimary_operand token (next :: more) h,
    getCallLoop_break fuel next more hparen hdot, buildCallTree]

/-- The static `getUnary` on an operand token that is followed by a token that
is neither a left parenthesis nor a dot. -/
theorem getUnary_operand (fuel : Nat) (token next : Token) (more : List Token)
    (h : isOperand token) (hparen : next.type ≠ .TOKEN_LEFT_PAREN)
    (hdot : next.type ≠ .TOKEN_DOT) :
    getUnary (fuel + 2) (token :: next :: more) = .value (some ⟨next :: more, leaf token⟩) := by
  have hnot : ¬ (token.type = .TOKEN_NOT ∨ token.type = .TOKEN_MINUS) := by
    unfold isOperand at h
    rcases h with h | h <;> rw [h] <;> decide
  simp only [getUnary, hnot, if_false]
  exact getCall_operand fuel token next more h hparen hdot

/-- What follows an operand inside a factor, or at its end, starts with a token
that is neither a left parenthesis nor a dot. -/
theorem pairTokens_head (rest : List (Token × Token)) (stop : Token) (more : List Token)
    (hrest : ∀ pair ∈ rest, isMultiplicative pair.1 ∧ isOperand pair.2)
    (hstop : endsFactor stop) :
    ∃ (next : Token) (tail : List Token),
      pairTokens rest ++ stop :: more = next :: tail ∧
      next.type ≠ .TOKEN_LEFT_PAREN ∧ next.type ≠ .TOKEN_DOT := by
  cases rest with
  | nil => exact ⟨stop, more, rfl, hstop.2.2.1, hstop.2.2.2⟩
  | cons pair others =>
    refine ⟨pair.1, pair.2 :: (pairTokens others ++ stop :: more), rfl, ?_, ?_⟩
    · have hmul := (hrest pair (List.mem_cons_self _ _)).1
      unfold isMultiplicative at hmul
      rcases hmul with h | h <;> rw [h] <;> decide
    · have hmul := (hrest pair (List.mem_cons_self _ _)).1
      unfold isMultiplicative at hmul
      rcases hmul with h | h <;> rw [h] <;> decide

/-- The loop of `getFactor` over the pairs of a factor: it ends at the token
that ends the factor, with the pairs folded to the left onto the node it
started with. -/
theorem getFactorLoop_pairs (stop : Token) (more : List Token) (hstop : endsFactor stop) :
    ∀ (rest : List (Token × Token)) (node : Expression) (fuel : Nat),
      (∀ pair ∈ rest, isMultiplicative pair.1 ∧ isOperand pair.2) →
      rest.length + 3 ≤ fuel →
      getFactorLoop fuel (pairTokens rest ++ stop :: more) node
        = .value (some ⟨stop :: more,
            rest.foldl (fun tree pair => binaryNode tree pair.1 (leaf pair.2)) node⟩) := by
  intro rest
  induction rest with
  | nil =>
    intro node fuel _ hfuel
    obtain ⟨k, hk⟩ : ∃ k, fuel = k + 1 := ⟨fuel - 1, by omega⟩
    have hnot : ¬ (stop.type = .TOKEN_ASTERISK ∨ stop.type = .TOKEN_FORWARD_SLASH) :=
      fun h => h.elim hstop.1 hstop.2.1
    rw [hk]
    simp [pairTokens, getFactorLoop, hnot]
  | cons pair others ih =>
    intro node fuel hrest hfuel
    obtain ⟨k, hk⟩ : ∃ k, fuel = k + 3 := ⟨fuel - 3, by simp at hfuel; omega⟩
    have hpair := hrest pair (List.mem_cons_self _ _)
    have hothers : ∀ other ∈ others, isMultiplicative other.1 ∧ isOperand other.2 :=
      fun other hmem => hrest other (List.mem_cons_of_mem _ hmem)
    obtain ⟨next, tail, hshape, hparen, hdot⟩ := pairTokens_head others stop more hothers hstop
    have hmul : pair.1.type = .TOKEN_ASTERISK ∨ pair.1.type = .TOKEN_FORWARD_SLASH := hpair.1
    have hunary : getUnary (k + 2) (pair.2 :: (pairTokens others ++ stop :: more))
        = .value (some ⟨pairTokens others ++ stop :: more, leaf pair.2⟩) := by
      rw [hshape]
      exact getUnary_operand k pair.2 next tail hpair.2 hparen hdot
    have hstep : getFactorLoop (k + 3) (pairTokens (pair :: others) ++ stop :: more) node
        = getFactorLoop (k + 2) (pairTokens others ++ stop :: more)
            (binaryNode node pair.1 (leaf pair.2)) := by
      show getFactorLoop (k + 2 + 1)
        (pair.1 :: pair.2 :: (pairTokens others ++ stop :: more)) node = _
      simp only [getFactorLoop, hmul, if_true, hunary]
      rfl
    rw [hk, hstep, ih (binaryNode node pair.1 (leaf pair.2)) (k + 2) hothers
      (by simp at hfuel; omega)]
    rfl

/-- The static `getFactor` on the tokens of a factor that are followed by a
token that ends the factor: it returns the tree of the factor and the
position of that token. -/
theorem getFactor_factor (factor : Factor) (stop : Token) (more : List Token) (fuel : Nat)
    (hfactor : factor.wellFormed) (hstop : endsFactor stop)
    (hfuel : factor.rest.length + 3 ≤ fuel) :
    getFactor fuel (factor.tokens ++ stop :: more)
      = .value (some ⟨stop :: more, factor.tree⟩) := by
  obtain ⟨k, hk⟩ : ∃ k, fuel = k + 2 := ⟨fuel - 2, by omega⟩
  obtain ⟨next, tail, hshape, hparen, hdot⟩ :=
    pairTokens_head factor.rest stop more hfactor.2 hstop
  have hunary : getUnary (k + 2) (factor.first :: (pairTokens factor.rest ++ stop :: more))
      = .value (some ⟨pairTokens factor.rest ++ stop :: more, leaf factor.first⟩) := by
    rw [hshape]
    exact getUnary_operand k factor.first next tail hfactor.1 hparen hdot
  have hloop := getFactorLoop_pairs stop more hstop factor.rest (leaf factor.first) fuel
    hfactor.2 hfuel
  rw [hk] at hloop ⊢
  show getFactor (k + 2) (factor.first :: (pairTokens factor.rest ++ stop :: more)) = _
  simp only [getFactor, hunary, hloop]
  rfl

/-- A list of operator and operand pairs has two tokens for each pair. -/
theorem pairTokens_length (rest : List (Token × Token)) :
    (pairTokens rest).length = 2 * rest.length := by
  induction rest with
  | nil => rfl
  | cons pair others ih => simp [pairTokens, ih]; omega

/-- What follows a factor inside a term, or at its end, starts with a token
that ends the factor. -/
theorem termRestTokens_head (rest : List (Token × Factor)) (terminator : Token)
    (following : List Token)
    (hrest : ∀ pair ∈ rest, isAdditive pair.1 ∧ pair.2.wellFormed)
    (hterminator : endsTerm terminator) :
    ∃ (stop : Token) (tail : List Token),
      termRestTokens rest ++ terminator :: following = stop :: tail ∧ endsFactor stop := by
  cases rest with
  | nil => exact ⟨terminator, following, rfl, hterminator.2.2⟩
  | cons pair others =>
    refine ⟨pair.1, pair.2.tokens ++ termRestTokens others ++ terminator :: following, rfl, ?_⟩
    have hadd := (hrest pair (List.mem_cons_self _ _)).1
    unfold isAdditive at hadd
    unfold endsFactor
    rcases hadd with h | h <;> rw [h] <;> decide

/-- The loop of `getTerm` over the pairs of an operator and a factor: it ends
at the terminating token, with the pairs folded to the left onto the node it
started with. -/
theorem getTermLoop_factors (terminator : Token) (following : List Token)
    (hterminator : endsTerm terminator) :
    ∀ (rest : List (Token × Factor)) (node : Expression) (fuel : Nat),
      (∀ pair ∈ rest, isAdditive pair.1 ∧ pair.2.wellFormed) →
      (termRestTokens rest).length + 4 ≤ fuel →
      getTermLoop fuel (termRestTokens rest ++ terminator :: following) node
        = .value (rest.foldl (fun tree pair => binaryNode tree pair.1 pair.2.tree) node) := by
  intro rest
  induction rest with
  | nil =>
    intro node fuel _ hfuel
    obtain ⟨k, hk⟩ : ∃ k, fuel = k + 1 := ⟨fuel - 1, by omega⟩
    have hnot : ¬ (terminator.type = .TOKEN_MINUS ∨ terminator.type = .TOKEN_PLUS) :=
      fun h => h.elim hterminator.2.1 hterminator.1
    rw [hk]
    simp [termRestTokens, getTermLoop, hnot]
  | cons pair others ih =>
    intro node fuel hrest hfuel
    have hlength : (termRestTokens (pair :: others)).length
        = 2 + 2 * pair.2.rest.length + (termRestTokens others).length := by
      simp [termRestTokens, Factor.tokens, pairTokens_length]
      omega
    obtain ⟨k, hk⟩ : ∃ k, fuel = k + 1 := ⟨fuel - 1, by omega⟩
    have hpair := hrest pair (List.mem_cons_self _ _)
    have hothers : ∀ other ∈ others, isAdditive other.1 ∧ other.2.wellFormed :=
      fun other hmem => hrest other (List.mem_cons_of_mem _ hmem)
    obtain ⟨stop, tail, hshape, hstop⟩ :=
      termRestTokens_head others terminator following hothers hterminator
    have hadd : pair.1.type = .TOKEN_MINUS ∨ pair.1.type = .TOKEN_PLUS := hpair.1.symm
    have hfactor : getFactor k (pair.2.tokens ++ (termRestTokens others ++ terminator :: following))
        = .value (some ⟨termRestTokens others ++ terminator :: following, pair.2.tree⟩) := by
      rw [hshape]
      exact getFactor_factor pair.2 stop tail k hpair.2 hstop (by omega)
    have hstep : getTermLoop (k + 1) (termRestTokens (pair :: others) ++ terminator :: following)
        node
        = getTermLoop k (termRestTokens others ++ terminator :: following)
            (binaryNode node pair.1 pair.2.tree) := by
      have hlist : termRestTokens (pair :: others) ++ terminator :: following
          = pair.1 :: (pair.2.tokens ++ (termRestTokens others ++ terminator :: following)) := by
        simp [termRestTokens]
      rw [hlist]
      simp only [getTermLoop, hadd, if_true, hfactor]
      rfl
    rw [hk, hstep, ih (binaryNode node pair.1 pair.2.tree) k hothers (by omega)]
    rfl

/-- The static `getTerm` on the tokens of a first factor and of the pairs of an
operator `+` or `-` and a factor that follow it, ended by a terminating token:
it returns the tree in which every factor is one operand. -/
theorem getTerm_factors (first : Factor) (rest : List (Token × Factor)) (terminator : Token)
    (following : List Token) (fuel : Nat)
    (hfirst : first.wellFormed)
    (hrest : ∀ pair ∈ rest, isAdditive pair.1 ∧ pair.2.wellFormed)
    (hterminator : endsTerm terminator)
    (hfuel : (first.tokens ++ termRestTokens rest).length + 4 ≤ fuel) :
    getTerm fuel (first.tokens ++ termRestTokens rest ++ terminator :: following)
      = .value (some ⟨termRestTokens rest ++ terminator :: following, termTree first rest⟩) := by
  have hlength : (first.tokens ++ termRestTokens rest).length
      = 1 + 2 * first.rest.length + (termRestTokens rest).length := by
    simp [Factor.tokens, pairTokens_length]
    omega
  obtain ⟨stop, tail, hshape, hstop⟩ :=
    termRestTokens_head rest terminator following hrest hterminator
  have hfactor : getFactor fuel (first.tokens ++ (termRestTokens rest ++ terminator :: following))
      = .value (some ⟨termRestTokens rest ++ terminator :: following, first.tree⟩) := by
    rw [hshape]
    exact getFactor_factor first stop tail fuel hfirst hstop (by omega)
  have hloop := getTermLoop_factors terminator following hterminator rest first.tree fuel hrest
    (by omega)
  rw [List.append_assoc]
  simp only [getTerm, hfactor, hloop]
  rfl

/-- Every sequence of operands separated by the four operators splits into
factors: runs of operands joined by `*` and `/`, separated by `+` and `-`. -/
theorem exists_factors :
    ∀ (pairs : List (Token × Token)) (operand : Token),
      isOperand operand →
      (∀ pair ∈ pairs, (isAdditive pair.1 ∨ isMultiplicative pair.1) ∧ isOperand pair.2) →
      ∃ (first : Factor) (rest : List (Token × Factor)),
        first.first = operand ∧ first.wellFormed ∧
        (∀ pair ∈ rest, isAdditive pair.1 ∧ pair.2.wellFormed) ∧
        first.tokens ++ termRestTokens rest = operand :: pairTokens pairs := by
  intro pairs
  induction pairs with
  | nil =>
    intro operand hoperand _
    exact ⟨⟨operand, []⟩, [], rfl, ⟨hoperand, by simp⟩, by simp, rfl⟩
  | cons pair others ih =>
    intro operand hoperand hpairs
    have hpair := hpairs pair (List.mem_cons_self _ _)
    obtain ⟨factor, rest, hhead, hfactor, hrest, htokens⟩ := ih pair.2 hpair.2
      (fun other hmem => hpairs other (List.mem_cons_of_mem _ hmem))
    rcases hpair.1 with hadd | hmul
    · refine ⟨⟨operand, []⟩, (pair.1, factor) :: rest, rfl, ⟨hoperand, by simp⟩, ?_, ?_⟩
      · intro other hmem
        rcases List.mem_cons.mp hmem with heq | hmem
        · rw [heq]; exact ⟨hadd, hfactor⟩
        · exact hrest other hmem
      · show operand :: pair.1 :: (factor.tokens ++ termRestTokens rest) = _
        rw [htokens]
        rfl
    · refine ⟨⟨operand, (pair.1, pair.2) :: factor.rest⟩, rest, rfl, ⟨hoperand, ?_⟩, hrest, ?_⟩
      · intro other hmem
        rcases List.mem_cons.mp hmem with heq | hmem
        · rw [heq]; exact ⟨hmul, hpair.2⟩
        · exact hfactor.2 other hmem
      · have htail : pairTokens factor.rest ++ termRestTokens rest = pairTokens others := by
          have hcons : factor.first :: (pairTokens factor.rest ++ termRestTokens rest)
              = pair.2 :: pairTokens others := htokens
          exact (List.cons.inj hcons).2
        show operand :: pair.1 :: pair.2 :: (pairTokens factor.rest ++ termRestTokens rest) = _
        rw [htail]
        rfl

/-- C34: for every sequence of integer-literal or identifier tokens separated
by the operators `+`, `-`, `*`, `/` and followed by a token that is none of
these operators, a left parenthesis or a dot, `getTerm` returns, whenever the
fuel is at least the length of the sequence plus four, the tree of the
splitting of the sequence into factors: every run of operands joined by `*`
and `/` is one operand of the `+` and `-` around it, operators of equal
precedence associate to the left, and every binary node carries its operator
token. -/
theorem getTerm_precedence (operand : Token) (pairs : List (Token × Token))
    (terminator : Token) (following : List Token)
    (hoperand : isOperand operand)
    (hpairs : ∀ pair ∈ pairs, (isAdditive pair.1 ∨ isMultiplicative pair.1) ∧ isOperand pair.2)
    (hterminator : endsTerm terminator) :
    ∃ (first : Factor) (rest : List (Token × Factor)),
      first.wellFormed ∧ (∀ pair ∈ rest, isAdditive pair.1 ∧ pair.2.wellFormed) ∧
      first.tokens ++ termRestTokens rest = operand :: pairTokens pairs ∧
      ∀ fuel, (operand :: pairTokens pairs).length + 4 ≤ fuel →
        getTerm fuel (operand :: pairTokens pairs ++ terminator :: following)
          = .value (some ⟨termRestTokens rest ++ terminator :: following,
              termTree first rest⟩) := by
  obtain ⟨first, rest, _, hfirst, hrest, htokens⟩ := exists_factors pairs operand hoperand hpairs
  refine ⟨first, rest, hfirst, hrest, htokens, ?_⟩
  intro fuel hfuel
  have h := getTerm_factors first rest terminator following fuel hfirst hrest hterminator
    (by rw [htokens]; exact hfuel)
  rw [htokens] at h
  exact h

/-- C34, at `a + b * c` followed by a newline token, with the trees that
`getTerm` returns for `a + b * c` and for `a - b - c`. -/
theorem getTerm_precedence_witness :
    (isOperand (identifierToken "a") ∧
      (∀ pair ∈ [(symbolToken .TOKEN_PLUS, identifierToken "b"),
          (symbolToken .TOKEN_ASTERISK, identifierToken "c")],
        (isAdditive pair.1 ∨ isMultiplicative pair.1) ∧ isOperand pair.2) ∧
      endsTerm (symbolToken .TOKEN_NEWLINE) ∧
      ∃ (first : Factor) (rest : List (Token × Factor)),
        first.wellFormed ∧ (∀ pair ∈ rest, isAdditive pair.1 ∧ pair.2.wellFormed) ∧
        first.tokens ++ termRestTokens rest
          = identifierToken "a" :: pairTokens [(symbolToken .TOKEN_PLUS, identifierToken "b"),
              (symbolToken .TOKEN_ASTERISK, identifierToken "c")] ∧
        ∀ fuel, (identifierToken "a" :: pairTokens [(symbolToken .TOKEN_PLUS, identifierToken "b"),
              (symbolToken .TOKEN_ASTERISK, identifierToken "c")]).length + 4 ≤ fuel →
          getTerm fuel (identifierToken "a" :: pairTokens
              [(symbolToken .TOKEN_PLUS, identifierToken "b"),
                (symbolToken .TOKEN_ASTERISK, identifierToken "c")]
              ++ symbolToken .TOKEN_NEWLINE :: [])
            = .value (some ⟨termRestTokens rest ++ symbolToken .TOKEN_NEWLINE :: [],
                termTree first rest⟩)) ∧
    (getTerm 9 [identifierToken "a", symbolToken .TOKEN_PLUS, identifierToken "b",
        symbolToken .TOKEN_ASTERISK, identifierToken "c", symbolToken .TOKEN_NEWLINE]
      = .value (some ⟨[symbolToken .TOKEN_PLUS, identifierToken "b",
            symbolToken .TOKEN_ASTERISK, identifierToken "c", symbolToken .TOKEN_NEWLINE],
          binaryNode (leaf (identifierToken "a")) (symbolToken .TOKEN_PLUS)
            (binaryNode (leaf (identifierToken "b")) (symbolToken .TOKEN_ASTERISK)
              (leaf (identifierToken "c")))⟩)) ∧
    (getTerm 9 [identifierToken "a", symbolToken .TOKEN_MINUS, identifierToken "b",
        symbolToken .TOKEN_MINUS, identifierToken "c", symbolToken .TOKEN_NEWLINE]
      = .value (some ⟨[symbolToken .TOKEN_MINUS, identifierToken "b",
            symbolToken .TOKEN_MINUS, identifierToken "c", symbolToken .TOKEN_NEWLINE],
          binaryNode (binaryNode (leaf (identifierToken "a")) (symbolToken .TOKEN_MINUS)
              (leaf (identifierToken "b")))
            (symbolToken .TOKEN_MINUS) (leaf (identifierToken "c"))⟩)) :=
  have hoperand : isOperand (identifierToken "a") := Or.inr rfl
  have hpairs : ∀ pair ∈ [(symbolToken .TOKEN_PLUS, identifierToken "b"),
      (symbolToken .TOKEN_ASTERISK, identifierToken "c")],
      (isAdditive pair.1 ∨ isMultiplicative pair.1) ∧ isOperand pair.2 := by
    intro pair hmem
    simp only [List.mem_cons, List.mem_singleton, List.not_mem_nil, or_false] at hmem
    rcases hmem with h | h <;> rw [h]
    · exact ⟨Or.inl (Or.inl rfl), Or.inr rfl⟩
    · exact ⟨Or.inr (Or.inl rfl), Or.inr rfl⟩
  have hterminator : endsTerm (symbolToken .TOKEN_NEWLINE) := by
    unfold endsTerm endsFactor symbolToken
    decide
  ⟨⟨hoperand, hpairs, hterminator,
      getTerm_precedence (identifierToken "a") _ (symbolToken .TOKEN_NEWLINE) []
        hoperand hpairs hterminator⟩,
    by decide, by decide⟩

/-- C35: `getUnary` never returns on a token sequence that starts with a unary
operator token: whatever the fuel, the evaluation of `- 1` and of `not x`
followed by a newline token, and of every other sequence that starts with
`TOKEN_MINUS` or `TOKEN_NOT`, has not ended when the fuel is used up, since the
function calls itself with the iterator it was given. -/
theorem getUnary_operator_never_returns :
    (∀ fuel, getUnary fuel
        [symbolToken .TOKEN_MINUS, integerToken 1, symbolToken .TOKEN_NEWLINE] = .timeout) ∧
    (∀ fuel, getUnary fuel
        [symbolToken .TOKEN_NOT, identifierToken "x", symbolToken .TOKEN_NEWLINE] = .timeout) ∧
    (∀ fuel payload rest, getUnary fuel (⟨.TOKEN_MINUS, payload⟩ :: rest) = .timeout) ∧
    (∀ fuel payload rest, getUnary fuel (⟨.TOKEN_NOT, payload⟩ :: rest) = .timeout) := by
  have hminus : ∀ fuel payload rest,
      getUnary fuel (⟨.TOKEN_MINUS, payload⟩ :: rest) = .timeout := by
    intro fuel payload rest
    induction fuel with
    | zero => rfl
    | succ k ih => simp [getUnary, ih]
  have hnot : ∀ fuel payload rest,
      getUnary fuel (⟨.TOKEN_NOT, payload⟩ :: rest) = .timeout := by
    intro fuel payload rest
    induction fuel with
    | zero => rfl
    | succ k ih => simp [getUnary, ih]
  exact ⟨fun fuel => hminus fuel none _, fun fuel => hnot fuel none _, hminus, hnot⟩

/-- C36: on the tokens `f ( )` followed by a newline token `getCall` throws
"Expected: closing )", whatever the fuel from two on, while on `f ( ]` it
returns the call of `f` with no arguments and the position of the newline
token: the token that ends an argument list is `TOKEN_RIGHT_BRACKET`. -/
theorem getCall_right_paren_throws :
    (∀ fuel, getCall (fuel + 2)
        [identifierToken "f", symbolToken .TOKEN_LEFT_PAREN, symbolToken .TOKEN_RIGHT_PAREN,
          symbolToken .TOKEN_NEWLINE]
      = .threw "Expected: closing \")\"") ∧
    (∀ fuel, getCall (fuel + 3)
        [identifierToken "f", symbolToken .TOKEN_LEFT_PAREN, symbolToken .TOKEN_RIGHT_BRACKET,
          symbolToken .TOKEN_NEWLINE]
      = .value (some ⟨[symbolToken .TOKEN_NEWLINE],
          .call (.mk (leaf (identifierToken "f")) .nil)⟩)) := by
  constructor
  · intro fuel
    simp [getCall, getPrimary, getCallLoop, getArguments, getExpression, identifierToken,
      symbolToken]
  · intro fuel
    simp [getCall, getPrimary, getCallLoop, getArguments, getExpression, buildCallTree,
      toExpressionList, identifierToken, symbolToken, leaf]

/-- C37: on the tokens `a . b` followed by a newline token `getCall` throws
"Expected: Primary following .", whatever the fuel from one on: the branch of
the dot reads a primary at the dot itself. -/
theorem getCall_dot_throws :
    ∀ fuel, getCall (fuel + 1)
        [identifierToken "a", symbolToken .TOKEN_DOT, identifierToken "b",
          symbolToken .TOKEN_NEWLINE]
      = .threw "Expected: Primary following \".\"" := by
  intro fuel
  simp [getCall, getPrimary, getCallLoop, identifierToken, symbolToken]

/-- C38: on the tokens `1 + 2` followed by a newline token `getTerm` returns the
tree of `1 + 2` and the position of the `+` token, just after the first
factor, not the position of the newline token; `getFactor` on `1 * 2` followed
by a newline token does return the position of the newline token. -/
theorem getTerm_position_after_first_factor :
    getTerm 6 [integerToken 1, symbolToken .TOKEN_PLUS, integerToken 2,
        symbolToken .TOKEN_NEWLINE]
      = .value (some ⟨[symbolToken .TOKEN_PLUS, integerToken 2, symbolToken .TOKEN_NEWLINE],
          binaryNode (leaf (integerToken 1)) (symbolToken .TOKEN_PLUS)
            (leaf (integerToken 2))⟩) ∧
    getFactor 6 [integerToken 1, symbolToken .TOKEN_ASTERISK, integerToken 2,
        symbolToken .TOKEN_NEWLINE]
      = .value (some ⟨[symbolToken .TOKEN_NEWLINE],
          binaryNode (leaf (integerToken 1)) (symbolToken .TOKEN_ASTERISK)
            (leaf (integerToken 2))⟩) := by
  constructor <;> decide

end GoldScorpion.Parser
